import Mathlib

/-!
Clock configuration arbitration (`clock_control_nrf2_common.c`)

A shallow embedding of `drivers/clock_control/clock_control_nrf2_common.c`.

* Machine words are natural numbers; the target word (`atomic_val_t`, `unsigned long`,
  `uint32_t`) is 32 bits wide, so a flag word `f` satisfies `f < 2 ^ 32`.
* `FLAGS_COMMON_BITS` comes from the header `clock_control_nrf2_common.h`; it is the
  parameter `N` of every definition that uses it. The code is meaningful for
  `2 ≤ N ≤ 32`.
* The `onoff` array of a configuration is a list, the storage the caller supplied.
  `nrf2_clock_config_init` reports an access beyond the list as an outcome of its own; the
  other operations are stated for options inside it (`Sound`).
* Calls into other subsystems (`k_work_submit`, the notification callbacks,
  `onoff_manager_init`) are recorded, in program order, as a list of `Event`s. A callback
  is identified by a number and is not run: what it does to the configuration, if
  anything, is a separate call of one of the operations below.
* Each operation is modelled as running to completion without interleaving; sequences of
  calls are the executions of the transition system `step`.
* The list helpers of the power-domain part (`sys_slist_*`) and the constants of the
  POWERON register are not in the sources: the helpers are modelled on lists of node
  addresses, the constants are a parameter.
-/

namespace ClockControlNrf2

/-! ## Bit helpers -/

/-- The macro `BIT(n)`, that is `1UL << n`. -/
def BIT (n : Nat) : Nat := 1 <<< n

/-- The macro `BIT_MASK(n)`, that is `BIT(n) - 1UL`. -/
def BIT_MASK (n : Nat) : Nat := BIT n - 1

/-- The C operator `~` on a 32-bit word. -/
def NOT (x : Nat) : Nat := (2 ^ 32 - 1) ^^^ x

/-- The macro `FLAG_UPDATE_IN_PROGRESS`, `BIT(FLAGS_COMMON_BITS - 1)`. -/
def FLAG_UPDATE_IN_PROGRESS (N : Nat) : Nat := BIT (N - 1)

/-- The macro `FLAG_UPDATE_NEEDED`, `BIT(FLAGS_COMMON_BITS - 2)`. -/
def FLAG_UPDATE_NEEDED (N : Nat) : Nat := BIT (N - 2)

/-- The macro `ONOFF_CNT_MAX`, `FLAGS_COMMON_BITS - 2`. -/
def ONOFF_CNT_MAX (N : Nat) : Nat := N - 2

/-- The primitive `atomic_or(target, value)`: the pair (previous value, new value of the target). -/
def atomic_or (target value : Nat) : Nat × Nat := (target, target ||| value)

/-- The primitive `atomic_and(target, value)`: the pair (previous value, new value of the target). -/
def atomic_and (target value : Nat) : Nat × Nat := (target, target &&& value)

/-! ## Data model -/

/-- One `struct clock_onoff`: the pending notification (`none` is `NULL`, `some fn` the
callback `fn`) and the option index. The embedded `struct onoff_manager` belongs to the
on-off library and is identified by the position of the entry in the `onoff` array. -/
structure ClockOnoff where
  notify : Option Nat
  idx : Nat
  deriving DecidableEq

/-- The `struct clock_config_generic`. The field `work` holds the handler bound by
`k_work_init` (`none` before it is bound). -/
structure ClockConfig where
  flags : Nat
  flags_snapshot : Nat
  work : Option Nat
  onoff_cnt : Nat
  onoff : List ClockOnoff
  deriving DecidableEq

/-- Calls that leave this file, in program order. -/
inductive Event where
  /-- The call `k_work_submit(&cfg->work)`. -/
  | work_submit : Event
  /-- The call `fn(&cfg->onoff[i].mgr, status)` of a notification callback. -/
  | notify (fn : Nat) (i : Nat) (status : Int) : Event
  /-- The call `onoff_manager_init(&cfg->onoff[i].mgr, &transitions)`. -/
  | mgr_init (i : Nat) : Event
  deriving DecidableEq

/-- Whether an event is a notification callback invoked for option `i`. -/
def Event.isNotifyOf (i : Nat) : Event → Bool
  | Event.notify _ j _ => decide (j = i)
  | _ => false

/-- Whether an event is a submission of the deferred-work unit. -/
def Event.isSubmit : Event → Bool
  | Event.work_submit => true
  | _ => false

/-! ## Operations -/

/-- The function `update_config`. -/
def update_config (N : Nat) (cfg : ClockConfig) : ClockConfig × List Event :=
  let r := atomic_or cfg.flags (FLAG_UPDATE_NEEDED N)
  let prev_flags := r.1
  let cfg1 := { cfg with flags := r.2 }
  if prev_flags &&& (FLAG_UPDATE_NEEDED N ||| FLAG_UPDATE_IN_PROGRESS N) ≠ 0 then
    (cfg1, [])
  else
    (cfg1, [Event.work_submit])

/-- The function `onoff_start_option`, called for the manager of `cfg->onoff[p]` with the
callback `notify`. -/
def onoff_start_option (N : Nat) (cfg : ClockConfig) (p : Nat) (notify : Nat) :
    ClockConfig × List Event :=
  match cfg.onoff[p]? with
  | none => (cfg, [])
  | some onoff =>
    let cfg1 := { cfg with onoff := cfg.onoff.set p { onoff with notify := some notify } }
    let cfg2 := { cfg1 with flags := (atomic_or cfg1.flags (BIT onoff.idx)).2 }
    update_config N cfg2

/-- The function `onoff_stop_option`, called for the manager of `cfg->onoff[p]` with the
callback `notify`. -/
def onoff_stop_option (N : Nat) (cfg : ClockConfig) (p : Nat) (notify : Nat) :
    ClockConfig × List Event :=
  match cfg.onoff[p]? with
  | none => (cfg, [])
  | some onoff =>
    let cfg1 := { cfg with flags := (atomic_and cfg.flags (NOT (BIT onoff.idx))).2 }
    let r := update_config N cfg1
    (r.1, r.2 ++ [Event.notify notify p 0])

/-- Leading zeros among the low `k` bits of `v`, scanning from bit `k - 1` downwards. -/
def clz_from : Nat → Nat → Nat
  | 0, _ => 0
  | k + 1, v => if v.testBit k then 0 else clz_from k v + 1

/-- The compiler builtin `__builtin_clz` on a 32-bit `unsigned int`
(its result is undefined for 0, where this model gives 32). -/
def builtin_clz (v : Nat) : Nat := clz_from 32 v

/-- The function `get_index_of_highest_bit` (argument `uint32_t`, result `uint8_t`). -/
def get_index_of_highest_bit (value : Nat) : Nat :=
  if value ≠ 0 then (31 - builtin_clz value) % 256 else 0

/-- The function `nrf2_clock_config_update_begin`: the configuration after the call and the
returned index. -/
def nrf2_clock_config_update_begin (N : Nat) (cfg : ClockConfig) : ClockConfig × Nat :=
  let cfg1 := { cfg with flags := (atomic_or cfg.flags (FLAG_UPDATE_IN_PROGRESS N)).2 }
  let r := atomic_and cfg1.flags (NOT (FLAG_UPDATE_NEEDED N))
  let cfg2 := { cfg1 with flags := r.2, flags_snapshot := r.1 % 2 ^ 32 }
  let active_options := (cfg2.flags_snapshot &&& BIT_MASK (ONOFF_CNT_MAX N)) % 2 ^ 32
  (cfg2, get_index_of_highest_bit active_options)

/-- One iteration, for index `i`, of the loop of `nrf2_clock_config_update_end`. -/
def update_end_body (status : Int) (st : ClockConfig × List Event) (i : Nat) :
    ClockConfig × List Event :=
  if st.1.flags_snapshot &&& BIT i ≠ 0 then
    match st.1.onoff[i]? with
    | none => st
    | some o =>
      match o.notify with
      | none => st
      | some fn =>
        let flags :=
          if status < 0 then (atomic_and st.1.flags (NOT (BIT i))).2 else st.1.flags
        ({ st.1 with flags := flags, onoff := st.1.onoff.set i { o with notify := none } },
          st.2 ++ [Event.notify fn i status])
  else st

/-- The function `nrf2_clock_config_update_end`. -/
def nrf2_clock_config_update_end (N : Nat) (cfg : ClockConfig) (status : Int) :
    ClockConfig × List Event :=
  let r := atomic_and cfg.flags (NOT (FLAG_UPDATE_IN_PROGRESS N))
  let prev_flags := r.1
  let cfg1 := { cfg with flags := r.2 }
  if prev_flags &&& FLAG_UPDATE_IN_PROGRESS N = 0 then
    (cfg1, [])
  else
    let st := (List.range cfg1.onoff_cnt).foldl (update_end_body status) (cfg1, [])
    if prev_flags &&& FLAG_UPDATE_NEEDED N ≠ 0 then
      (st.1, st.2 ++ [Event.work_submit])
    else st

/-- Outcome of `nrf2_clock_config_init`: the assertion at its head fails (the call does
not return), or it returns `rc` and leaves the configuration `cfg`, having made the calls
`evs`, or it reaches the entry `cfg->onoff[i]` beyond the storage it was given (an access
outside the array, about which nothing is said). -/
inductive InitResult where
  | assert_failed : InitResult
  | returned (rc : Int) (cfg : ClockConfig) (evs : List Event) : InitResult
  | outside (i : Nat) : InitResult
  deriving DecidableEq

/-- How the loop of `nrf2_clock_config_init` is left: it ran to its end, it left the
function with `return rc`, or it reached the entry `cfg->onoff[i]` beyond the storage. -/
inductive GatesExit where
  | completed : GatesExit
  | returned (rc : Int) : GatesExit
  | outside (i : Nat) : GatesExit
  deriving DecidableEq

/-- The loop of `nrf2_clock_config_init` over the indices `is`; `mgr_rc i` is the value
returned by `onoff_manager_init` for `cfg->onoff[i].mgr`. Each iteration addresses the
entry `cfg->onoff[i]`; the list `cfg.onoff` is the storage the caller supplied. -/
def init_gates (mgr_rc : Nat → Int) :
    List Nat → ClockConfig → List Event → GatesExit × ClockConfig × List Event
  | [], cfg, evs => (GatesExit.completed, cfg, evs)
  | i :: rest, cfg, evs =>
    match cfg.onoff[i]? with
    | none => (GatesExit.outside i, cfg, evs)
    | some o =>
      let rc := mgr_rc i
      if rc < 0 then
        (GatesExit.returned rc, cfg, evs ++ [Event.mgr_init i])
      else
        init_gates mgr_rc rest
          { cfg with onoff := cfg.onoff.set i { o with idx := i % 256 } }
          (evs ++ [Event.mgr_init i])

/-- The function `nrf2_clock_config_init`. `asserts` tells whether `__ASSERT_NO_MSG` is
compiled in, `mgr_rc i` is the value returned by `onoff_manager_init` for gate `i`. -/
def nrf2_clock_config_init (N : Nat) (asserts : Bool) (mgr_rc : Nat → Int)
    (cfg : ClockConfig) (onoff_cnt : Nat) (update_work_handler : Nat) : InitResult :=
  if asserts && !decide (onoff_cnt ≤ ONOFF_CNT_MAX N) then
    InitResult.assert_failed
  else
    match init_gates mgr_rc (List.range onoff_cnt) cfg [] with
    | (GatesExit.returned rc, cfg1, evs) => InitResult.returned rc cfg1 evs
    | (GatesExit.completed, cfg1, evs) =>
      InitResult.returned 0
        { cfg1 with onoff_cnt := onoff_cnt, work := some update_work_handler } evs
    | (GatesExit.outside i, _, _) => InitResult.outside i

/-- A configuration with the given flag word and `cnt` options without pending notification. -/
def mkConfig (flags cnt : Nat) : ClockConfig :=
  { flags := flags, flags_snapshot := 0, work := none, onoff_cnt := cnt,
    onoff := (List.range cnt).map (fun i => { notify := none, idx := i }) }

/-- The field `cfg->onoff[i].notify`: the pending notification of option `i`
(`none` when it is `NULL`, and when the array has no entry `i`). -/
def pending_notify (cfg : ClockConfig) (i : Nat) : Option Nat :=
  match cfg.onoff[i]? with
  | none => none
  | some o => o.notify

/-- Option `i` is in the snapshot and has a pending notification. -/
def notified (cfg : ClockConfig) (i : Nat) : Bool :=
  cfg.flags_snapshot.testBit i && (pending_notify cfg i).isSome

/-- The callback invocation owed to option `i` by a completion with `status`. -/
def end_notice (status : Int) (cfg : ClockConfig) (i : Nat) : List Event :=
  if cfg.flags_snapshot.testBit i then
    match pending_notify cfg i with
    | none => []
    | some fn => [Event.notify fn i status]
  else []

/-- An entry of the `onoff` array with its `notify` field set to `NULL`. -/
def ClockOnoff.cleared (o : ClockOnoff) : ClockOnoff := { o with notify := none }

/-- A configuration with the given flag word and snapshot and `cnt` options, of which
option `p` waits for the callback `fn`. -/
def mkWaiting (flags snapshot cnt p fn : Nat) : ClockConfig :=
  { flags := flags, flags_snapshot := snapshot, work := none, onoff_cnt := cnt,
    onoff := (List.range cnt).map
      (fun i => { notify := if i = p then some fn else none, idx := i }) }

/-- The value returned by `nrf2_clock_config_init`, when it returns. -/
def InitResult.code : InitResult → Option Int
  | InitResult.assert_failed => none
  | InitResult.returned rc _ _ => some rc
  | InitResult.outside _ => none

/-- The configuration left by `nrf2_clock_config_init`, when it returns. -/
def InitResult.config : InitResult → Option ClockConfig
  | InitResult.assert_failed => none
  | InitResult.returned _ cfg _ => some cfg
  | InitResult.outside _ => none

/-- The calls made by `nrf2_clock_config_init`, when it returns. -/
def InitResult.calls : InitResult → List Event
  | InitResult.assert_failed => []
  | InitResult.returned _ _ evs => evs
  | InitResult.outside _ => []

/-- An entry of the `onoff` array with its `idx` field set to `(uint8_t)k`. -/
def ClockOnoff.indexed (k : Nat) (o : ClockOnoff) : ClockOnoff := { o with idx := k % 256 }

/-- Zeroed storage for a configuration with room for `cap` options. -/
def blankConfig (cap : Nat) : ClockConfig :=
  { flags := 0, flags_snapshot := 0, work := none, onoff_cnt := 0,
    onoff := List.replicate cap { notify := none, idx := 0 } }

/-! ## The driver as a transition system -/

/-- A configuration as `nrf2_clock_config_init` leaves it and the operations keep it: at
most `ONOFF_CNT_MAX` options, each stored in the array and carrying its own position as
index. -/
def Sound (N : Nat) (cfg : ClockConfig) : Prop :=
  cfg.onoff_cnt ≤ ONOFF_CNT_MAX N ∧
  ∀ i, i < cfg.onoff_cnt → ∃ o, cfg.onoff[i]? = some o ∧ o.idx = i

/-- The calls into the driver: the on-off manager of option `i` calls `onoff_start_option`
or `onoff_stop_option` with a callback `fn`, the work queue runs the submitted work unit
(whose handler calls `nrf2_clock_config_update_begin`), and the hardware driver calls
`nrf2_clock_config_update_end` with a status. -/
inductive Call where
  | start (i fn : Nat) : Call
  | stop (i fn : Nat) : Call
  | work : Call
  | finish (status : Int) : Call
  deriving DecidableEq

/-- The driver together with its work queue: `queued` counts the submissions of the work
unit that have not run yet, and the history variable `recent` lists the options started
since `nrf2_clock_config_update_begin` last ran (latest first). -/
structure Sys where
  cfg : ClockConfig
  queued : Nat
  recent : List Nat
  deriving DecidableEq

/-- The number of `k_work_submit` calls among the events. -/
def submits (evs : List Event) : Nat := (evs.filter Event.isSubmit).length

/-- One call. `start` and `stop` address an option of the configuration; `work` is enabled
only when the work unit is queued and takes it from the queue. -/
def step (N : Nat) (s : Sys) : Call → Option Sys
  | Call.start i fn =>
    if i < s.cfg.onoff_cnt then
      some { cfg := (onoff_start_option N s.cfg i fn).1,
             queued := s.queued + submits (onoff_start_option N s.cfg i fn).2,
             recent := i :: s.recent }
    else none
  | Call.stop i fn =>
    if i < s.cfg.onoff_cnt then
      some { cfg := (onoff_stop_option N s.cfg i fn).1,
             queued := s.queued + submits (onoff_stop_option N s.cfg i fn).2,
             recent := s.recent }
    else none
  | Call.work =>
    if 0 < s.queued then
      some { cfg := (nrf2_clock_config_update_begin N s.cfg).1,
             queued := s.queued - 1,
             recent := [] }
    else none
  | Call.finish status =>
    some { cfg := (nrf2_clock_config_update_end N s.cfg status).1,
           queued := s.queued + submits (nrf2_clock_config_update_end N s.cfg status).2,
           recent := s.recent }

/-- A sequence of calls, from the first to the last; `none` when one of them is not
enabled. -/
def exec (N : Nat) : Sys → List Call → Option Sys
  | s, [] => some s
  | s, c :: cs =>
    match step N s c with
    | none => none
    | some s2 => exec N s2 cs

/-- The gate protocol along a sequence of calls: `stop` is never called for an option that
has a pending notification. -/
def gate_ok (N : Nat) : Sys → List Call → Bool
  | _, [] => true
  | s, c :: cs =>
    (match c with
      | Call.stop i _ => (pending_notify s.cfg i).isNone
      | _ => true) &&
    (match step N s c with
      | none => true
      | some s2 => gate_ok N s2 cs)

/-- An initialised idle driver: no flag set, nothing queued, no option waiting. -/
def Idle (N : Nat) (s : Sys) : Prop :=
  s.queued = 0 ∧ s.cfg.flags = 0 ∧ Sound N s.cfg ∧
  ∀ i, i < s.cfg.onoff_cnt → pending_notify s.cfg i = none

/-- The idle driver with `cnt` options. -/
def idleSys (cnt : Nat) : Sys := { cfg := mkConfig 0 cnt, queued := 0, recent := [] }

/-- The facts about the flags and the work queue that every call keeps: the configuration
is sound, the work unit is queued at most once and only while UPDATE_NEEDED is set and
UPDATE_IN_PROGRESS is clear, a set UPDATE_NEEDED is covered by a pass in progress or a
queued work unit, and no flag bit between the options and UPDATE_NEEDED is set. -/
def Coherent (N : Nat) (s : Sys) : Prop :=
  Sound N s.cfg ∧
  s.queued ≤ 1 ∧
  (0 < s.queued → s.cfg.flags.testBit (N - 2) = true ∧ s.cfg.flags.testBit (N - 1) = false) ∧
  (s.cfg.flags.testBit (N - 2) = true →
    s.cfg.flags.testBit (N - 1) = true ∨ 0 < s.queued) ∧
  ∀ j, s.cfg.onoff_cnt ≤ j → j < N - 2 → s.cfg.flags.testBit j = false

/-- Every option with a pending notification has its bit set in the flags and is covered
by a requested pass (UPDATE_NEEDED) or by the snapshot of the pass in progress. -/
def Served (N : Nat) (s : Sys) : Prop :=
  ∀ i, i < s.cfg.onoff_cnt → pending_notify s.cfg i ≠ none →
    s.cfg.flags.testBit i = true ∧
    (s.cfg.flags.testBit (N - 2) = true ∨
      (s.cfg.flags.testBit (N - 1) = true ∧ s.cfg.flags_snapshot.testBit i = true))

/-- While a pass is in progress, every option started since its begin is an option of the
configuration and still has its notification pending. -/
def Fresh (N : Nat) (s : Sys) : Prop :=
  s.cfg.flags.testBit (N - 1) = true →
    ∀ i, i ∈ s.recent → i < s.cfg.onoff_cnt ∧ pending_notify s.cfg i ≠ none

/-! ## Forcing the main power domain -/

/-- The constants `LRCCONF_POWERON_MAIN_Msk`, `LRCCONF_POWERON_MAIN_AlwaysOn` and
`LRCCONF_POWERON_MAIN_Automatic` of the hardware header, as the code uses them: the mask of
the MAIN field of the POWERON register and the two bit patterns it ORs into the register. -/
structure PoweronMain where
  Msk : Nat
  AlwaysOn : Nat
  Automatic : Nat
  deriving DecidableEq

/-- The constants describe a field of a 32-bit register and two different values of it. -/
def PoweronMain.valid (m : PoweronMain) : Prop :=
  m.Msk < 2 ^ 32 ∧ m.AlwaysOn &&& m.Msk = m.AlwaysOn ∧
  m.Automatic &&& m.Msk = m.Automatic ∧ m.AlwaysOn ≠ m.Automatic

/-- Modelled from the spec: the list helper `sys_slist_len` is not in the sources; a list
of sinks is the list of the addresses of its nodes, and its length is the number of
owners. -/
def sys_slist_len (list : List Nat) : Nat := list.length

/-- Modelled from the spec: the list helper `sys_slist_find_and_remove` is not in the
sources; it removes the node from the list if it is present and tells whether it was. -/
def sys_slist_find_and_remove (list : List Nat) (node : Nat) : Bool × List Nat :=
  (decide (node ∈ list), list.erase node)

/-- Modelled from the spec: the list helper `sys_slist_append` is not in the sources; it
appends the node at the end of the list. -/
def sys_slist_append (list : List Nat) (node : Nat) : List Nat := list ++ [node]

/-- The process-wide state behind `poweron_main_lock`: the list `poweron_main_list` and
the register `NRF_LRCCONF010->POWERON`. -/
structure PoweronState where
  poweron_main_list : List Nat
  POWERON : Nat
  deriving DecidableEq

/-- The function `nrf2_clock_request_lrcconf_poweron_main` for the sink whose node has the
address `sink`. -/
def nrf2_clock_request_lrcconf_poweron_main (m : PoweronMain) (st : PoweronState)
    (sink : Nat) : PoweronState :=
  let POWERON :=
    if sys_slist_len st.poweron_main_list = 0 then
      (st.POWERON &&& NOT m.Msk) ||| m.AlwaysOn
    else st.POWERON
  let r := sys_slist_find_and_remove st.poweron_main_list sink
  { poweron_main_list := sys_slist_append r.2 sink, POWERON := POWERON }

/-- The function `nrf2_clock_release_lrcconf_poweron_main` for the sink whose node has the
address `sink`. -/
def nrf2_clock_release_lrcconf_poweron_main (m : PoweronMain) (st : PoweronState)
    (sink : Nat) : PoweronState :=
  let r := sys_slist_find_and_remove st.poweron_main_list sink
  if !r.1 then
    { st with poweron_main_list := r.2 }
  else if sys_slist_len r.2 > 0 then
    { st with poweron_main_list := r.2 }
  else
    { poweron_main_list := r.2, POWERON := (st.POWERON &&& NOT m.Msk) ||| m.Automatic }

/-- The calls of the owners of the main power domain. -/
inductive SinkCall where
  | acquire (sink : Nat) : SinkCall
  | release (sink : Nat) : SinkCall
  deriving DecidableEq

/-- One call of an owner. -/
def sink_step (m : PoweronMain) (st : PoweronState) : SinkCall → PoweronState
  | SinkCall.acquire sink => nrf2_clock_request_lrcconf_poweron_main m st sink
  | SinkCall.release sink => nrf2_clock_release_lrcconf_poweron_main m st sink

/-- A sequence of calls of the owners, from the first to the last. -/
def sink_run (m : PoweronMain) (st : PoweronState) (calls : List SinkCall) : PoweronState :=
  calls.foldl (sink_step m) st

/-- Stated after the spec, for comparison with the list: the effect of one call on the set
of held sinks, acquire adds the sink and release takes it away. -/
def held_step (h : Nat → Bool) : SinkCall → Nat → Bool
  | SinkCall.acquire sink => fun x => decide (x = sink) || h x
  | SinkCall.release sink => fun x => !decide (x = sink) && h x

/-- Stated after the spec, for comparison with the list: whether sink `x` has been acquired
and not released since, after the calls. -/
def held (calls : List SinkCall) (x : Nat) : Bool :=
  calls.foldl held_step (fun _ => false) x

/-- Sample values of the constants of the MAIN field: a one-bit field at bit 0 with
AlwaysOn = 1 and Automatic = 0. -/
def samplePoweronMain : PoweronMain := { Msk := 1, AlwaysOn := 1, Automatic := 0 }

/-! ## Bit-level lemmas -/

theorem BIT_eq (k : Nat) : BIT k = 2 ^ k := by
  simp [BIT, Nat.one_shiftLeft]

theorem testBit_BIT (k i : Nat) : (BIT k).testBit i = decide (k = i) := by
  rw [BIT_eq, Nat.testBit_two_pow]

theorem testBit_of_lt_word {f : Nat} (hf : f < 2 ^ 32) {i : Nat} (hi : 32 ≤ i) :
    f.testBit i = false :=
  Nat.testBit_lt_two_pow (Nat.lt_of_lt_of_le hf (Nat.pow_le_pow_right (by decide) hi))

theorem and_BIT_ne_zero (f k : Nat) : f &&& BIT k ≠ 0 ↔ f.testBit k = true := by
  constructor
  · intro h
    obtain ⟨i, hi⟩ := Nat.ne_zero_implies_bit_true h
    rw [Nat.testBit_and, testBit_BIT] at hi
    simp only [Bool.and_eq_true, decide_eq_true_eq] at hi
    rw [hi.2]; exact hi.1
  · intro h h0
    have h1 : (f &&& BIT k).testBit k = true := by
      rw [Nat.testBit_and, testBit_BIT, h]; simp
    rw [h0] at h1
    simp at h1

theorem and_BIT_eq_zero (f k : Nat) : f &&& BIT k = 0 ↔ f.testBit k = false := by
  have h := and_BIT_ne_zero f k
  constructor
  · intro h0
    cases hb : f.testBit k
    · rfl
    · exact absurd h0 (h.mpr hb)
  · intro hb
    by_contra hne
    rw [h.mp hne] at hb
    exact Bool.noConfusion hb

theorem testBit_NOT_BIT {k : Nat} (hk : k < 32) (i : Nat) :
    (NOT (BIT k)).testBit i = (decide (i < 32) && !decide (k = i)) := by
  unfold NOT
  rw [Nat.testBit_xor, Nat.testBit_two_pow_sub_one, testBit_BIT]
  by_cases hi : i < 32
  · simp [hi]
  · have hne : ¬ k = i := by omega
    simp [hi, hne]

theorem testBit_and_NOT_BIT (f : Nat) {k : Nat} (hk : k < 32) (i : Nat) :
    (f &&& NOT (BIT k)).testBit i = (f.testBit i && (decide (i < 32) && !decide (k = i))) := by
  rw [Nat.testBit_and, testBit_NOT_BIT hk]

theorem testBit_and_NOT_BIT_word {f : Nat} (hf : f < 2 ^ 32) {k : Nat} (hk : k < 32) (i : Nat) :
    (f &&& NOT (BIT k)).testBit i = (f.testBit i && !decide (k = i)) := by
  rw [testBit_and_NOT_BIT f hk]
  by_cases hi : i < 32
  · simp [hi]
  · rw [testBit_of_lt_word hf (Nat.le_of_not_lt hi)]; simp

theorem and_NOT_BIT_lt {f : Nat} (hf : f < 2 ^ 32) (k : Nat) : f &&& NOT (BIT k) < 2 ^ 32 :=
  Nat.lt_of_le_of_lt Nat.and_le_left hf

theorem or_BIT_lt {f : Nat} (hf : f < 2 ^ 32) {k : Nat} (hk : k < 32) :
    f ||| BIT k < 2 ^ 32 := by
  rw [BIT_eq]
  exact Nat.or_lt_two_pow hf (Nat.pow_lt_pow_right (by decide) hk)

theorem and_flags_ne_zero (N f : Nat) :
    f &&& (FLAG_UPDATE_NEEDED N ||| FLAG_UPDATE_IN_PROGRESS N) ≠ 0 ↔
      (f.testBit (N - 2) = true ∨ f.testBit (N - 1) = true) := by
  unfold FLAG_UPDATE_NEEDED FLAG_UPDATE_IN_PROGRESS
  constructor
  · intro h
    obtain ⟨i, hi⟩ := Nat.ne_zero_implies_bit_true h
    rw [Nat.testBit_and, Nat.testBit_or, testBit_BIT, testBit_BIT] at hi
    simp only [Bool.and_eq_true, Bool.or_eq_true, decide_eq_true_eq] at hi
    rcases hi.2 with h2 | h1
    · left; rw [h2]; exact hi.1
    · right; rw [h1]; exact hi.1
  · intro h h0
    rcases h with h2 | h1
    · have : (f &&& (BIT (N - 2) ||| BIT (N - 1))).testBit (N - 2) = true := by
        rw [Nat.testBit_and, Nat.testBit_or, testBit_BIT, h2]; simp
      rw [h0] at this; simp at this
    · have : (f &&& (BIT (N - 2) ||| BIT (N - 1))).testBit (N - 1) = true := by
        rw [Nat.testBit_and, Nat.testBit_or, testBit_BIT, testBit_BIT, h1]; simp
      rw [h0] at this; simp at this

/-! ## The update request (`update_config`) -/

/-- C1: `update_config` turns the flag word `f` into `f ||| FLAG_UPDATE_NEEDED`, so bit
`N - 2` is set and every other bit is as before, touches nothing else, and submits the work
unit exactly when neither UPDATE_NEEDED nor UPDATE_IN_PROGRESS was set in `f`; when one of
them was set it makes no call at all. -/
theorem update_config_spec (N : Nat) (cfg : ClockConfig) :
    (update_config N cfg).1 = { cfg with flags := cfg.flags ||| FLAG_UPDATE_NEEDED N } ∧
    (update_config N cfg).1.flags.testBit (N - 2) = true ∧
    (∀ i, i ≠ N - 2 → (update_config N cfg).1.flags.testBit i = cfg.flags.testBit i) ∧
    ((update_config N cfg).2 = [Event.work_submit] ↔
      (cfg.flags.testBit (N - 2) = false ∧ cfg.flags.testBit (N - 1) = false)) ∧
    ((cfg.flags.testBit (N - 2) = true ∨ cfg.flags.testBit (N - 1) = true) →
      (update_config N cfg).2 = []) := by
  have hflags : (update_config N cfg).1 =
      { cfg with flags := cfg.flags ||| FLAG_UPDATE_NEEDED N } := by
    unfold update_config atomic_or
    dsimp only
    split <;> rfl
  have hev : (update_config N cfg).2 =
      if cfg.flags.testBit (N - 2) = true ∨ cfg.flags.testBit (N - 1) = true then []
      else [Event.work_submit] := by
    unfold update_config atomic_or
    dsimp only
    by_cases h : cfg.flags.testBit (N - 2) = true ∨ cfg.flags.testBit (N - 1) = true
    · rw [if_pos ((and_flags_ne_zero N cfg.flags).mpr h), if_pos h]
    · rw [if_neg (fun hne => h ((and_flags_ne_zero N cfg.flags).mp hne)), if_neg h]
  refine ⟨hflags, ?_, ?_, ?_, ?_⟩
  · rw [hflags]
    simp [FLAG_UPDATE_NEEDED, testBit_BIT]
  · intro i hi
    rw [hflags]
    have : ¬ (N - 2 = i) := fun h => hi h.symm
    simp [FLAG_UPDATE_NEEDED, testBit_BIT, this]
  · rw [hev]
    by_cases h : cfg.flags.testBit (N - 2) = true ∨ cfg.flags.testBit (N - 1) = true
    · rw [if_pos h]
      constructor
      · intro h0; exact absurd h0 (by simp)
      · rintro ⟨h2, h1⟩
        rcases h with h | h
        · rw [h2] at h; exact Bool.noConfusion h
        · rw [h1] at h; exact Bool.noConfusion h
    · rw [if_neg h]
      constructor
      · intro _
        constructor
        · cases hb : cfg.flags.testBit (N - 2)
          · rfl
          · exact absurd (Or.inl hb) h
        · cases hb : cfg.flags.testBit (N - 1)
          · rfl
          · exact absurd (Or.inr hb) h
      · intro _; rfl
  · intro h
    rw [hev, if_pos h]

/-! ## Beginning an update pass (`nrf2_clock_config_update_begin`) -/

theorem update_begin_cfg (N : Nat) (cfg : ClockConfig) :
    (nrf2_clock_config_update_begin N cfg).1 =
      { cfg with
        flags := (cfg.flags ||| FLAG_UPDATE_IN_PROGRESS N) &&& NOT (FLAG_UPDATE_NEEDED N),
        flags_snapshot := (cfg.flags ||| FLAG_UPDATE_IN_PROGRESS N) % 2 ^ 32 } := rfl

theorem update_begin_ret (N : Nat) (cfg : ClockConfig) :
    (nrf2_clock_config_update_begin N cfg).2 =
      get_index_of_highest_bit
        ((((cfg.flags ||| FLAG_UPDATE_IN_PROGRESS N) % 2 ^ 32) &&&
          BIT_MASK (ONOFF_CNT_MAX N)) % 2 ^ 32) := rfl

/-- C2: `nrf2_clock_config_update_begin` turns the flag word `f` into
`(f ||| UPDATE_IN_PROGRESS) &&& ~UPDATE_NEEDED` and stores `f ||| UPDATE_IN_PROGRESS`, the
word as it stood when UPDATE_NEEDED was cleared, in `flags_snapshot`; afterwards bit `N - 1`
of `flags` is set, bit `N - 2` is clear, every other bit of `flags` is as before, and every
option bit of the snapshot equals that bit of `f`. Nothing else changes. -/
theorem update_begin_spec (N : Nat) (cfg : ClockConfig) (hN2 : 2 ≤ N) (hN : N ≤ 32)
    (hf : cfg.flags < 2 ^ 32) :
    (nrf2_clock_config_update_begin N cfg).1.flags =
      (cfg.flags ||| FLAG_UPDATE_IN_PROGRESS N) &&& NOT (FLAG_UPDATE_NEEDED N) ∧
    (nrf2_clock_config_update_begin N cfg).1.flags_snapshot =
      cfg.flags ||| FLAG_UPDATE_IN_PROGRESS N ∧
    (nrf2_clock_config_update_begin N cfg).1.flags.testBit (N - 1) = true ∧
    (nrf2_clock_config_update_begin N cfg).1.flags.testBit (N - 2) = false ∧
    (∀ i, i ≠ N - 1 → i ≠ N - 2 →
      (nrf2_clock_config_update_begin N cfg).1.flags.testBit i = cfg.flags.testBit i) ∧
    (∀ i, i < ONOFF_CNT_MAX N →
      (nrf2_clock_config_update_begin N cfg).1.flags_snapshot.testBit i = cfg.flags.testBit i ∧
      (nrf2_clock_config_update_begin N cfg).1.flags.testBit i = cfg.flags.testBit i) ∧
    (nrf2_clock_config_update_begin N cfg).1.work = cfg.work ∧
    (nrf2_clock_config_update_begin N cfg).1.onoff_cnt = cfg.onoff_cnt ∧
    (nrf2_clock_config_update_begin N cfg).1.onoff = cfg.onoff := by
  have hor : cfg.flags ||| FLAG_UPDATE_IN_PROGRESS N < 2 ^ 32 :=
    or_BIT_lt hf (by omega)
  have hbit : ∀ i, ((cfg.flags ||| FLAG_UPDATE_IN_PROGRESS N) &&&
      NOT (FLAG_UPDATE_NEEDED N)).testBit i =
        ((cfg.flags.testBit i || decide (N - 1 = i)) && !decide (N - 2 = i)) := by
    intro i
    unfold FLAG_UPDATE_NEEDED
    rw [testBit_and_NOT_BIT_word hor (by omega)]
    unfold FLAG_UPDATE_IN_PROGRESS
    rw [Nat.testBit_or, testBit_BIT]
  have hsnap : (nrf2_clock_config_update_begin N cfg).1.flags_snapshot =
      cfg.flags ||| FLAG_UPDATE_IN_PROGRESS N := by
    rw [update_begin_cfg]
    exact Nat.mod_eq_of_lt hor
  refine ⟨rfl, hsnap, ?_, ?_, ?_, ?_, rfl, rfl, rfl⟩
  · rw [update_begin_cfg]
    show ((cfg.flags ||| FLAG_UPDATE_IN_PROGRESS N) &&&
      NOT (FLAG_UPDATE_NEEDED N)).testBit (N - 1) = true
    rw [hbit]
    have : ¬ (N - 2 = N - 1) := by omega
    simp [this]
  · rw [update_begin_cfg]
    show ((cfg.flags ||| FLAG_UPDATE_IN_PROGRESS N) &&&
      NOT (FLAG_UPDATE_NEEDED N)).testBit (N - 2) = false
    rw [hbit]
    simp
  · intro i h1 h2
    rw [update_begin_cfg]
    show ((cfg.flags ||| FLAG_UPDATE_IN_PROGRESS N) &&&
      NOT (FLAG_UPDATE_NEEDED N)).testBit i = cfg.flags.testBit i
    rw [hbit]
    have e1 : ¬ (N - 1 = i) := fun h => h1 h.symm
    have e2 : ¬ (N - 2 = i) := fun h => h2 h.symm
    simp [e1, e2]
  · intro i hi
    unfold ONOFF_CNT_MAX at hi
    have e1 : ¬ (N - 1 = i) := by omega
    have e2 : ¬ (N - 2 = i) := by omega
    constructor
    · rw [hsnap]
      unfold FLAG_UPDATE_IN_PROGRESS
      rw [Nat.testBit_or, testBit_BIT]
      simp [e1]
    · rw [update_begin_cfg]
      show ((cfg.flags ||| FLAG_UPDATE_IN_PROGRESS N) &&&
        NOT (FLAG_UPDATE_NEEDED N)).testBit i = cfg.flags.testBit i
      rw [hbit]
      simp [e1, e2]

/-- Witness of C2: the flag word with option 1 and UPDATE_NEEDED set, `N = 10`. -/
theorem update_begin_spec_witness :
    (nrf2_clock_config_update_begin 10 (mkConfig 258 8)).1.flags = 514 ∧
    (nrf2_clock_config_update_begin 10 (mkConfig 258 8)).1.flags_snapshot = 770 := by
  have h := update_begin_spec 10 (mkConfig 258 8) (by decide) (by decide) (by decide)
  exact ⟨h.1.trans (by decide), h.2.1.trans (by decide)⟩

/-! ## Priority by index -/

theorem clz_from_spec (v : Nat) :
    ∀ k, (∃ i, i < k ∧ v.testBit i = true) →
      clz_from k v < k ∧ v.testBit (k - 1 - clz_from k v) = true ∧
      ∀ j, k - 1 - clz_from k v < j → j < k → v.testBit j = false := by
  intro k
  induction k with
  | zero =>
    rintro ⟨i, hi, _⟩
    exact absurd hi (Nat.not_lt_zero i)
  | succ k ih =>
    rintro ⟨i, hi, hbit⟩
    by_cases hk : v.testBit k = true
    · have hc : clz_from (k + 1) v = 0 := by simp [clz_from, hk]
      rw [hc]
      refine ⟨Nat.succ_pos k, ?_, ?_⟩
      · simpa using hk
      · intro j h1 h2
        omega
    · have hc : clz_from (k + 1) v = clz_from k v + 1 := by simp [clz_from, hk]
      have hik : i < k := by
        rcases Nat.lt_succ_iff_lt_or_eq.mp hi with h | h
        · exact h
        · rw [h] at hbit; exact absurd hbit hk
      obtain ⟨h1, h2, h3⟩ := ih ⟨i, hik, hbit⟩
      rw [hc]
      have he : k + 1 - 1 - (clz_from k v + 1) = k - 1 - clz_from k v := by omega
      rw [he]
      refine ⟨by omega, h2, ?_⟩
      intro j hj1 hj2
      rcases Nat.lt_succ_iff_lt_or_eq.mp hj2 with h | h
      · exact h3 j hj1 h
      · rw [h]; simpa using hk

theorem get_index_of_highest_bit_spec {v : Nat} (hv : v < 2 ^ 32) (hne : v ≠ 0) :
    get_index_of_highest_bit v < 32 ∧ v.testBit (get_index_of_highest_bit v) = true ∧
    ∀ j, get_index_of_highest_bit v < j → v.testBit j = false := by
  obtain ⟨i, hi⟩ := Nat.ne_zero_implies_bit_true hne
  have hi32 : i < 32 := by
    by_contra h
    rw [testBit_of_lt_word hv (Nat.le_of_not_lt h)] at hi
    exact Bool.noConfusion hi
  obtain ⟨h1, h2, h3⟩ := clz_from_spec v 32 ⟨i, hi32, hi⟩
  have he : get_index_of_highest_bit v = 32 - 1 - clz_from 32 v := by
    unfold get_index_of_highest_bit builtin_clz
    rw [if_pos hne]
    omega
  rw [he]
  refine ⟨by omega, h2, ?_⟩
  intro j hj
  by_cases hj32 : j < 32
  · exact h3 j hj hj32
  · exact testBit_of_lt_word hv (Nat.le_of_not_lt hj32)

theorem testBit_active_options (N f : Nat) (hN : N ≤ 32) (i : Nat) :
    ((((f ||| FLAG_UPDATE_IN_PROGRESS N) % 2 ^ 32) &&& BIT_MASK (ONOFF_CNT_MAX N)) %
      2 ^ 32).testBit i = (decide (i < N - 2) && f.testBit i) := by
  unfold BIT_MASK ONOFF_CNT_MAX FLAG_UPDATE_IN_PROGRESS
  rw [Nat.testBit_mod_two_pow, Nat.testBit_and, Nat.testBit_mod_two_pow, Nat.testBit_or,
    testBit_BIT, BIT_eq, Nat.testBit_two_pow_sub_one]
  by_cases hi : i < N - 2
  · have h32 : i < 32 := by omega
    have hne : ¬ (N - 1 = i) := by omega
    simp [hi, h32, hne]
  · simp [hi]

/-- The index returned when some option bit is set: the greatest set option bit. -/
theorem update_begin_index_some (N : Nat) (cfg : ClockConfig) (hN : N ≤ 32)
    (h : ∃ i, i < N - 2 ∧ cfg.flags.testBit i = true) :
    (nrf2_clock_config_update_begin N cfg).2 < N - 2 ∧
    cfg.flags.testBit (nrf2_clock_config_update_begin N cfg).2 = true ∧
    ∀ j, (nrf2_clock_config_update_begin N cfg).2 < j → j < N - 2 →
      cfg.flags.testBit j = false := by
  obtain ⟨i, hi, hbit⟩ := h
  rw [update_begin_ret]
  have hlt : (((cfg.flags ||| FLAG_UPDATE_IN_PROGRESS N) % 2 ^ 32) &&&
      BIT_MASK (ONOFF_CNT_MAX N)) % 2 ^ 32 < 2 ^ 32 := Nat.mod_lt _ (by decide)
  have hne : (((cfg.flags ||| FLAG_UPDATE_IN_PROGRESS N) % 2 ^ 32) &&&
      BIT_MASK (ONOFF_CNT_MAX N)) % 2 ^ 32 ≠ 0 := by
    intro h0
    have hb := testBit_active_options N cfg.flags hN i
    rw [h0] at hb
    simp [hi, hbit] at hb
  obtain ⟨_, h2, h3⟩ := get_index_of_highest_bit_spec hlt hne
  rw [testBit_active_options N cfg.flags hN] at h2
  simp only [Bool.and_eq_true, decide_eq_true_eq] at h2
  refine ⟨h2.1, h2.2, ?_⟩
  intro j hj1 hj2
  have := h3 j hj1
  rw [testBit_active_options N cfg.flags hN] at this
  simpa [hj2] using this

/-- The index returned when no option bit is set: 0. -/
theorem update_begin_index_none (N : Nat) (cfg : ClockConfig) (hN : N ≤ 32)
    (hnone : ∀ i, i < N - 2 → cfg.flags.testBit i = false) :
    (nrf2_clock_config_update_begin N cfg).2 = 0 := by
  rw [update_begin_ret]
  have h0 : (((cfg.flags ||| FLAG_UPDATE_IN_PROGRESS N) % 2 ^ 32) &&&
      BIT_MASK (ONOFF_CNT_MAX N)) % 2 ^ 32 = 0 := by
    apply Nat.eq_of_testBit_eq
    intro i
    rw [testBit_active_options N cfg.flags hN, Nat.zero_testBit]
    by_cases hi : i < N - 2
    · simp [hnone i hi]
    · simp [hi]
  rw [h0]
  rfl

/-- C3: when some option bit (a bit below `N - 2`) of the flag word is set,
`nrf2_clock_config_update_begin` returns the greatest index of a set option bit; when none
is set it returns 0; and two flag words with the same option bits give the same index,
whatever their UPDATE_NEEDED and UPDATE_IN_PROGRESS bits. -/
theorem update_begin_highest (N : Nat) (cfg : ClockConfig) (hN : N ≤ 32) :
    ((∃ i, i < N - 2 ∧ cfg.flags.testBit i = true) →
      (nrf2_clock_config_update_begin N cfg).2 < N - 2 ∧
      cfg.flags.testBit (nrf2_clock_config_update_begin N cfg).2 = true ∧
      ∀ j, (nrf2_clock_config_update_begin N cfg).2 < j → j < N - 2 →
        cfg.flags.testBit j = false) ∧
    ((∀ i, i < N - 2 → cfg.flags.testBit i = false) →
      (nrf2_clock_config_update_begin N cfg).2 = 0) ∧
    (∀ cfg2 : ClockConfig, (∀ i, i < N - 2 → cfg2.flags.testBit i = cfg.flags.testBit i) →
      (nrf2_clock_config_update_begin N cfg2).2 = (nrf2_clock_config_update_begin N cfg).2) := by
  refine ⟨update_begin_index_some N cfg hN, update_begin_index_none N cfg hN, ?_⟩
  intro cfg2 hsame
  rw [update_begin_ret, update_begin_ret]
  congr 1
  apply Nat.eq_of_testBit_eq
  intro i
  rw [testBit_active_options N cfg2.flags hN, testBit_active_options N cfg.flags hN]
  by_cases hi : i < N - 2
  · rw [hsame i hi]
  · simp [hi]

/-- Witness of C3: with `N = 10`, the active bits {1, 3, 4} (flag word 26) give index 4,
also when UPDATE_NEEDED (bit 8) is set as well (flag word 282). -/
theorem update_begin_highest_witness :
    (nrf2_clock_config_update_begin 10 (mkConfig 26 8)).2 = 4 ∧
    (nrf2_clock_config_update_begin 10 (mkConfig 282 8)).2 = 4 ∧
    (mkConfig 26 8).flags.testBit (nrf2_clock_config_update_begin 10 (mkConfig 26 8)).2 = true :=
  ⟨by decide, by decide,
    ((update_begin_highest 10 (mkConfig 26 8) (by decide)).1 ⟨1, by decide, by decide⟩).2.1⟩

/-! ## Index 0 and the empty case -/

/-- C4 as stated fails: with `N = 10`, the flag word 0 (no option active) and the flag word
1 (only option 0 active) make `nrf2_clock_config_update_begin` return the same value. -/
theorem update_begin_ambiguous :
    (∀ i, i < 10 - 2 → (mkConfig 0 8).flags.testBit i = false) ∧
    (∀ i, i < 10 - 2 → ((mkConfig 1 8).flags.testBit i = true ↔ i = 0)) ∧
    (nrf2_clock_config_update_begin 10 (mkConfig 0 8)).2 =
      (nrf2_clock_config_update_begin 10 (mkConfig 1 8)).2 := by
  refine ⟨?_, ?_, by decide⟩
  · intro i _
    exact Nat.zero_testBit i
  · intro i _
    show Nat.testBit 1 i = true ↔ i = 0
    rw [Nat.testBit_one_eq_true_iff_self_eq_zero]

/-- C4, amended: for a flag word with no option bit set and a flag word with only option
bit 0 set, `nrf2_clock_config_update_begin` returns index 0 in both cases; the two cases
differ in the option bits of the stored `flags_snapshot`, which are all clear in the first
case and not in the second. -/
theorem update_begin_zero_or_empty (N : Nat) (cfg0 cfg1 : ClockConfig) (hN : N ≤ 32)
    (h0 : ∀ i, i < N - 2 → cfg0.flags.testBit i = false)
    (h1 : ∀ i, i < N - 2 → (cfg1.flags.testBit i = true ↔ i = 0)) (hopt : 0 < N - 2) :
    (nrf2_clock_config_update_begin N cfg0).2 = 0 ∧
    (nrf2_clock_config_update_begin N cfg1).2 = 0 ∧
    (nrf2_clock_config_update_begin N cfg0).1.flags_snapshot &&& BIT_MASK (ONOFF_CNT_MAX N) = 0 ∧
    (nrf2_clock_config_update_begin N cfg1).1.flags_snapshot &&& BIT_MASK (ONOFF_CNT_MAX N) ≠ 0 := by
  have hb : ∀ (f i : Nat), (((f ||| FLAG_UPDATE_IN_PROGRESS N) % 2 ^ 32) &&&
      BIT_MASK (ONOFF_CNT_MAX N)).testBit i = (decide (i < N - 2) && f.testBit i) := by
    intro f i
    have h := testBit_active_options N f hN i
    rw [Nat.testBit_mod_two_pow] at h
    by_cases hi : i < N - 2
    · have h32 : i < 32 := by omega
      simpa [h32] using h
    · unfold BIT_MASK ONOFF_CNT_MAX
      rw [Nat.testBit_and, BIT_eq, Nat.testBit_two_pow_sub_one]
      simp [hi]
  refine ⟨update_begin_index_none N cfg0 hN h0, ?_, ?_, ?_⟩
  · have h := update_begin_index_some N cfg1 hN ⟨0, hopt, (h1 0 hopt).mpr rfl⟩
    by_contra hne
    have hpos : 0 < (nrf2_clock_config_update_begin N cfg1).2 := Nat.pos_of_ne_zero hne
    exact absurd ((h1 _ h.1).mp h.2.1) hne
  · rw [update_begin_cfg]
    apply Nat.eq_of_testBit_eq
    intro i
    show (((cfg0.flags ||| FLAG_UPDATE_IN_PROGRESS N) % 2 ^ 32) &&&
      BIT_MASK (ONOFF_CNT_MAX N)).testBit i = Nat.testBit 0 i
    rw [hb, Nat.zero_testBit]
    by_cases hi : i < N - 2
    · simp [h0 i hi]
    · simp [hi]
  · rw [update_begin_cfg]
    intro hz
    have : (((cfg1.flags ||| FLAG_UPDATE_IN_PROGRESS N) % 2 ^ 32) &&&
        BIT_MASK (ONOFF_CNT_MAX N)).testBit 0 = true := by
      rw [hb]
      simp [hopt, (h1 0 hopt).mpr rfl]
    have hz2 : ((cfg1.flags ||| FLAG_UPDATE_IN_PROGRESS N) % 2 ^ 32) &&&
        BIT_MASK (ONOFF_CNT_MAX N) = 0 := hz
    rw [hz2] at this
    simp at this

/-- Witness of the amended C4: `N = 10`, flag words 0 and 1. -/
theorem update_begin_zero_or_empty_witness :
    (nrf2_clock_config_update_begin 10 (mkConfig 0 8)).2 = 0 ∧
    (nrf2_clock_config_update_begin 10 (mkConfig 1 8)).2 = 0 ∧
    (nrf2_clock_config_update_begin 10 (mkConfig 0 8)).1.flags_snapshot &&&
      BIT_MASK (ONOFF_CNT_MAX 10) = 0 ∧
    (nrf2_clock_config_update_begin 10 (mkConfig 1 8)).1.flags_snapshot &&&
      BIT_MASK (ONOFF_CNT_MAX 10) ≠ 0 :=
  update_begin_zero_or_empty 10 (mkConfig 0 8) (mkConfig 1 8) (by decide)
    (fun i _ => Nat.zero_testBit i)
    (fun i _ => Nat.testBit_one_eq_true_iff_self_eq_zero)
    (by decide)

/-! ## Ending an update pass (`nrf2_clock_config_update_end`) -/

theorem update_end_body_skip (status : Int) (st : ClockConfig × List Event) (i : Nat)
    (h : notified st.1 i = false) : update_end_body status st i = st := by
  unfold update_end_body
  by_cases hs : st.1.flags_snapshot.testBit i = true
  · rw [if_pos ((and_BIT_ne_zero _ _).mpr hs)]
    cases ho : st.1.onoff[i]? with
    | none => rfl
    | some o =>
      cases hn : o.notify with
      | none => simp only [hn]
      | some fn =>
        exfalso
        simp [notified, pending_notify, hs, ho, hn] at h
  · rw [if_neg (fun hne => hs ((and_BIT_ne_zero _ _).mp hne))]

theorem update_end_body_fire (status : Int) (st : ClockConfig × List Event) (i : Nat)
    (o : ClockOnoff) (fn : Nat) (hs : st.1.flags_snapshot.testBit i = true)
    (ho : st.1.onoff[i]? = some o) (hn : o.notify = some fn) :
    update_end_body status st i =
      ({ st.1 with
          flags := if status < 0 then st.1.flags &&& NOT (BIT i) else st.1.flags,
          onoff := st.1.onoff.set i o.cleared },
        st.2 ++ [Event.notify fn i status]) := by
  unfold update_end_body
  rw [if_pos ((and_BIT_ne_zero _ _).mpr hs)]
  simp only [ho, hn]
  rfl

theorem notified_cases (cfg : ClockConfig) (i : Nat) :
    notified cfg i = false ∨
    ∃ o fn, cfg.flags_snapshot.testBit i = true ∧ cfg.onoff[i]? = some o ∧ o.notify = some fn := by
  cases hnot : notified cfg i with
  | false => exact Or.inl rfl
  | true =>
    right
    unfold notified at hnot
    simp only [Bool.and_eq_true] at hnot
    obtain ⟨hs, hp⟩ := hnot
    unfold pending_notify at hp
    cases ho : cfg.onoff[i]? with
    | none => rw [ho] at hp; exact Bool.noConfusion hp
    | some o =>
      rw [ho] at hp
      cases hn : o.notify with
      | none =>
        have hp2 : o.notify.isSome = true := hp
        rw [hn] at hp2; exact Bool.noConfusion hp2
      | some fn => exact ⟨o, fn, hs, rfl, hn⟩

theorem notified_of (cfg : ClockConfig) (i : Nat) (o : ClockOnoff) (fn : Nat)
    (hs : cfg.flags_snapshot.testBit i = true) (ho : cfg.onoff[i]? = some o)
    (hn : o.notify = some fn) : notified cfg i = true := by
  simp [notified, pending_notify, hs, ho, hn]

theorem end_notice_of (status : Int) (cfg : ClockConfig) (i : Nat) (o : ClockOnoff) (fn : Nat)
    (hs : cfg.flags_snapshot.testBit i = true) (ho : cfg.onoff[i]? = some o)
    (hn : o.notify = some fn) : end_notice status cfg i = [Event.notify fn i status] := by
  simp [end_notice, pending_notify, hs, ho, hn]

theorem end_notice_skip (status : Int) (cfg : ClockConfig) (i : Nat)
    (h : notified cfg i = false) : end_notice status cfg i = [] := by
  unfold end_notice
  by_cases hs : cfg.flags_snapshot.testBit i = true
  · rw [if_pos hs]
    cases hp : pending_notify cfg i with
    | none => rfl
    | some fn => simp [notified, hs, hp] at h
  · rw [if_neg hs]

/-- What one loop iteration does: it keeps the snapshot, the option count and the work
binding, touches only entry `i` of the array, clears bit `i` of the flags when it notifies
with a negative status, and appends the callback invocation owed to option `i`. -/
theorem update_end_body_spec (status : Int) (st : ClockConfig × List Event) (i : Nat) :
    (update_end_body status st i).1.flags_snapshot = st.1.flags_snapshot ∧
    (update_end_body status st i).1.onoff_cnt = st.1.onoff_cnt ∧
    (update_end_body status st i).1.work = st.1.work ∧
    (update_end_body status st i).1.onoff.length = st.1.onoff.length ∧
    (update_end_body status st i).1.onoff[i]? =
      (if notified st.1 i then (st.1.onoff[i]?).map ClockOnoff.cleared else st.1.onoff[i]?) ∧
    (∀ j, j ≠ i → (update_end_body status st i).1.onoff[j]? = st.1.onoff[j]?) ∧
    (update_end_body status st i).1.flags =
      (if status < 0 ∧ notified st.1 i = true then st.1.flags &&& NOT (BIT i)
        else st.1.flags) ∧
    (update_end_body status st i).2 = st.2 ++ end_notice status st.1 i := by
  rcases notified_cases st.1 i with hno | ⟨o, fn, hs, ho, hn⟩
  · rw [update_end_body_skip status st i hno, end_notice_skip status st.1 i hno]
    simp [hno]
  · have hyes := notified_of st.1 i o fn hs ho hn
    rw [update_end_body_fire status st i o fn hs ho hn, end_notice_of status st.1 i o fn hs ho hn]
    obtain ⟨hlen, _⟩ := List.getElem?_eq_some.mp ho
    refine ⟨rfl, rfl, rfl, by simp, ?_, ?_, ?_, rfl⟩
    · simp [hyes, ho, List.getElem?_set_self hlen]
    · intro j hj
      exact List.getElem?_set_ne (fun h => hj h.symm)
    · by_cases hneg : status < 0
      · simp [hneg, hyes]
      · simp [hneg]

theorem notified_congr (c1 c2 : ClockConfig) (j : Nat)
    (hs : c1.flags_snapshot = c2.flags_snapshot) (ho : c1.onoff[j]? = c2.onoff[j]?) :
    notified c1 j = notified c2 j := by
  unfold notified pending_notify
  rw [hs, ho]

theorem end_notice_congr (status : Int) (c1 c2 : ClockConfig) (j : Nat)
    (hs : c1.flags_snapshot = c2.flags_snapshot) (ho : c1.onoff[j]? = c2.onoff[j]?) :
    end_notice status c1 j = end_notice status c2 j := by
  unfold end_notice pending_notify
  rw [hs, ho]

theorem end_notice_filter (status : Int) (cfg : ClockConfig) (i j : Nat) :
    (end_notice status cfg i).filter (Event.isNotifyOf j) =
      if j = i then end_notice status cfg i else [] := by
  unfold end_notice
  by_cases hs : cfg.flags_snapshot.testBit i = true
  · rw [if_pos hs]
    cases hp : pending_notify cfg i with
    | none => simp
    | some fn =>
      by_cases hj : j = i
      · simp [Event.isNotifyOf, hj]
      · have hj2 : ¬ i = j := fun h => hj h.symm
        simp [Event.isNotifyOf, hj, hj2]
  · rw [if_neg hs]; simp

theorem end_notice_no_submit (status : Int) (cfg : ClockConfig) (i : Nat) :
    (end_notice status cfg i).filter Event.isSubmit = [] := by
  unfold end_notice
  by_cases hs : cfg.flags_snapshot.testBit i = true
  · rw [if_pos hs]
    cases hp : pending_notify cfg i with
    | none => simp
    | some fn => simp [Event.isSubmit]
  · rw [if_neg hs]; simp

/-- The loop of `nrf2_clock_config_update_end` over distinct indices `l`: the snapshot, the
option count and the work binding are kept; entry `j` of the array is cleared exactly when
`j` is in `l` and option `j` is notified; the invocations for option `j` are the one owed to
it when `j` is in `l`; and the loop submits no work. -/
theorem update_end_loop_spec (status : Int) (l : List Nat) (hl : l.Nodup) :
    ∀ st : ClockConfig × List Event,
    (l.foldl (update_end_body status) st).1.flags_snapshot = st.1.flags_snapshot ∧
    (l.foldl (update_end_body status) st).1.onoff_cnt = st.1.onoff_cnt ∧
    (l.foldl (update_end_body status) st).1.work = st.1.work ∧
    (l.foldl (update_end_body status) st).1.onoff.length = st.1.onoff.length ∧
    (∀ j, (l.foldl (update_end_body status) st).1.onoff[j]? =
      if j ∈ l ∧ notified st.1 j = true then (st.1.onoff[j]?).map ClockOnoff.cleared
      else st.1.onoff[j]?) ∧
    (∀ j, (l.foldl (update_end_body status) st).2.filter (Event.isNotifyOf j) =
      st.2.filter (Event.isNotifyOf j) ++ if j ∈ l then end_notice status st.1 j else []) ∧
    (l.foldl (update_end_body status) st).2.filter Event.isSubmit =
      st.2.filter Event.isSubmit := by
  induction l with
  | nil =>
    intro st
    simp
  | cons i rest ih =>
    intro st
    have hnd := List.nodup_cons.mp hl
    obtain ⟨b1, b2, b3, b4, b5, b6, _, b8⟩ := update_end_body_spec status st i
    obtain ⟨h1, h2, h3, h4, h5, h6, h7⟩ := ih hnd.2 (update_end_body status st i)
    rw [List.foldl_cons]
    refine ⟨h1.trans b1, h2.trans b2, h3.trans b3, h4.trans b4, ?_, ?_, ?_⟩
    · intro j
      rw [h5 j]
      by_cases hj : j = i
      · subst hj
        have hmem : j ∈ j :: rest := List.mem_cons_self j rest
        rw [if_neg (fun h => hnd.1 h.1), b5]
        by_cases hn : notified st.1 j = true
        · have hc : j ∈ j :: rest ∧ notified st.1 j = true := ⟨hmem, hn⟩
          rw [if_pos hc, if_pos hn]
        · have hc : ¬ (j ∈ j :: rest ∧ notified st.1 j = true) := fun h => hn h.2
          rw [if_neg hc, if_neg hn]
      · have hmem : j ∈ i :: rest ↔ j ∈ rest := by simp [hj]
        rw [notified_congr _ st.1 j b1 (b6 j hj), b6 j hj]
        by_cases hc : j ∈ rest ∧ notified st.1 j = true
        · rw [if_pos hc, if_pos ⟨hmem.mpr hc.1, hc.2⟩]
        · rw [if_neg hc, if_neg (fun h => hc ⟨hmem.mp h.1, h.2⟩)]
    · intro j
      rw [h6 j, b8, List.filter_append, end_notice_filter, List.append_assoc]
      congr 1
      by_cases hj : j = i
      · subst hj
        rw [if_pos rfl, if_neg hnd.1, if_pos (List.mem_cons_self j rest), List.append_nil]
      · have hmem : j ∈ i :: rest ↔ j ∈ rest := by simp [hj]
        rw [if_neg hj, List.nil_append, end_notice_congr status _ st.1 j b1 (b6 j hj)]
        by_cases hc : j ∈ rest
        · rw [if_pos hc, if_pos (hmem.mpr hc)]
        · rw [if_neg hc, if_neg (fun h => hc (hmem.mp h))]
    · rw [h7, b8, List.filter_append, end_notice_no_submit, List.append_nil]

/-- The flag word after the loop: a bit `j` of the 32-bit word is cleared exactly when the
status is negative, `j` is in `l` and option `j` is notified; every other bit is kept. -/
theorem update_end_loop_flags (status : Int) (l : List Nat) (hl : l.Nodup)
    (h32 : ∀ i, i ∈ l → i < 32) :
    ∀ (st : ClockConfig × List Event) (j : Nat), j < 32 →
    (l.foldl (update_end_body status) st).1.flags.testBit j =
      (st.1.flags.testBit j &&
        !(decide (status < 0) && (decide (j ∈ l) && notified st.1 j))) := by
  induction l with
  | nil =>
    intro st j _
    simp
  | cons i rest ih =>
    intro st j hj32
    have hnd := List.nodup_cons.mp hl
    have hi32 : i < 32 := h32 i (List.mem_cons_self i rest)
    obtain ⟨b1, _, _, _, _, b6, b7, _⟩ := update_end_body_spec status st i
    rw [List.foldl_cons,
      ih hnd.2 (fun k hk => h32 k (List.mem_cons_of_mem i hk)) (update_end_body status st i) j
        hj32]
    by_cases hj : j = i
    · subst hj
      have hmem : j ∈ j :: rest := List.mem_cons_self j rest
      rw [b7]
      by_cases hc : status < 0 ∧ notified st.1 j = true
      · rw [if_pos hc, testBit_and_NOT_BIT _ hi32]
        simp [hc.1, hc.2, hnd.1]
      · rw [if_neg hc]
        by_cases hneg : status < 0
        · have hn : notified st.1 j = false := by
            cases h : notified st.1 j
            · rfl
            · exact absurd ⟨hneg, h⟩ hc
          simp [hnd.1, hn]
        · simp [hneg]
    · have hmem : decide (j ∈ i :: rest) = decide (j ∈ rest) := by simp [hj]
      rw [notified_congr _ st.1 j b1 (b6 j hj), hmem, b7]
      have hij : ¬ i = j := fun h => hj h.symm
      by_cases hc : status < 0 ∧ notified st.1 i = true
      · rw [if_pos hc, testBit_and_NOT_BIT _ hi32]
        simp [hij, hj32]
      · rw [if_neg hc]

theorem update_end_eq_clear (N : Nat) (cfg : ClockConfig) (status : Int)
    (h : cfg.flags.testBit (N - 1) = false) :
    nrf2_clock_config_update_end N cfg status =
      ({ cfg with flags := cfg.flags &&& NOT (FLAG_UPDATE_IN_PROGRESS N) }, []) := by
  unfold nrf2_clock_config_update_end atomic_and
  dsimp only
  have h0 : cfg.flags &&& FLAG_UPDATE_IN_PROGRESS N = 0 :=
    (and_BIT_eq_zero cfg.flags (N - 1)).mpr h
  rw [if_pos h0]

theorem update_end_eq_set (N : Nat) (cfg : ClockConfig) (status : Int)
    (h : cfg.flags.testBit (N - 1) = true) :
    nrf2_clock_config_update_end N cfg status =
      (((List.range cfg.onoff_cnt).foldl (update_end_body status)
          ({ cfg with flags := cfg.flags &&& NOT (FLAG_UPDATE_IN_PROGRESS N) }, [])).1,
        ((List.range cfg.onoff_cnt).foldl (update_end_body status)
          ({ cfg with flags := cfg.flags &&& NOT (FLAG_UPDATE_IN_PROGRESS N) }, [])).2 ++
          if cfg.flags.testBit (N - 2) = true then [Event.work_submit] else []) := by
  unfold nrf2_clock_config_update_end atomic_and
  dsimp only
  have hne : ¬ (cfg.flags &&& FLAG_UPDATE_IN_PROGRESS N = 0) :=
    (and_BIT_ne_zero cfg.flags (N - 1)).mpr h
  rw [if_neg hne]
  by_cases h2 : cfg.flags.testBit (N - 2) = true
  · have hn : cfg.flags &&& FLAG_UPDATE_NEEDED N ≠ 0 :=
      (and_BIT_ne_zero cfg.flags (N - 2)).mpr h2
    rw [if_pos hn, if_pos h2]
  · have hn : ¬ (cfg.flags &&& FLAG_UPDATE_NEEDED N ≠ 0) :=
      fun hne2 => h2 ((and_BIT_ne_zero cfg.flags (N - 2)).mp hne2)
    rw [if_neg hn, if_neg h2]
    simp

/-- A completion that finds UPDATE_IN_PROGRESS set: what it leaves in the configuration and
which calls it makes. -/
theorem update_end_live_spec (N : Nat) (cfg : ClockConfig) (status : Int)
    (hprog : cfg.flags.testBit (N - 1) = true) :
    (nrf2_clock_config_update_end N cfg status).1.flags_snapshot = cfg.flags_snapshot ∧
    (nrf2_clock_config_update_end N cfg status).1.onoff_cnt = cfg.onoff_cnt ∧
    (nrf2_clock_config_update_end N cfg status).1.work = cfg.work ∧
    (∀ j, (nrf2_clock_config_update_end N cfg status).1.onoff[j]? =
      if j < cfg.onoff_cnt ∧ notified cfg j = true then (cfg.onoff[j]?).map ClockOnoff.cleared
      else cfg.onoff[j]?) ∧
    (∀ j, (nrf2_clock_config_update_end N cfg status).2.filter (Event.isNotifyOf j) =
      if j < cfg.onoff_cnt then end_notice status cfg j else []) ∧
    (nrf2_clock_config_update_end N cfg status).2.filter Event.isSubmit =
      if cfg.flags.testBit (N - 2) = true then [Event.work_submit] else [] := by
  obtain ⟨h1, h2, h3, _, h5, h6, h7⟩ :=
    update_end_loop_spec status (List.range cfg.onoff_cnt) (List.nodup_range _)
      ({ cfg with flags := cfg.flags &&& NOT (FLAG_UPDATE_IN_PROGRESS N) }, [])
  rw [update_end_eq_set N cfg status hprog]
  refine ⟨h1, h2, h3, ?_, ?_, ?_⟩
  · intro j
    have h := h5 j
    simp only [List.mem_range] at h
    exact h
  · intro j
    have h := h6 j
    simp only [List.mem_range, List.filter_nil, List.nil_append] at h
    show List.filter (Event.isNotifyOf j) (_ ++ _) = _
    rw [List.filter_append, h]
    have hs : (if cfg.flags.testBit (N - 2) = true then [Event.work_submit] else []).filter
        (Event.isNotifyOf j) = [] := by
      split <;> simp [Event.isNotifyOf]
    rw [hs, List.append_nil]
    rfl
  · show List.filter Event.isSubmit (_ ++ _) = _
    rw [List.filter_append, h7]
    split <;> simp [Event.isSubmit]

/-- The 32-bit flag word after a completion that finds UPDATE_IN_PROGRESS set. -/
theorem update_end_live_flags (N : Nat) (cfg : ClockConfig) (status : Int) (hN : N ≤ 32)
    (hcnt : cfg.onoff_cnt ≤ 32) (hprog : cfg.flags.testBit (N - 1) = true) (j : Nat)
    (hj : j < 32) :
    (nrf2_clock_config_update_end N cfg status).1.flags.testBit j =
      ((cfg.flags.testBit j && !decide (N - 1 = j)) &&
        !(decide (status < 0) && (decide (j < cfg.onoff_cnt) && notified cfg j))) := by
  have h := update_end_loop_flags status (List.range cfg.onoff_cnt) (List.nodup_range _)
    (fun i hi => Nat.lt_of_lt_of_le (List.mem_range.mp hi) hcnt)
    ({ cfg with flags := cfg.flags &&& NOT (FLAG_UPDATE_IN_PROGRESS N) }, []) j hj
  rw [update_end_eq_set N cfg status hprog]
  simp only [List.mem_range] at h
  have hb : (cfg.flags &&& NOT (FLAG_UPDATE_IN_PROGRESS N)).testBit j =
      (cfg.flags.testBit j && !decide (N - 1 = j)) := by
    unfold FLAG_UPDATE_IN_PROGRESS
    rw [testBit_and_NOT_BIT _ (by omega)]
    simp [hj]
  rw [← hb]
  exact h

/-- C5: a completion that finds UPDATE_IN_PROGRESS clear changes nothing in the
configuration (flags, snapshot and every pending notification are as before), invokes no
callback and submits no work, whatever the status and the UPDATE_NEEDED bit. -/
theorem update_end_stale (N : Nat) (cfg : ClockConfig) (status : Int) (hN : N ≤ 32)
    (hf : cfg.flags < 2 ^ 32) (hclear : cfg.flags.testBit (N - 1) = false) :
    nrf2_clock_config_update_end N cfg status = (cfg, []) := by
  rw [update_end_eq_clear N cfg status hclear]
  have hflags : cfg.flags &&& NOT (FLAG_UPDATE_IN_PROGRESS N) = cfg.flags := by
    apply Nat.eq_of_testBit_eq
    intro i
    unfold FLAG_UPDATE_IN_PROGRESS
    rw [testBit_and_NOT_BIT_word hf (by omega)]
    by_cases hi : N - 1 = i
    · rw [← hi, hclear]; rfl
    · simp [hi]
  rw [hflags]

/-- Witness of C5: `N = 10`, UPDATE_NEEDED and option 2 set, option 2 in the snapshot and
waiting for callback 7, UPDATE_IN_PROGRESS clear, status -5. -/
theorem update_end_stale_witness :
    nrf2_clock_config_update_end 10 (mkWaiting 260 4 8 2 7) (-5) = (mkWaiting 260 4 8 2 7, []) :=
  update_end_stale 10 (mkWaiting 260 4 8 2 7) (-5) (by decide) (by decide) (by decide)

/-- C6: a completion with `status` that finds UPDATE_IN_PROGRESS set invokes, for every
option `i < onoff_cnt` whose bit is set in `flags_snapshot` and whose pending notification is
a callback `fn`, exactly the one call `fn(option i, status)` and empties the slot; for every
other `i` it invokes nothing and leaves the entry of the array as it was. -/
theorem update_end_fanout (N : Nat) (cfg : ClockConfig) (status : Int)
    (hprog : cfg.flags.testBit (N - 1) = true) (i : Nat) :
    (∀ fn, i < cfg.onoff_cnt → cfg.flags_snapshot.testBit i = true →
      pending_notify cfg i = some fn →
      (nrf2_clock_config_update_end N cfg status).2.filter (Event.isNotifyOf i) =
        [Event.notify fn i status] ∧
      pending_notify (nrf2_clock_config_update_end N cfg status).1 i = none ∧
      (nrf2_clock_config_update_end N cfg status).1.onoff[i]? =
        (cfg.onoff[i]?).map ClockOnoff.cleared) ∧
    (¬ (i < cfg.onoff_cnt ∧ cfg.flags_snapshot.testBit i = true ∧ pending_notify cfg i ≠ none) →
      (nrf2_clock_config_update_end N cfg status).2.filter (Event.isNotifyOf i) = [] ∧
      (nrf2_clock_config_update_end N cfg status).1.onoff[i]? = cfg.onoff[i]?) := by
  obtain ⟨_, _, _, h4, h5, _⟩ := update_end_live_spec N cfg status hprog
  constructor
  · intro fn hi hs hp
    have hnot : notified cfg i = true := by simp [notified, hs, hp]
    have hslot : (nrf2_clock_config_update_end N cfg status).1.onoff[i]? =
        (cfg.onoff[i]?).map ClockOnoff.cleared := by
      rw [h4 i, if_pos ⟨hi, hnot⟩]
    refine ⟨?_, ?_, hslot⟩
    · rw [h5 i, if_pos hi]
      simp [end_notice, hs, hp]
    · unfold pending_notify
      rw [hslot]
      cases cfg.onoff[i]? <;> rfl
  · intro hno
    by_cases hi : i < cfg.onoff_cnt
    · have hnot : notified cfg i = false := by
        cases h : notified cfg i
        · rfl
        · exfalso
          apply hno
          unfold notified at h
          simp only [Bool.and_eq_true] at h
          refine ⟨hi, h.1, ?_⟩
          intro hnone
          rw [hnone] at h
          exact Bool.noConfusion h.2
      constructor
      · rw [h5 i, if_pos hi, end_notice_skip status cfg i hnot]
      · rw [h4 i, if_neg (fun h => by rw [hnot] at h; exact Bool.noConfusion h.2)]
    · constructor
      · rw [h5 i, if_neg hi]
      · rw [h4 i, if_neg (fun h => hi h.1)]

/-- Witness of C6: `N = 10`, eight options, UPDATE_IN_PROGRESS set, options 2 and 3 in the
snapshot, option 2 waiting for callback 7: the completion calls callback 7 once, empties
slot 2, and makes no call for option 3. -/
theorem update_end_fanout_witness :
    (nrf2_clock_config_update_end 10 (mkWaiting 524 12 8 2 7) (-5)).2.filter
      (Event.isNotifyOf 2) = [Event.notify 7 2 (-5)] ∧
    pending_notify (nrf2_clock_config_update_end 10 (mkWaiting 524 12 8 2 7) (-5)).1 2 = none ∧
    (nrf2_clock_config_update_end 10 (mkWaiting 524 12 8 2 7) (-5)).2.filter
      (Event.isNotifyOf 3) = [] :=
  ⟨((update_end_fanout 10 (mkWaiting 524 12 8 2 7) (-5) (by decide) 2).1 7
      (by decide) (by decide) (by decide)).1,
    ((update_end_fanout 10 (mkWaiting 524 12 8 2 7) (-5) (by decide) 2).1 7
      (by decide) (by decide) (by decide)).2.1,
    ((update_end_fanout 10 (mkWaiting 524 12 8 2 7) (-5) (by decide) 3).2
      (by decide)).1⟩

/-! ## Failure unwinding and re-arming -/

/-- C7: after a completion that finds UPDATE_IN_PROGRESS set, an option bit `i` of the
flags is clear when the status is negative and option `i` is notified (it is below
`onoff_cnt`, in the snapshot, and has a pending notification); in every other case, in
particular for every option when the status is not negative, for snapshot options without
pending notification and for bits already cleared by a stop, the bit is as it was. -/
theorem update_end_unwind (N : Nat) (cfg : ClockConfig) (status : Int) (hN : N ≤ 32)
    (hcnt : cfg.onoff_cnt ≤ ONOFF_CNT_MAX N) (hprog : cfg.flags.testBit (N - 1) = true)
    (i : Nat) (hi : i < ONOFF_CNT_MAX N) :
    (status < 0 → i < cfg.onoff_cnt → cfg.flags_snapshot.testBit i = true →
      pending_notify cfg i ≠ none →
      (nrf2_clock_config_update_end N cfg status).1.flags.testBit i = false) ∧
    (¬ (status < 0 ∧ i < cfg.onoff_cnt ∧ cfg.flags_snapshot.testBit i = true ∧
        pending_notify cfg i ≠ none) →
      (nrf2_clock_config_update_end N cfg status).1.flags.testBit i = cfg.flags.testBit i) := by
  unfold ONOFF_CNT_MAX at hi hcnt
  have h := update_end_live_flags N cfg status hN (by omega) hprog i (by omega)
  have hne : ¬ (N - 1 = i) := by omega
  constructor
  · intro hneg hlt hs hp
    have hnot : notified cfg i = true := by
      unfold notified
      rw [hs]
      cases hpp : pending_notify cfg i with
      | none => exact absurd hpp hp
      | some fn => rfl
    rw [h]
    simp [hneg, hlt, hnot]
  · intro hno
    rw [h]
    have hfalse : (decide (status < 0) && (decide (i < cfg.onoff_cnt) && notified cfg i)) =
        false := by
      cases hb : (decide (status < 0) && (decide (i < cfg.onoff_cnt) && notified cfg i))
      · rfl
      · exfalso
        simp only [Bool.and_eq_true, decide_eq_true_eq] at hb
        obtain ⟨h1, h2, h3⟩ := hb
        unfold notified at h3
        simp only [Bool.and_eq_true] at h3
        apply hno
        refine ⟨h1, h2, h3.1, ?_⟩
        intro hnone
        rw [hnone] at h3
        exact Bool.noConfusion h3.2
    rw [hfalse]
    simp [hne]

/-- Witness of C7: `N = 10`; option 2 is started with callback 7 on an idle configuration,
the update pass begins and the apply fails with -1: bit 2 of the flags is clear afterwards
and callback 7 was invoked once, with -1. -/
theorem update_end_unwind_witness :
    (nrf2_clock_config_update_end 10
      (nrf2_clock_config_update_begin 10 (onoff_start_option 10 (mkConfig 0 8) 2 7).1).1
      (-1)).1.flags.testBit 2 = false ∧
    (nrf2_clock_config_update_begin 10 (onoff_start_option 10 (mkConfig 0 8) 2 7).1).1.flags.testBit
      2 = true ∧
    (nrf2_clock_config_update_end 10
      (nrf2_clock_config_update_begin 10 (onoff_start_option 10 (mkConfig 0 8) 2 7).1).1
      (-1)).2 = [Event.notify 7 2 (-1)] :=
  ⟨(update_end_unwind 10
      (nrf2_clock_config_update_begin 10 (onoff_start_option 10 (mkConfig 0 8) 2 7).1).1 (-1)
      (by decide) (by decide) (by decide) 2 (by decide)).1
      (by decide) (by decide) (by decide) (by decide),
    by decide, by decide⟩

theorem update_config_needed (N : Nat) (cfg : ClockConfig) :
    (update_config N cfg).1.flags.testBit (N - 2) = true := by
  have h : (update_config N cfg).1.flags = cfg.flags ||| FLAG_UPDATE_NEEDED N := by
    unfold update_config atomic_or
    dsimp only
    split <;> rfl
  rw [h]
  simp [FLAG_UPDATE_NEEDED, testBit_BIT]

theorem onoff_start_option_needed (N : Nat) (cfg : ClockConfig) (p fn : Nat)
    (h : cfg.flags.testBit (N - 2) = true) :
    (onoff_start_option N cfg p fn).1.flags.testBit (N - 2) = true := by
  unfold onoff_start_option
  cases cfg.onoff[p]? with
  | none => exact h
  | some o => exact update_config_needed N _

theorem onoff_stop_option_needed (N : Nat) (cfg : ClockConfig) (p fn : Nat)
    (h : cfg.flags.testBit (N - 2) = true) :
    (onoff_stop_option N cfg p fn).1.flags.testBit (N - 2) = true := by
  unfold onoff_stop_option
  cases cfg.onoff[p]? with
  | none => exact h
  | some o => exact update_config_needed N _

/-- C8: `nrf2_clock_config_update_end` leaves UPDATE_IN_PROGRESS clear, never clears
UPDATE_NEEDED, and submits the work unit (once) exactly when the flag word it found had both
UPDATE_IN_PROGRESS and UPDATE_NEEDED set; `onoff_start_option`, `onoff_stop_option` and
`update_config` never clear UPDATE_NEEDED either, while `nrf2_clock_config_update_begin`
always leaves it clear. -/
theorem update_end_rearm (N : Nat) (cfg : ClockConfig) (status : Int) (hN2 : 2 ≤ N)
    (hN : N ≤ 32) (hcnt : cfg.onoff_cnt ≤ ONOFF_CNT_MAX N) :
    (nrf2_clock_config_update_end N cfg status).1.flags.testBit (N - 1) = false ∧
    (cfg.flags.testBit (N - 2) = true →
      (nrf2_clock_config_update_end N cfg status).1.flags.testBit (N - 2) = true) ∧
    (nrf2_clock_config_update_end N cfg status).2.filter Event.isSubmit =
      (if cfg.flags.testBit (N - 1) = true ∧ cfg.flags.testBit (N - 2) = true then
        [Event.work_submit] else []) ∧
    (∀ p fn, cfg.flags.testBit (N - 2) = true →
      (onoff_start_option N cfg p fn).1.flags.testBit (N - 2) = true) ∧
    (∀ p fn, cfg.flags.testBit (N - 2) = true →
      (onoff_stop_option N cfg p fn).1.flags.testBit (N - 2) = true) ∧
    (update_config N cfg).1.flags.testBit (N - 2) = true ∧
    (nrf2_clock_config_update_begin N cfg).1.flags.testBit (N - 2) = false := by
  unfold ONOFF_CNT_MAX at hcnt
  have hne : ¬ (N - 1 = N - 2) := by omega
  refine ⟨?_, ?_, ?_, fun p fn h => onoff_start_option_needed N cfg p fn h,
    fun p fn h => onoff_stop_option_needed N cfg p fn h, update_config_needed N cfg, ?_⟩
  · cases hprog : cfg.flags.testBit (N - 1) with
    | false =>
      rw [update_end_eq_clear N cfg status hprog]
      show (cfg.flags &&& NOT (FLAG_UPDATE_IN_PROGRESS N)).testBit (N - 1) = false
      unfold FLAG_UPDATE_IN_PROGRESS
      rw [testBit_and_NOT_BIT _ (by omega)]
      simp
    | true =>
      rw [update_end_live_flags N cfg status hN (by omega) hprog (N - 1) (by omega)]
      simp
  · intro hneeded
    cases hprog : cfg.flags.testBit (N - 1) with
    | false =>
      rw [update_end_eq_clear N cfg status hprog]
      show (cfg.flags &&& NOT (FLAG_UPDATE_IN_PROGRESS N)).testBit (N - 2) = true
      unfold FLAG_UPDATE_IN_PROGRESS
      rw [testBit_and_NOT_BIT _ (by omega), hneeded]
      have h32 : N - 2 < 32 := by omega
      simp [h32, hne]
    | true =>
      rw [update_end_live_flags N cfg status hN (by omega) hprog (N - 2) (by omega), hneeded]
      have hlt : ¬ (N - 2 < cfg.onoff_cnt) := by omega
      simp [hne, hlt]
  · cases hprog : cfg.flags.testBit (N - 1) with
    | false =>
      rw [update_end_eq_clear N cfg status hprog]
      simp
    | true =>
      rw [(update_end_live_spec N cfg status hprog).2.2.2.2.2]
      simp
  · rw [update_begin_cfg]
    show ((cfg.flags ||| FLAG_UPDATE_IN_PROGRESS N) &&& NOT (FLAG_UPDATE_NEEDED N)).testBit
      (N - 2) = false
    unfold FLAG_UPDATE_NEEDED
    rw [testBit_and_NOT_BIT _ (by omega)]
    simp

/-- Witness of C8: `N = 10`, the flag word with UPDATE_IN_PROGRESS, UPDATE_NEEDED and
option 2 set, option 2 in the snapshot with callback 7 pending, status -5: the completion
notifies option 2 and then resubmits the work unit. -/
theorem update_end_rearm_witness :
    (nrf2_clock_config_update_end 10 (mkWaiting 772 516 8 2 7) (-5)).1.flags.testBit 9 = false ∧
    (nrf2_clock_config_update_end 10 (mkWaiting 772 516 8 2 7) (-5)).1.flags.testBit 8 = true ∧
    (nrf2_clock_config_update_end 10 (mkWaiting 772 516 8 2 7) (-5)).2 =
      [Event.notify 7 2 (-5), Event.work_submit] :=
  ⟨(update_end_rearm 10 (mkWaiting 772 516 8 2 7) (-5) (by decide) (by decide) (by decide)).1,
    (update_end_rearm 10 (mkWaiting 772 516 8 2 7) (-5) (by decide) (by decide) (by decide)).2.1
      (by decide),
    by decide⟩

/-! ## Initialisation (`nrf2_clock_config_init`) -/

theorem range_split {k n : Nat} (h : k < n) :
    List.range n = List.range k ++ k :: List.range' (k + 1) (n - (k + 1)) := by
  have e1 : n = (n - k) + k := by omega
  have e2 : n - k = (n - (k + 1)) + 1 := by omega
  rw [List.range_eq_range', List.range_eq_range']
  conv => lhs; rw [e1, ← List.range'_append_1, e2, List.range'_succ]
  simp

theorem init_gates_step_ok (mgr_rc : Nat → Int) (i : Nat) (rest : List Nat)
    (cfg : ClockConfig) (evs : List Event) (o : ClockOnoff) (ho : cfg.onoff[i]? = some o)
    (h : 0 ≤ mgr_rc i) :
    init_gates mgr_rc (i :: rest) cfg evs =
      init_gates mgr_rc rest { cfg with onoff := cfg.onoff.set i (o.indexed i) }
        (evs ++ [Event.mgr_init i]) := by
  have hn : ¬ mgr_rc i < 0 := by omega
  simp only [init_gates, ho, hn, if_false]
  rfl

theorem init_gates_step_fail (mgr_rc : Nat → Int) (i : Nat) (rest : List Nat)
    (cfg : ClockConfig) (evs : List Event) (o : ClockOnoff) (ho : cfg.onoff[i]? = some o)
    (h : mgr_rc i < 0) :
    init_gates mgr_rc (i :: rest) cfg evs =
      (GatesExit.returned (mgr_rc i), cfg, evs ++ [Event.mgr_init i]) := by
  simp only [init_gates, ho, h, if_true]

theorem init_gates_step_outside (mgr_rc : Nat → Int) (i : Nat) (rest : List Nat)
    (cfg : ClockConfig) (evs : List Event) (ho : cfg.onoff[i]? = none) :
    init_gates mgr_rc (i :: rest) cfg evs = (GatesExit.outside i, cfg, evs) := by
  simp only [init_gates, ho]

theorem slot_of_inside (l : List ClockOnoff) (i : Nat) (h : i < l.length) :
    l[i]? = some (l.get ⟨i, h⟩) := List.getElem?_eq_getElem h

/-- A code returned from inside the loop is the negative code of one of its gates. -/
theorem init_gates_returned (mgr_rc : Nat → Int) (l : List Nat) :
    ∀ (cfg : ClockConfig) (evs : List Event) (rc : Int),
    (init_gates mgr_rc l cfg evs).1 = GatesExit.returned rc →
    ∃ k, k ∈ l ∧ rc = mgr_rc k ∧ mgr_rc k < 0 := by
  induction l with
  | nil =>
    intro cfg evs rc h
    simp only [init_gates] at h
    exact GatesExit.noConfusion h
  | cons i rest ih =>
    intro cfg evs rc h
    cases ho : cfg.onoff[i]? with
    | none =>
      rw [init_gates_step_outside mgr_rc i rest cfg evs ho] at h
      exact GatesExit.noConfusion h
    | some o =>
      by_cases hneg : mgr_rc i < 0
      · rw [init_gates_step_fail mgr_rc i rest cfg evs o ho hneg] at h
        have hrc : mgr_rc i = rc := GatesExit.returned.inj h
        exact ⟨i, List.mem_cons_self i rest, hrc.symm, hneg⟩
      · rw [init_gates_step_ok mgr_rc i rest cfg evs o ho (by omega)] at h
        obtain ⟨k, hk, h1, h2⟩ := ih _ _ rc h
        exact ⟨k, List.mem_cons_of_mem i hk, h1, h2⟩

/-- The loop over distinct gates inside the storage that all initialise with a non-negative
code: it runs to its end, calls `onoff_manager_init` once per gate in order, and writes the
index of every gate in `l` into its entry of the array, touching nothing else. -/
theorem init_gates_ok (mgr_rc : Nat → Int) (l : List Nat) (hl : l.Nodup) :
    ∀ (cfg : ClockConfig) (evs : List Event), (∀ i, i ∈ l → 0 ≤ mgr_rc i) →
    (∀ i, i ∈ l → i < cfg.onoff.length) →
    (init_gates mgr_rc l cfg evs).1 = GatesExit.completed ∧
    (init_gates mgr_rc l cfg evs).2.2 = evs ++ l.map Event.mgr_init ∧
    (init_gates mgr_rc l cfg evs).2.1.flags = cfg.flags ∧
    (init_gates mgr_rc l cfg evs).2.1.flags_snapshot = cfg.flags_snapshot ∧
    (init_gates mgr_rc l cfg evs).2.1.work = cfg.work ∧
    (init_gates mgr_rc l cfg evs).2.1.onoff_cnt = cfg.onoff_cnt ∧
    (∀ j, (init_gates mgr_rc l cfg evs).2.1.onoff[j]? =
      if j ∈ l then (cfg.onoff[j]?).map (ClockOnoff.indexed j) else cfg.onoff[j]?) := by
  induction l with
  | nil =>
    intro cfg evs _ _
    simp [init_gates]
  | cons i rest ih =>
    intro cfg evs hok hin
    have hnd := List.nodup_cons.mp hl
    have hlen : i < cfg.onoff.length := hin i (List.mem_cons_self i rest)
    have ho := slot_of_inside cfg.onoff i hlen
    rw [init_gates_step_ok mgr_rc i rest cfg evs _ ho (hok i (List.mem_cons_self i rest))]
    obtain ⟨h1, h2, h3, h4, h5, h6, h7⟩ :=
      ih hnd.2 { cfg with onoff := cfg.onoff.set i ((cfg.onoff.get ⟨i, hlen⟩).indexed i) }
        (evs ++ [Event.mgr_init i]) (fun k hk => hok k (List.mem_cons_of_mem i hk))
        (fun k hk => by
          show k < (cfg.onoff.set i ((cfg.onoff.get ⟨i, hlen⟩).indexed i)).length
          rw [List.length_set]
          exact hin k (List.mem_cons_of_mem i hk))
    refine ⟨h1, ?_, h3, h4, h5, h6, ?_⟩
    · rw [h2]; simp
    · intro j
      rw [h7 j]
      by_cases hj : j = i
      · subst hj
        rw [if_neg hnd.1, if_pos (List.mem_cons_self j rest)]
        show (cfg.onoff.set j ((cfg.onoff.get ⟨j, hlen⟩).indexed j))[j]? = _
        rw [List.getElem?_set_self hlen, ho]
        rfl
      · have hmem : j ∈ i :: rest ↔ j ∈ rest := by simp [hj]
        have hslot : (cfg.onoff.set i ((cfg.onoff.get ⟨i, hlen⟩).indexed i))[j]? =
            cfg.onoff[j]? := List.getElem?_set_ne (fun e => hj e.symm)
        by_cases hc : j ∈ rest
        · rw [if_pos hc, if_pos (hmem.mpr hc)]
          exact congrArg (Option.map (ClockOnoff.indexed j)) hslot
        · rw [if_neg hc, if_neg (fun h => hc (hmem.mp h))]
          exact hslot

/-- The loop when gate `k` is the first to fail, with the gates up to `k` inside the
storage: it returns the code of gate `k` after the calls for the gates before `k` and for
`k`, with the configuration as the gates before `k` left it. -/
theorem init_gates_fail (mgr_rc : Nat → Int) (k : Nat) (l2 : List Nat) (hk : mgr_rc k < 0) :
    ∀ (l1 : List Nat) (cfg : ClockConfig) (evs : List Event), (∀ i, i ∈ l1 → 0 ≤ mgr_rc i) →
    (∀ i, i ∈ l1 → i < cfg.onoff.length) → k < cfg.onoff.length →
    init_gates mgr_rc (l1 ++ k :: l2) cfg evs =
      (GatesExit.returned (mgr_rc k), (init_gates mgr_rc l1 cfg evs).2.1,
        evs ++ (l1 ++ [k]).map Event.mgr_init) := by
  intro l1
  induction l1 with
  | nil =>
    intro cfg evs _ _ hklen
    rw [List.nil_append,
      init_gates_step_fail mgr_rc k l2 cfg evs _ (slot_of_inside cfg.onoff k hklen) hk]
    simp [init_gates]
  | cons i rest ih =>
    intro cfg evs hok hin hklen
    have hi : 0 ≤ mgr_rc i := hok i (List.mem_cons_self i rest)
    have hlen : i < cfg.onoff.length := hin i (List.mem_cons_self i rest)
    have ho := slot_of_inside cfg.onoff i hlen
    rw [List.cons_append, init_gates_step_ok mgr_rc i _ cfg evs _ ho hi,
      init_gates_step_ok mgr_rc i rest cfg evs _ ho hi,
      ih _ _ (fun j hj => hok j (List.mem_cons_of_mem i hj))
        (fun j hj => by
          show j < (cfg.onoff.set i ((cfg.onoff.get ⟨i, hlen⟩).indexed i)).length
          rw [List.length_set]
          exact hin j (List.mem_cons_of_mem i hj))
        (by
          show k < (cfg.onoff.set i ((cfg.onoff.get ⟨i, hlen⟩).indexed i)).length
          rw [List.length_set]
          exact hklen)]
    simp

theorem init_past_assert (N : Nat) (asserts : Bool) (mgr_rc : Nat → Int) (cfg : ClockConfig)
    (cnt handler : Nat) (h : asserts = false ∨ cnt ≤ ONOFF_CNT_MAX N) :
    nrf2_clock_config_init N asserts mgr_rc cfg cnt handler =
      match init_gates mgr_rc (List.range cnt) cfg [] with
      | (GatesExit.returned rc, cfg1, evs) => InitResult.returned rc cfg1 evs
      | (GatesExit.completed, cfg1, evs) =>
        InitResult.returned 0 { cfg1 with onoff_cnt := cnt, work := some handler } evs
      | (GatesExit.outside i, _, _) => InitResult.outside i := by
  unfold nrf2_clock_config_init
  have hc : (asserts && !decide (cnt ≤ ONOFF_CNT_MAX N)) = false := by
    rcases h with h | h
    · rw [h]; rfl
    · simp [h]
  rw [hc]
  rfl

theorem init_all_ok (N : Nat) (asserts : Bool) (mgr_rc : Nat → Int) (cfg : ClockConfig)
    (cnt handler : Nat) (h : asserts = false ∨ cnt ≤ ONOFF_CNT_MAX N)
    (hcap : cnt ≤ cfg.onoff.length) (hok : ∀ i, i < cnt → 0 ≤ mgr_rc i) :
    nrf2_clock_config_init N asserts mgr_rc cfg cnt handler =
      InitResult.returned 0
        { (init_gates mgr_rc (List.range cnt) cfg []).2.1 with
          onoff_cnt := cnt, work := some handler }
        ((List.range cnt).map Event.mgr_init) := by
  obtain ⟨h1, h2, _⟩ := init_gates_ok mgr_rc (List.range cnt) (List.nodup_range cnt) cfg []
    (fun i hi => hok i (List.mem_range.mp hi))
    (fun i hi => Nat.lt_of_lt_of_le (List.mem_range.mp hi) hcap)
  rw [init_past_assert N asserts mgr_rc cfg cnt handler h]
  rw [List.nil_append] at h2
  generalize init_gates mgr_rc (List.range cnt) cfg [] = r at h1 h2
  obtain ⟨a, c, e⟩ := r
  simp only at h1 h2
  subst h1 h2
  rfl

theorem init_first_fail (N : Nat) (asserts : Bool) (mgr_rc : Nat → Int) (cfg : ClockConfig)
    (cnt handler : Nat) (h : asserts = false ∨ cnt ≤ ONOFF_CNT_MAX N)
    (hcap : cnt ≤ cfg.onoff.length) (k : Nat) (hk : k < cnt)
    (hfail : mgr_rc k < 0) (hok : ∀ i, i < k → 0 ≤ mgr_rc i) :
    nrf2_clock_config_init N asserts mgr_rc cfg cnt handler =
      InitResult.returned (mgr_rc k) (init_gates mgr_rc (List.range k) cfg []).2.1
        ((List.range (k + 1)).map Event.mgr_init) := by
  rw [init_past_assert N asserts mgr_rc cfg cnt handler h, range_split hk,
    init_gates_fail mgr_rc k _ hfail (List.range k) cfg []
      (fun i hi => hok i (List.mem_range.mp hi))
      (fun i hi => by have := List.mem_range.mp hi; omega) (by omega)]
  simp [List.range_succ]

/-- The least gate whose initialisation fails, when one below `cnt` fails. -/
theorem exists_first_fail (mgr_rc : Nat → Int) (cnt : Nat)
    (h : ∃ i, i < cnt ∧ mgr_rc i < 0) :
    ∃ k, k < cnt ∧ mgr_rc k < 0 ∧ ∀ i, i < k → 0 ≤ mgr_rc i := by
  classical
  refine ⟨Nat.find h, (Nat.find_spec h).1, (Nat.find_spec h).2, ?_⟩
  intro i hi
  have hmin := Nat.find_min h hi
  have hlt : i < cnt := Nat.lt_trans hi (Nat.find_spec h).1
  by_contra hneg
  exact hmin ⟨hlt, by omega⟩

/-- C10: for an option count within capacity, `nrf2_clock_config_init` returns 0 exactly
when every gate initialisation returns a non-negative code; then every gate was initialised
once, in order, option `i` carries index `i`, `onoff_cnt` is the option count and the work
unit is bound to the handler. When gate `k` is the first to return a negative code, the
result is that code, the gates after `k` are not initialised, and `onoff_cnt`, the work
binding and the entries from `k` on are as before. -/
theorem init_result (N : Nat) (asserts : Bool) (mgr_rc : Nat → Int) (cfg : ClockConfig)
    (cnt handler : Nat) (hcnt : cnt ≤ ONOFF_CNT_MAX N) (h8 : cnt < 256)
    (hcap : cnt ≤ cfg.onoff.length) :
    ((nrf2_clock_config_init N asserts mgr_rc cfg cnt handler).code = some 0 ↔
      ∀ i, i < cnt → 0 ≤ mgr_rc i) ∧
    ((∀ i, i < cnt → 0 ≤ mgr_rc i) →
      ∃ cfg2, nrf2_clock_config_init N asserts mgr_rc cfg cnt handler =
          InitResult.returned 0 cfg2 ((List.range cnt).map Event.mgr_init) ∧
        cfg2.onoff_cnt = cnt ∧ cfg2.work = some handler ∧
        cfg2.flags = cfg.flags ∧ cfg2.flags_snapshot = cfg.flags_snapshot ∧
        (∀ i, i < cnt → ∃ o, cfg2.onoff[i]? = some o ∧ o.idx = i) ∧
        (∀ j, cnt ≤ j → cfg2.onoff[j]? = cfg.onoff[j]?)) ∧
    (∀ k, k < cnt → mgr_rc k < 0 → (∀ i, i < k → 0 ≤ mgr_rc i) →
      ∃ cfg2, nrf2_clock_config_init N asserts mgr_rc cfg cnt handler =
          InitResult.returned (mgr_rc k) cfg2 ((List.range (k + 1)).map Event.mgr_init) ∧
        cfg2.onoff_cnt = cfg.onoff_cnt ∧ cfg2.work = cfg.work ∧
        cfg2.flags = cfg.flags ∧ cfg2.flags_snapshot = cfg.flags_snapshot ∧
        (∀ j, k ≤ j → cfg2.onoff[j]? = cfg.onoff[j]?)) := by
  have hpass : asserts = false ∨ cnt ≤ ONOFF_CNT_MAX N := Or.inr hcnt
  refine ⟨?_, ?_, ?_⟩
  · constructor
    · intro hzero i hi
      by_contra hneg
      obtain ⟨k, hk, hfail, hok⟩ := exists_first_fail mgr_rc cnt ⟨i, hi, by omega⟩
      rw [init_first_fail N asserts mgr_rc cfg cnt handler hpass hcap k hk hfail hok] at hzero
      simp only [InitResult.code, Option.some.injEq] at hzero
      omega
    · intro hok
      rw [init_all_ok N asserts mgr_rc cfg cnt handler hpass hcap hok]
      rfl
  · intro hok
    obtain ⟨_, _, h3, h4, _, _, h7⟩ :=
      init_gates_ok mgr_rc (List.range cnt) (List.nodup_range cnt) cfg []
        (fun i hi => hok i (List.mem_range.mp hi))
        (fun i hi => Nat.lt_of_lt_of_le (List.mem_range.mp hi) hcap)
    refine ⟨_, init_all_ok N asserts mgr_rc cfg cnt handler hpass hcap hok, rfl, rfl, h3, h4,
      ?_, ?_⟩
    · intro i hi
      have hlen : i < cfg.onoff.length := Nat.lt_of_lt_of_le hi hcap
      refine ⟨(cfg.onoff.get ⟨i, hlen⟩).indexed i, ?_, ?_⟩
      · show (init_gates mgr_rc (List.range cnt) cfg []).2.1.onoff[i]? = _
        rw [h7 i, if_pos (List.mem_range.mpr hi), List.getElem?_eq_getElem hlen]
        rfl
      · show i % 256 = i
        exact Nat.mod_eq_of_lt (by omega)
    · intro j hj
      show (init_gates mgr_rc (List.range cnt) cfg []).2.1.onoff[j]? = _
      rw [h7 j, if_neg (fun h => by have := List.mem_range.mp h; omega)]
  · intro k hk hfail hok
    obtain ⟨_, _, h3, h4, h5, h6, h7⟩ :=
      init_gates_ok mgr_rc (List.range k) (List.nodup_range k) cfg []
        (fun i hi => hok i (List.mem_range.mp hi))
        (fun i hi => by have := List.mem_range.mp hi; omega)
    refine ⟨_, init_first_fail N asserts mgr_rc cfg cnt handler hpass hcap k hk hfail hok,
      h6, h5, h3, h4, ?_⟩
    intro j hj
    rw [h7 j, if_neg (fun h => by have := List.mem_range.mp h; omega)]

/-- Witness of C10: `N = 10`, storage for eight options, three options, handler 42; all
gates succeed in the first run, gate 1 returns -22 in the second. -/
theorem init_result_witness :
    (nrf2_clock_config_init 10 true (fun _ => 0) (blankConfig 8) 3 42).code = some 0 ∧
    (nrf2_clock_config_init 10 true (fun i => if i = 1 then -22 else 0) (blankConfig 8) 3
      42).code = some (-22) ∧
    (nrf2_clock_config_init 10 true (fun i => if i = 1 then -22 else 0) (blankConfig 8) 3
      42).calls = [Event.mgr_init 0, Event.mgr_init 1] :=
  ⟨(init_result 10 true (fun _ => 0) (blankConfig 8) 3 42 (by decide) (by decide)
      (by decide)).1.mpr (fun _ _ => by decide),
    by decide, by decide⟩

/-! ## The capacity check -/

/-- C9 as stated fails: with `N = 10` (capacity 8), 9 options and storage for 9 entries,
the call does not return an error code. With assertions compiled in it stops at the
assertion; with assertions compiled out, and every gate initialising with code 0, it
returns 0 and records 9 as the option count. -/
theorem init_nine_of_eight_no_error :
    ONOFF_CNT_MAX 10 < 9 ∧
    nrf2_clock_config_init 10 true (fun _ => 0) (blankConfig 9) 9 42 =
      InitResult.assert_failed ∧
    (nrf2_clock_config_init 10 false (fun _ => 0) (blankConfig 9) 9 42).code = some 0 ∧
    (nrf2_clock_config_init 10 false (fun _ => 0) (blankConfig 9) 9 42).config.map
      (fun c => c.onoff_cnt) = some 9 := by
  decide

/-- C9, amended: for an option count above `ONOFF_CNT_MAX` the capacity check is an
assertion, not an error return. With assertions compiled in, the call stops at the
assertion, whatever the storage and the gates: it returns nothing, initialises no gate and
sets up no configuration. The capacity check produces no error code in any build: with
assertions compiled out, a code the call returns is 0 or the negative code of a gate
initialisation. -/
theorem init_over_capacity (N : Nat) (mgr_rc : Nat → Int) (cfg : ClockConfig)
    (cnt handler : Nat) (hover : ONOFF_CNT_MAX N < cnt) (_h8 : cnt < 256) :
    nrf2_clock_config_init N true mgr_rc cfg cnt handler = InitResult.assert_failed ∧
    (nrf2_clock_config_init N true mgr_rc cfg cnt handler).code = none ∧
    (nrf2_clock_config_init N true mgr_rc cfg cnt handler).config = none ∧
    (nrf2_clock_config_init N true mgr_rc cfg cnt handler).calls = [] ∧
    (∀ rc, (nrf2_clock_config_init N false mgr_rc cfg cnt handler).code = some rc →
      rc = 0 ∨ ∃ k, k < cnt ∧ rc = mgr_rc k ∧ mgr_rc k < 0) := by
  have hfail : nrf2_clock_config_init N true mgr_rc cfg cnt handler =
      InitResult.assert_failed := by
    unfold nrf2_clock_config_init
    have hc : (true && !decide (cnt ≤ ONOFF_CNT_MAX N)) = true := by
      have : ¬ cnt ≤ ONOFF_CNT_MAX N := by omega
      simp [this]
    rw [hc]
    rfl
  refine ⟨hfail, by rw [hfail]; rfl, by rw [hfail]; rfl, by rw [hfail]; rfl, ?_⟩
  intro rc hrc
  rw [init_past_assert N false mgr_rc cfg cnt handler (Or.inl rfl)] at hrc
  cases hg : init_gates mgr_rc (List.range cnt) cfg [] with
  | mk ex rest =>
    obtain ⟨c1, e1⟩ := rest
    rw [hg] at hrc
    cases ex with
    | completed =>
      left
      simp only [InitResult.code, Option.some.injEq] at hrc
      exact hrc.symm
    | returned r =>
      right
      simp only [InitResult.code, Option.some.injEq] at hrc
      have h1 : (init_gates mgr_rc (List.range cnt) cfg []).1 = GatesExit.returned r := by
        rw [hg]
      obtain ⟨k, hk, hr, hneg⟩ := init_gates_returned mgr_rc _ cfg [] r h1
      exact ⟨k, List.mem_range.mp hk, by rw [← hrc]; exact hr, hneg⟩
    | outside i =>
      simp only [InitResult.code] at hrc
      exact Option.noConfusion hrc

/-- Witness of the amended C9: `N = 10`, nine options; with assertions compiled in the call
stops at the assertion, and with assertions compiled out and gate 3 failing with -22 the
code returned is that of the gate. -/
theorem init_over_capacity_witness :
    nrf2_clock_config_init 10 true (fun _ => 0) (blankConfig 9) 9 42 =
      InitResult.assert_failed ∧
    (nrf2_clock_config_init 10 false (fun i => if i = 3 then -22 else 0) (blankConfig 9) 9
      42).code = some (-22) :=
  ⟨(init_over_capacity 10 (fun _ => 0) (blankConfig 9) 9 42 (by decide) (by decide)).1,
    by decide⟩

/-! ## Starting and stopping an option -/

theorem update_config_cfg (N : Nat) (cfg : ClockConfig) :
    (update_config N cfg).1 = { cfg with flags := cfg.flags ||| FLAG_UPDATE_NEEDED N } := by
  unfold update_config atomic_or
  dsimp only
  split <;> rfl

theorem update_config_calls (N : Nat) (cfg : ClockConfig) :
    (update_config N cfg).2 =
      if cfg.flags.testBit (N - 2) = true ∨ cfg.flags.testBit (N - 1) = true then []
      else [Event.work_submit] := by
  unfold update_config atomic_or
  dsimp only
  by_cases h : cfg.flags.testBit (N - 2) = true ∨ cfg.flags.testBit (N - 1) = true
  · rw [if_pos ((and_flags_ne_zero N cfg.flags).mpr h), if_pos h]
  · rw [if_neg (fun hne => h ((and_flags_ne_zero N cfg.flags).mp hne)), if_neg h]

theorem start_eq (N : Nat) (cfg : ClockConfig) (p fn : Nat) (o : ClockOnoff)
    (ho : cfg.onoff[p]? = some o) (hidx : o.idx = p) :
    onoff_start_option N cfg p fn =
      update_config N
        { cfg with
          onoff := cfg.onoff.set p { o with notify := some fn },
          flags := cfg.flags ||| BIT p } := by
  unfold onoff_start_option atomic_or
  rw [ho, ← hidx]

theorem stop_eq (N : Nat) (cfg : ClockConfig) (p fn : Nat) (o : ClockOnoff)
    (ho : cfg.onoff[p]? = some o) (hidx : o.idx = p) :
    onoff_stop_option N cfg p fn =
      ((update_config N { cfg with flags := cfg.flags &&& NOT (BIT p) }).1,
        (update_config N { cfg with flags := cfg.flags &&& NOT (BIT p) }).2 ++
          [Event.notify fn p 0]) := by
  unfold onoff_stop_option atomic_and
  rw [ho, ← hidx]

/-- What `onoff_start_option` does for an option `p` of a sound configuration. -/
theorem start_effect (N : Nat) (cfg : ClockConfig) (p fn : Nat) (hs : Sound N cfg)
    (hp : p < cfg.onoff_cnt) :
    (∃ o, cfg.onoff[p]? = some o ∧ o.idx = p ∧
      (onoff_start_option N cfg p fn).1 =
        { cfg with
          onoff := cfg.onoff.set p { o with notify := some fn },
          flags := (cfg.flags ||| BIT p) ||| FLAG_UPDATE_NEEDED N }) ∧
    (onoff_start_option N cfg p fn).2 =
      (if cfg.flags.testBit (N - 2) = true ∨ cfg.flags.testBit (N - 1) = true then []
        else [Event.work_submit]) := by
  obtain ⟨o, ho, hidx⟩ := hs.2 p hp
  have hmax : p < N - 2 := Nat.lt_of_lt_of_le hp hs.1
  rw [start_eq N cfg p fn o ho hidx]
  refine ⟨⟨o, ho, hidx, update_config_cfg N _⟩, ?_⟩
  rw [update_config_calls]
  have h2 : (cfg.flags ||| BIT p).testBit (N - 2) = cfg.flags.testBit (N - 2) := by
    have : ¬ (p = N - 2) := by omega
    rw [Nat.testBit_or, testBit_BIT]; simp [this]
  have h1 : (cfg.flags ||| BIT p).testBit (N - 1) = cfg.flags.testBit (N - 1) := by
    have : ¬ (p = N - 1) := by omega
    rw [Nat.testBit_or, testBit_BIT]; simp [this]
  show (if (cfg.flags ||| BIT p).testBit (N - 2) = true ∨
      (cfg.flags ||| BIT p).testBit (N - 1) = true then [] else [Event.work_submit]) = _
  rw [h2, h1]

/-- What `onoff_stop_option` does for an option `p` of a sound configuration. -/
theorem stop_effect (N : Nat) (cfg : ClockConfig) (p fn : Nat) (hN : N ≤ 32)
    (hs : Sound N cfg) (hp : p < cfg.onoff_cnt) :
    (onoff_stop_option N cfg p fn).1 =
      { cfg with flags := (cfg.flags &&& NOT (BIT p)) ||| FLAG_UPDATE_NEEDED N } ∧
    (onoff_stop_option N cfg p fn).2 =
      (if cfg.flags.testBit (N - 2) = true ∨ cfg.flags.testBit (N - 1) = true then []
        else [Event.work_submit]) ++ [Event.notify fn p 0] := by
  obtain ⟨o, ho, hidx⟩ := hs.2 p hp
  have hmax : p < N - 2 := Nat.lt_of_lt_of_le hp hs.1
  have hp32 : p < 32 := by omega
  rw [stop_eq N cfg p fn o ho hidx]
  refine ⟨update_config_cfg N _, ?_⟩
  rw [update_config_calls]
  have h2 : (cfg.flags &&& NOT (BIT p)).testBit (N - 2) = cfg.flags.testBit (N - 2) := by
    have h32 : N - 2 < 32 := by omega
    have : ¬ (p = N - 2) := by omega
    rw [testBit_and_NOT_BIT _ hp32]; simp [this, h32]
  have h1 : (cfg.flags &&& NOT (BIT p)).testBit (N - 1) = cfg.flags.testBit (N - 1) := by
    have h32 : N - 1 < 32 := by omega
    have : ¬ (p = N - 1) := by omega
    rw [testBit_and_NOT_BIT _ hp32]; simp [this, h32]
  show (if (cfg.flags &&& NOT (BIT p)).testBit (N - 2) = true ∨
      (cfg.flags &&& NOT (BIT p)).testBit (N - 1) = true then [] else [Event.work_submit]) ++
      _ = _
  rw [h2, h1]

theorem mkConfig_sound (N flags cnt : Nat) (h : cnt ≤ ONOFF_CNT_MAX N) :
    Sound N (mkConfig flags cnt) := by
  refine ⟨h, ?_⟩
  intro i hi
  have hi : i < cnt := hi
  refine ⟨{ notify := none, idx := i }, ?_, rfl⟩
  show ((List.range cnt).map (fun i => ({ notify := none, idx := i } : ClockOnoff)))[i]? = _
  rw [List.getElem?_map, List.getElem?_range hi]
  rfl

theorem mkWaiting_sound (N flags snapshot cnt p fn : Nat) (h : cnt ≤ ONOFF_CNT_MAX N) :
    Sound N (mkWaiting flags snapshot cnt p fn) := by
  refine ⟨h, ?_⟩
  intro i hi
  have hi : i < cnt := hi
  refine ⟨{ notify := if i = p then some fn else none, idx := i }, ?_, rfl⟩
  show ((List.range cnt).map
    (fun i => ({ notify := if i = p then some fn else none, idx := i } : ClockOnoff)))[i]? = _
  rw [List.getElem?_map, List.getElem?_range hi]
  rfl

/-- C11: `onoff_start_option` on option `p` of a sound configuration records the supplied
callback as the pending notification of `p`, sets bit `p` and UPDATE_NEEDED in the flags,
leaves every other bit of the flags (the other option bits and UPDATE_IN_PROGRESS), the
snapshot and every other entry of the array as they were, submits the work unit exactly
when neither UPDATE_NEEDED nor UPDATE_IN_PROGRESS was set, and invokes no callback. -/
theorem onoff_start_option_spec (N : Nat) (cfg : ClockConfig) (p fn : Nat) (hs : Sound N cfg)
    (hp : p < cfg.onoff_cnt) :
    pending_notify (onoff_start_option N cfg p fn).1 p = some fn ∧
    (onoff_start_option N cfg p fn).1.flags.testBit p = true ∧
    (onoff_start_option N cfg p fn).1.flags.testBit (N - 2) = true ∧
    (∀ j, j ≠ p → j ≠ N - 2 →
      (onoff_start_option N cfg p fn).1.flags.testBit j = cfg.flags.testBit j) ∧
    (onoff_start_option N cfg p fn).1.flags_snapshot = cfg.flags_snapshot ∧
    (∀ j, j ≠ p → (onoff_start_option N cfg p fn).1.onoff[j]? = cfg.onoff[j]?) ∧
    (onoff_start_option N cfg p fn).1.onoff_cnt = cfg.onoff_cnt ∧
    (onoff_start_option N cfg p fn).1.work = cfg.work ∧
    (onoff_start_option N cfg p fn).2 =
      (if cfg.flags.testBit (N - 2) = true ∨ cfg.flags.testBit (N - 1) = true then []
        else [Event.work_submit]) ∧
    (∀ g i status, Event.notify g i status ∉ (onoff_start_option N cfg p fn).2) := by
  obtain ⟨⟨o, ho, _, hcfg⟩, hev⟩ := start_effect N cfg p fn hs hp
  obtain ⟨hlen, _⟩ := List.getElem?_eq_some.mp ho
  rw [hcfg, hev]
  refine ⟨?_, ?_, ?_, ?_, rfl, ?_, rfl, rfl, rfl, ?_⟩
  · show (match (cfg.onoff.set p { o with notify := some fn })[p]? with
      | none => none
      | some o => o.notify) = some fn
    rw [List.getElem?_set_self hlen]
  · show ((cfg.flags ||| BIT p) ||| FLAG_UPDATE_NEEDED N).testBit p = true
    simp [testBit_BIT]
  · show ((cfg.flags ||| BIT p) ||| FLAG_UPDATE_NEEDED N).testBit (N - 2) = true
    simp [FLAG_UPDATE_NEEDED, testBit_BIT]
  · intro j h1 h2
    show ((cfg.flags ||| BIT p) ||| FLAG_UPDATE_NEEDED N).testBit j = cfg.flags.testBit j
    have e1 : ¬ (p = j) := fun h => h1 h.symm
    have e2 : ¬ (N - 2 = j) := fun h => h2 h.symm
    simp [FLAG_UPDATE_NEEDED, testBit_BIT, e1, e2]
  · intro j hj
    exact List.getElem?_set_ne (fun h => hj h.symm)
  · intro g i status hmem
    split at hmem
    · exact absurd hmem (List.not_mem_nil _)
    · simp at hmem

/-- Witness of C11: `N = 10`, an idle configuration with eight options, option 2 started
with callback 7. -/
theorem onoff_start_option_spec_witness :
    pending_notify (onoff_start_option 10 (mkConfig 0 8) 2 7).1 2 = some 7 ∧
    (onoff_start_option 10 (mkConfig 0 8) 2 7).1.flags = 260 ∧
    (onoff_start_option 10 (mkConfig 0 8) 2 7).2 = [Event.work_submit] :=
  ⟨(onoff_start_option_spec 10 (mkConfig 0 8) 2 7 (mkConfig_sound 10 0 8 (by decide))
      (by decide)).1,
    by decide, by decide⟩

/-- C12: `onoff_stop_option` on option `p` of a sound configuration clears bit `p` and sets
UPDATE_NEEDED in the flags, leaves every other bit of the flags, the snapshot and the whole
array (so every pending notification) as they were, and makes, after the possible
submission of the work unit, exactly one callback invocation: the supplied callback for
option `p` with status 0. -/
theorem onoff_stop_option_spec (N : Nat) (cfg : ClockConfig) (p fn : Nat) (hN : N ≤ 32)
    (hf : cfg.flags < 2 ^ 32) (hs : Sound N cfg) (hp : p < cfg.onoff_cnt) :
    (onoff_stop_option N cfg p fn).1.flags.testBit p = false ∧
    (onoff_stop_option N cfg p fn).1.flags.testBit (N - 2) = true ∧
    (∀ j, j ≠ p → j ≠ N - 2 →
      (onoff_stop_option N cfg p fn).1.flags.testBit j = cfg.flags.testBit j) ∧
    (onoff_stop_option N cfg p fn).1.flags_snapshot = cfg.flags_snapshot ∧
    (onoff_stop_option N cfg p fn).1.onoff = cfg.onoff ∧
    (onoff_stop_option N cfg p fn).1.onoff_cnt = cfg.onoff_cnt ∧
    (onoff_stop_option N cfg p fn).1.work = cfg.work ∧
    (onoff_stop_option N cfg p fn).2 =
      (if cfg.flags.testBit (N - 2) = true ∨ cfg.flags.testBit (N - 1) = true then []
        else [Event.work_submit]) ++ [Event.notify fn p 0] ∧
    (onoff_stop_option N cfg p fn).2.filter (fun e => !e.isSubmit) = [Event.notify fn p 0] := by
  obtain ⟨hcfg, hev⟩ := stop_effect N cfg p fn hN hs hp
  have hmax : p < N - 2 := Nat.lt_of_lt_of_le hp hs.1
  have hp32 : p < 32 := by omega
  rw [hcfg, hev]
  refine ⟨?_, ?_, ?_, rfl, rfl, rfl, rfl, rfl, ?_⟩
  · show ((cfg.flags &&& NOT (BIT p)) ||| FLAG_UPDATE_NEEDED N).testBit p = false
    have e : ¬ (N - 2 = p) := by omega
    rw [Nat.testBit_or, testBit_and_NOT_BIT _ hp32]
    simp [FLAG_UPDATE_NEEDED, testBit_BIT, e]
  · show ((cfg.flags &&& NOT (BIT p)) ||| FLAG_UPDATE_NEEDED N).testBit (N - 2) = true
    simp [FLAG_UPDATE_NEEDED, testBit_BIT]
  · intro j h1 h2
    show ((cfg.flags &&& NOT (BIT p)) ||| FLAG_UPDATE_NEEDED N).testBit j = cfg.flags.testBit j
    have e1 : ¬ (p = j) := fun h => h1 h.symm
    have e2 : ¬ (N - 2 = j) := fun h => h2 h.symm
    rw [Nat.testBit_or, testBit_and_NOT_BIT_word hf hp32]
    simp [FLAG_UPDATE_NEEDED, testBit_BIT, e1, e2]
  · split <;> simp [Event.isSubmit]

/-- Witness of C12: `N = 10`, option 2 active and nothing else, option 2 stopped with
callback 9: the work unit is submitted and callback 9 is invoked with status 0. -/
theorem onoff_stop_option_spec_witness :
    (onoff_stop_option 10 (mkConfig 4 8) 2 9).1.flags = 256 ∧
    (onoff_stop_option 10 (mkConfig 4 8) 2 9).2 = [Event.work_submit, Event.notify 9 2 0] ∧
    (onoff_stop_option 10 (mkConfig 4 8) 2 9).2.filter (fun e => !e.isSubmit) =
      [Event.notify 9 2 0] :=
  ⟨by decide, by decide,
    (onoff_stop_option_spec 10 (mkConfig 4 8) 2 9 (by decide) (by decide)
      (mkConfig_sound 10 4 8 (by decide)) (by decide)).2.2.2.2.2.2.2.2⟩

/-! ## Effects of the calls on flags, snapshot, pending notifications and queue -/

theorem submits_calls (c : Prop) [Decidable c] :
    submits (if c then [] else [Event.work_submit]) = if c then 0 else 1 := by
  split <;> rfl

theorem start_bits (N : Nat) (cfg : ClockConfig) (p fn : Nat) (hs : Sound N cfg)
    (hp : p < cfg.onoff_cnt) (j : Nat) :
    (onoff_start_option N cfg p fn).1.flags.testBit j =
      ((cfg.flags.testBit j || decide (p = j)) || decide (N - 2 = j)) := by
  obtain ⟨⟨o, _, _, hcfg⟩, _⟩ := start_effect N cfg p fn hs hp
  rw [hcfg]
  show ((cfg.flags ||| BIT p) ||| FLAG_UPDATE_NEEDED N).testBit j = _
  unfold FLAG_UPDATE_NEEDED
  rw [Nat.testBit_or, Nat.testBit_or, testBit_BIT, testBit_BIT]

theorem stop_bits (N : Nat) (cfg : ClockConfig) (p fn : Nat) (hN : N ≤ 32) (hs : Sound N cfg)
    (hp : p < cfg.onoff_cnt) (j : Nat) (hj : j < 32) :
    (onoff_stop_option N cfg p fn).1.flags.testBit j =
      ((cfg.flags.testBit j && !decide (p = j)) || decide (N - 2 = j)) := by
  have hmax : p < N - 2 := Nat.lt_of_lt_of_le hp hs.1
  rw [(stop_effect N cfg p fn hN hs hp).1]
  show ((cfg.flags &&& NOT (BIT p)) ||| FLAG_UPDATE_NEEDED N).testBit j = _
  unfold FLAG_UPDATE_NEEDED
  rw [Nat.testBit_or, testBit_and_NOT_BIT _ (by omega), testBit_BIT]
  simp [hj]

theorem begin_bits (N : Nat) (cfg : ClockConfig) (hN : N ≤ 32) (j : Nat) (hj : j < 32) :
    (nrf2_clock_config_update_begin N cfg).1.flags.testBit j =
      ((cfg.flags.testBit j || decide (N - 1 = j)) && !decide (N - 2 = j)) := by
  rw [update_begin_cfg]
  show ((cfg.flags ||| FLAG_UPDATE_IN_PROGRESS N) &&& NOT (FLAG_UPDATE_NEEDED N)).testBit j = _
  unfold FLAG_UPDATE_NEEDED FLAG_UPDATE_IN_PROGRESS
  rw [testBit_and_NOT_BIT _ (by omega), Nat.testBit_or, testBit_BIT]
  simp [hj]

theorem begin_snapshot_bits (N : Nat) (cfg : ClockConfig) (j : Nat) (hj : j < 32) :
    (nrf2_clock_config_update_begin N cfg).1.flags_snapshot.testBit j =
      (cfg.flags.testBit j || decide (N - 1 = j)) := by
  rw [update_begin_cfg]
  show ((cfg.flags ||| FLAG_UPDATE_IN_PROGRESS N) % 2 ^ 32).testBit j = _
  unfold FLAG_UPDATE_IN_PROGRESS
  rw [Nat.testBit_mod_two_pow, Nat.testBit_or, testBit_BIT]
  simp [hj]

/-- The flag bits after `nrf2_clock_config_update_end`, whether or not it finds
UPDATE_IN_PROGRESS set. -/
theorem finish_bits (N : Nat) (cfg : ClockConfig) (status : Int) (hN : N ≤ 32)
    (hcnt : cfg.onoff_cnt ≤ 32) (j : Nat) (hj : j < 32) :
    (nrf2_clock_config_update_end N cfg status).1.flags.testBit j =
      ((cfg.flags.testBit j && !decide (N - 1 = j)) &&
        !(cfg.flags.testBit (N - 1) &&
          (decide (status < 0) && (decide (j < cfg.onoff_cnt) && notified cfg j)))) := by
  cases hprog : cfg.flags.testBit (N - 1) with
  | true =>
    rw [update_end_live_flags N cfg status hN hcnt hprog j hj]
    simp
  | false =>
    rw [update_end_eq_clear N cfg status hprog]
    show (cfg.flags &&& NOT (FLAG_UPDATE_IN_PROGRESS N)).testBit j = _
    unfold FLAG_UPDATE_IN_PROGRESS
    rw [testBit_and_NOT_BIT _ (by omega)]
    simp [hj]

/-- The array, the snapshot, the option count and the submissions after
`nrf2_clock_config_update_end`, whether or not it finds UPDATE_IN_PROGRESS set. -/
theorem finish_effect (N : Nat) (cfg : ClockConfig) (status : Int) :
    (nrf2_clock_config_update_end N cfg status).1.flags_snapshot = cfg.flags_snapshot ∧
    (nrf2_clock_config_update_end N cfg status).1.onoff_cnt = cfg.onoff_cnt ∧
    (∀ j, (nrf2_clock_config_update_end N cfg status).1.onoff[j]? =
      if cfg.flags.testBit (N - 1) = true ∧ j < cfg.onoff_cnt ∧ notified cfg j = true then
        (cfg.onoff[j]?).map ClockOnoff.cleared
      else cfg.onoff[j]?) ∧
    (∀ j, (nrf2_clock_config_update_end N cfg status).2.filter (Event.isNotifyOf j) =
      if cfg.flags.testBit (N - 1) = true ∧ j < cfg.onoff_cnt then end_notice status cfg j
      else []) ∧
    submits (nrf2_clock_config_update_end N cfg status).2 =
      (if cfg.flags.testBit (N - 1) = true ∧ cfg.flags.testBit (N - 2) = true then 1 else 0) := by
  cases hprog : cfg.flags.testBit (N - 1) with
  | true =>
    obtain ⟨h1, h2, _, h4, h5, h6⟩ := update_end_live_spec N cfg status hprog
    refine ⟨h1, h2, ?_, ?_, ?_⟩
    · intro j
      rw [h4 j]
      by_cases hc : j < cfg.onoff_cnt ∧ notified cfg j = true
      · have hc2 : true = true ∧ j < cfg.onoff_cnt ∧ notified cfg j = true := ⟨rfl, hc⟩
        rw [if_pos hc, if_pos hc2]
      · have hc2 : ¬ (true = true ∧ j < cfg.onoff_cnt ∧ notified cfg j = true) :=
          fun h => hc h.2
        rw [if_neg hc, if_neg hc2]
    · intro j
      rw [h5 j]
      by_cases hc : j < cfg.onoff_cnt
      · have hc2 : true = true ∧ j < cfg.onoff_cnt := ⟨rfl, hc⟩
        rw [if_pos hc, if_pos hc2]
      · have hc2 : ¬ (true = true ∧ j < cfg.onoff_cnt) := fun h => hc h.2
        rw [if_neg hc, if_neg hc2]
    · unfold submits
      rw [h6]
      by_cases hn : cfg.flags.testBit (N - 2) = true
      · have hc2 : true = true ∧ cfg.flags.testBit (N - 2) = true := ⟨rfl, hn⟩
        rw [if_pos hn, if_pos hc2]
        rfl
      · have hc2 : ¬ (true = true ∧ cfg.flags.testBit (N - 2) = true) := fun h => hn h.2
        rw [if_neg hn, if_neg hc2]
        rfl
  | false =>
    rw [update_end_eq_clear N cfg status hprog]
    refine ⟨rfl, rfl, ?_, ?_, ?_⟩
    · intro j
      have hc : ¬ (false = true ∧ j < cfg.onoff_cnt ∧ notified cfg j = true) :=
        fun h => Bool.noConfusion h.1
      rw [if_neg hc]
    · intro j
      have hc : ¬ (false = true ∧ j < cfg.onoff_cnt) := fun h => Bool.noConfusion h.1
      rw [if_neg hc]
      rfl
    · have hc : ¬ (false = true ∧ cfg.flags.testBit (N - 2) = true) :=
        fun h => Bool.noConfusion h.1
      rw [if_neg hc]
      rfl

theorem sound_of_slots (N : Nat) (c1 c2 : ClockConfig) (hs : Sound N c1)
    (hcnt : c2.onoff_cnt = c1.onoff_cnt)
    (hidx : ∀ j : Nat, (c2.onoff[j]?).map (fun o : ClockOnoff => o.idx) =
      (c1.onoff[j]?).map (fun o : ClockOnoff => o.idx)) :
    Sound N c2 := by
  refine ⟨by rw [hcnt]; exact hs.1, ?_⟩
  intro i hi
  rw [hcnt] at hi
  obtain ⟨o, ho, hoi⟩ := hs.2 i hi
  have h := hidx i
  rw [ho] at h
  cases h2 : c2.onoff[i]? with
  | none => rw [h2] at h; exact Option.noConfusion h
  | some o2 =>
    rw [h2] at h
    refine ⟨o2, rfl, ?_⟩
    have h3 : o2.idx = o.idx := Option.some.inj h
    rw [h3, hoi]

theorem start_sound (N : Nat) (cfg : ClockConfig) (p fn : Nat) (hs : Sound N cfg)
    (hp : p < cfg.onoff_cnt) : Sound N (onoff_start_option N cfg p fn).1 := by
  obtain ⟨⟨o, ho, _, hcfg⟩, _⟩ := start_effect N cfg p fn hs hp
  obtain ⟨hlen, _⟩ := List.getElem?_eq_some.mp ho
  rw [hcfg]
  refine sound_of_slots N cfg _ hs ?_ ?_
  · rfl
  intro j
  show ((cfg.onoff.set p { o with notify := some fn })[j]?).map
    (fun o : ClockOnoff => o.idx) = _
  by_cases hj : p = j
  · subst hj
    rw [List.getElem?_set_self hlen, ho]
    rfl
  · rw [List.getElem?_set_ne hj]

theorem stop_sound (N : Nat) (cfg : ClockConfig) (p fn : Nat) (hN : N ≤ 32) (hs : Sound N cfg)
    (hp : p < cfg.onoff_cnt) : Sound N (onoff_stop_option N cfg p fn).1 := by
  rw [(stop_effect N cfg p fn hN hs hp).1]
  refine sound_of_slots N cfg _ hs ?_ ?_
  · rfl
  · intro j
    rfl

theorem begin_sound (N : Nat) (cfg : ClockConfig) (hs : Sound N cfg) :
    Sound N (nrf2_clock_config_update_begin N cfg).1 := by
  rw [update_begin_cfg]
  refine sound_of_slots N cfg _ hs ?_ ?_
  · rfl
  · intro j
    rfl

theorem finish_sound (N : Nat) (cfg : ClockConfig) (status : Int) (hs : Sound N cfg) :
    Sound N (nrf2_clock_config_update_end N cfg status).1 := by
  obtain ⟨_, h2, h3, _, _⟩ := finish_effect N cfg status
  refine sound_of_slots N cfg _ hs h2 ?_
  intro j
  rw [h3 j]
  split
  · cases cfg.onoff[j]? <;> rfl
  · rfl

/-! ## The invariant of the transition system -/

theorem queue_after_request (b2 b1 : Bool) (q : Nat) (hq : q ≤ 1)
    (h1 : 0 < q → b2 = true ∧ b1 = false) (h2 : b2 = true → b1 = true ∨ 0 < q) :
    q + (if b2 = true ∨ b1 = true then 0 else 1) ≤ 1 ∧
    (0 < q + (if b2 = true ∨ b1 = true then 0 else 1) → b1 = false) ∧
    (b1 = true ∨ 0 < q + (if b2 = true ∨ b1 = true then 0 else 1)) := by
  cases b2 <;> cases b1 <;> simp at h1 h2 ⊢ <;> omega

theorem queue_after_finish (b2 b1 : Bool) (q : Nat) (hq : q ≤ 1)
    (h1 : 0 < q → b2 = true ∧ b1 = false) (h2 : b2 = true → b1 = true ∨ 0 < q) :
    q + (if b1 = true ∧ b2 = true then 1 else 0) ≤ 1 ∧
    (0 < q + (if b1 = true ∧ b2 = true then 1 else 0) → b2 = true) ∧
    (b2 = true → 0 < q + (if b1 = true ∧ b2 = true then 1 else 0)) := by
  cases b2 <;> cases b1 <;> simp at h1 h2 ⊢ <;> omega

theorem step_start_eq (N : Nat) (s s2 : Sys) (i fn : Nat)
    (h : step N s (Call.start i fn) = some s2) :
    i < s.cfg.onoff_cnt ∧ s2.cfg = (onoff_start_option N s.cfg i fn).1 ∧
    s2.queued = s.queued + submits (onoff_start_option N s.cfg i fn).2 ∧
    s2.recent = i :: s.recent := by
  simp only [step] at h
  by_cases hi : i < s.cfg.onoff_cnt
  · rw [if_pos hi] at h
    have h2 := Option.some.inj h
    subst h2
    exact ⟨hi, rfl, rfl, rfl⟩
  · rw [if_neg hi] at h
    exact Option.noConfusion h

theorem step_stop_eq (N : Nat) (s s2 : Sys) (i fn : Nat)
    (h : step N s (Call.stop i fn) = some s2) :
    i < s.cfg.onoff_cnt ∧ s2.cfg = (onoff_stop_option N s.cfg i fn).1 ∧
    s2.queued = s.queued + submits (onoff_stop_option N s.cfg i fn).2 ∧
    s2.recent = s.recent := by
  simp only [step] at h
  by_cases hi : i < s.cfg.onoff_cnt
  · rw [if_pos hi] at h
    have h2 := Option.some.inj h
    subst h2
    exact ⟨hi, rfl, rfl, rfl⟩
  · rw [if_neg hi] at h
    exact Option.noConfusion h

theorem step_work_eq (N : Nat) (s s2 : Sys) (h : step N s Call.work = some s2) :
    0 < s.queued ∧ s2.cfg = (nrf2_clock_config_update_begin N s.cfg).1 ∧
    s2.queued = s.queued - 1 ∧ s2.recent = [] := by
  simp only [step] at h
  by_cases hq : 0 < s.queued
  · rw [if_pos hq] at h
    have h2 := Option.some.inj h
    subst h2
    exact ⟨hq, rfl, rfl, rfl⟩
  · rw [if_neg hq] at h
    exact Option.noConfusion h

theorem step_finish_eq (N : Nat) (s s2 : Sys) (status : Int)
    (h : step N s (Call.finish status) = some s2) :
    s2.cfg = (nrf2_clock_config_update_end N s.cfg status).1 ∧
    s2.queued = s.queued + submits (nrf2_clock_config_update_end N s.cfg status).2 ∧
    s2.recent = s.recent := by
  simp only [step] at h
  have h2 := Option.some.inj h
  subst h2
  exact ⟨rfl, rfl, rfl⟩

theorem submits_stop_calls (c : Prop) [Decidable c] (fn p : Nat) (st : Int) :
    submits ((if c then [] else [Event.work_submit]) ++ [Event.notify fn p st]) =
      if c then 0 else 1 := by
  unfold submits
  split <;> simp [Event.isSubmit]

/-- Every enabled call keeps the invariant. -/
theorem step_coherent (N : Nat) (hN2 : 2 ≤ N) (hN : N ≤ 32) (s s2 : Sys) (c : Call)
    (hc : Coherent N s) (hstep : step N s c = some s2) : Coherent N s2 := by
  obtain ⟨hsound, hq, hq1, hq2, hgap⟩ := hc
  have hcnt : s.cfg.onoff_cnt ≤ N - 2 := hsound.1
  have e21 : ¬ (N - 2 = N - 1) := by omega
  have e12 : ¬ (N - 1 = N - 2) := by omega
  cases c with
  | start i fn =>
    obtain ⟨hi, hcfg, hqueue, _⟩ := step_start_eq N s s2 i fn hstep
    have hev := (start_effect N s.cfg i fn hsound hi).2
    have hbits := start_bits N s.cfg i fn hsound hi
    have hcnt2 : s2.cfg.onoff_cnt = s.cfg.onoff_cnt := by
      obtain ⟨⟨o, _, _, hc2⟩, _⟩ := start_effect N s.cfg i fn hsound hi
      rw [hcfg, hc2]
    have ei2 : ¬ (i = N - 2) := by omega
    have ei1 : ¬ (i = N - 1) := by omega
    have hb2 : s2.cfg.flags.testBit (N - 2) = true := by
      rw [hcfg, hbits]; simp
    have hb1 : s2.cfg.flags.testBit (N - 1) = s.cfg.flags.testBit (N - 1) := by
      rw [hcfg, hbits]; simp [ei1, e21]
    rw [hev, submits_calls] at hqueue
    obtain ⟨a1, a2, a3⟩ := queue_after_request _ _ s.queued hq hq1 hq2
    refine ⟨by rw [hcfg]; exact start_sound N s.cfg i fn hsound hi, ?_, ?_, ?_, ?_⟩
    · rw [hqueue]; exact a1
    · intro hpos
      rw [hqueue] at hpos
      exact ⟨hb2, by rw [hb1]; exact a2 hpos⟩
    · intro _
      rw [hb1, hqueue]
      exact a3
    · intro j hj1 hj2
      rw [hcnt2] at hj1
      have e1 : ¬ (i = j) := by omega
      have e2 : ¬ (N - 2 = j) := by omega
      rw [hcfg, hbits, hgap j hj1 hj2]
      simp [e1, e2]
  | stop i fn =>
    obtain ⟨hi, hcfg, hqueue, _⟩ := step_stop_eq N s s2 i fn hstep
    obtain ⟨hc2, hev⟩ := stop_effect N s.cfg i fn hN hsound hi
    have hbits := stop_bits N s.cfg i fn hN hsound hi
    have hcnt2 : s2.cfg.onoff_cnt = s.cfg.onoff_cnt := by rw [hcfg, hc2]
    have ei2 : ¬ (i = N - 2) := by omega
    have ei1 : ¬ (i = N - 1) := by omega
    have hb2 : s2.cfg.flags.testBit (N - 2) = true := by
      rw [hcfg, hbits _ (by omega)]; simp
    have hb1 : s2.cfg.flags.testBit (N - 1) = s.cfg.flags.testBit (N - 1) := by
      rw [hcfg, hbits _ (by omega)]; simp [ei1, e21]
    rw [hev, submits_stop_calls] at hqueue
    obtain ⟨a1, a2, a3⟩ := queue_after_request _ _ s.queued hq hq1 hq2
    refine ⟨by rw [hcfg]; exact stop_sound N s.cfg i fn hN hsound hi, ?_, ?_, ?_, ?_⟩
    · rw [hqueue]; exact a1
    · intro hpos
      rw [hqueue] at hpos
      exact ⟨hb2, by rw [hb1]; exact a2 hpos⟩
    · intro _
      rw [hb1, hqueue]
      exact a3
    · intro j hj1 hj2
      rw [hcnt2] at hj1
      have e2 : ¬ (N - 2 = j) := by omega
      rw [hcfg, hbits j (by omega), hgap j hj1 hj2]
      simp [e2]
  | work =>
    obtain ⟨hpos, hcfg, hqueue, _⟩ := step_work_eq N s s2 hstep
    have hbits := begin_bits N s.cfg hN
    have hq0 : s2.queued = 0 := by omega
    refine ⟨by rw [hcfg]; exact begin_sound N s.cfg hsound, by omega, ?_, ?_, ?_⟩
    · intro h; omega
    · intro h
      rw [hcfg, hbits _ (by omega)] at h
      simp at h
    · intro j hj1 hj2
      have hj1b : s.cfg.onoff_cnt ≤ j := by
        rw [hcfg] at hj1; exact hj1
      have e1 : ¬ (N - 1 = j) := by omega
      rw [hcfg, hbits j (by omega), hgap j hj1b hj2]
      simp [e1]
  | finish status =>
    obtain ⟨hcfg, hqueue, _⟩ := step_finish_eq N s s2 status hstep
    obtain ⟨_, hcnt2, _, _, hsub⟩ := finish_effect N s.cfg status
    have hbits := finish_bits N s.cfg status hN (by omega)
    have hlt : ¬ (N - 2 < s.cfg.onoff_cnt) := by omega
    have hb2 : s2.cfg.flags.testBit (N - 2) = s.cfg.flags.testBit (N - 2) := by
      rw [hcfg, hbits _ (by omega)]; simp [e12, hlt]
    have hb1 : s2.cfg.flags.testBit (N - 1) = false := by
      rw [hcfg, hbits _ (by omega)]; simp
    rw [hsub] at hqueue
    obtain ⟨a1, a2, a3⟩ := queue_after_finish _ _ s.queued hq hq1 hq2
    refine ⟨by rw [hcfg]; exact finish_sound N s.cfg status hsound, ?_, ?_, ?_, ?_⟩
    · rw [hqueue]; exact a1
    · intro hpos
      rw [hqueue] at hpos
      exact ⟨by rw [hb2]; exact a2 hpos, hb1⟩
    · intro h
      rw [hb2] at h
      right
      rw [hqueue]
      exact a3 h
    · intro j hj1 hj2
      have hj1b : s.cfg.onoff_cnt ≤ j := by
        rw [hcfg, hcnt2] at hj1; exact hj1
      rw [hcfg, hbits j (by omega), hgap j hj1b hj2]
      simp

/-- A property kept by every enabled call holds after every sequence of calls. -/
theorem exec_keeps (N : Nat) (P : Sys → Prop)
    (hstep : ∀ s s2 c, P s → step N s c = some s2 → P s2) :
    ∀ (tr : List Call) (s0 s : Sys), P s0 → exec N s0 tr = some s → P s := by
  intro tr
  induction tr with
  | nil =>
    intro s0 s h0 he
    have : s0 = s := Option.some.inj he
    rw [← this]; exact h0
  | cons c cs ih =>
    intro s0 s h0 he
    unfold exec at he
    cases hs : step N s0 c with
    | none => rw [hs] at he; exact Option.noConfusion he
    | some s1 =>
      rw [hs] at he
      exact ih s1 s (hstep s0 s1 c h0 hs) he

theorem idle_coherent (N : Nat) (s0 : Sys) (h : Idle N s0) : Coherent N s0 := by
  obtain ⟨hq, hf, hs, _⟩ := h
  refine ⟨hs, by omega, ?_, ?_, ?_⟩
  · intro hpos; omega
  · intro hb
    rw [hf, Nat.zero_testBit] at hb
    exact Bool.noConfusion hb
  · intro j _ _
    rw [hf, Nat.zero_testBit]

theorem exec_coherent (N : Nat) (hN2 : 2 ≤ N) (hN : N ≤ 32) (tr : List Call) (s0 s : Sys)
    (h0 : Idle N s0) (he : exec N s0 tr = some s) : Coherent N s :=
  exec_keeps N (Coherent N) (fun a b c ha hb => step_coherent N hN2 hN a b c ha hb) tr s0 s
    (idle_coherent N s0 h0) he

theorem idleSys_idle (N cnt : Nat) (h : cnt ≤ ONOFF_CNT_MAX N) : Idle N (idleSys cnt) := by
  refine ⟨rfl, rfl, mkConfig_sound N 0 cnt h, ?_⟩
  intro i hi
  have hi : i < cnt := hi
  show (match ((List.range cnt).map (fun i => ({ notify := none, idx := i } : ClockOnoff)))[i]?
    with
    | none => none
    | some o => o.notify) = none
  rw [List.getElem?_map, List.getElem?_range hi]
  rfl

theorem start_cnt (N : Nat) (cfg : ClockConfig) (p fn : Nat) :
    (onoff_start_option N cfg p fn).1.onoff_cnt = cfg.onoff_cnt := by
  unfold onoff_start_option
  cases cfg.onoff[p]? with
  | none => rfl
  | some o =>
    show (update_config N _).1.onoff_cnt = _
    rw [update_config_cfg]

theorem stop_cnt (N : Nat) (cfg : ClockConfig) (p fn : Nat) :
    (onoff_stop_option N cfg p fn).1.onoff_cnt = cfg.onoff_cnt := by
  unfold onoff_stop_option
  cases cfg.onoff[p]? with
  | none => rfl
  | some o =>
    show (update_config N _).1.onoff_cnt = _
    rw [update_config_cfg]

theorem step_cnt (N : Nat) (s s2 : Sys) (c : Call) (h : step N s c = some s2) :
    s2.cfg.onoff_cnt = s.cfg.onoff_cnt := by
  cases c with
  | start i fn => rw [(step_start_eq N s s2 i fn h).2.1, start_cnt]
  | stop i fn => rw [(step_stop_eq N s s2 i fn h).2.1, stop_cnt]
  | work => rw [(step_work_eq N s s2 h).2.1, update_begin_cfg]
  | finish status => rw [(step_finish_eq N s s2 status h).1, (finish_effect N s.cfg status).2.1]

theorem exec_cnt (N : Nat) (tr : List Call) (s0 s : Sys) (he : exec N s0 tr = some s) :
    s.cfg.onoff_cnt = s0.cfg.onoff_cnt :=
  exec_keeps N (fun t => t.cfg.onoff_cnt = s0.cfg.onoff_cnt)
    (fun a b c ha hb => (step_cnt N a b c hb).trans ha) tr s0 s rfl he

/-! ## At most one update in flight, no lost update, valid index -/

/-- C13: in every state reached from an idle driver by start, stop, work and finish calls,
a set UPDATE_IN_PROGRESS means that the work unit is not queued, so the work call (which
runs `nrf2_clock_config_update_begin`) is not enabled while a pass is between its begin and
its end. -/
theorem one_update_in_flight (N : Nat) (hN2 : 2 ≤ N) (hN : N ≤ 32) (tr : List Call)
    (s0 s : Sys) (h0 : Idle N s0) (he : exec N s0 tr = some s) :
    (s.cfg.flags.testBit (N - 1) = true → s.queued = 0) ∧
    (s.cfg.flags.testBit (N - 1) = true → step N s Call.work = none) := by
  obtain ⟨_, _, hq1, _, _⟩ := exec_coherent N hN2 hN tr s0 s h0 he
  have hzero : s.cfg.flags.testBit (N - 1) = true → s.queued = 0 := by
    intro hprog
    by_contra hne
    have h := (hq1 (Nat.pos_of_ne_zero hne)).2
    rw [hprog] at h
    exact Bool.noConfusion h
  refine ⟨hzero, ?_⟩
  intro hprog
  have hq := hzero hprog
  simp only [step]
  rw [if_neg (by omega)]

/-- Witness of C13: `N = 10`, eight options; option 2 is started and the work unit runs:
the pass is in flight and the work unit is not queued. -/
theorem one_update_in_flight_witness :
    exec 10 (idleSys 8) [Call.start 2 7, Call.work] =
      some { cfg := mkWaiting 516 772 8 2 7, queued := 0, recent := [] } ∧
    (mkWaiting 516 772 8 2 7).flags.testBit 9 = true ∧
    step 10 { cfg := mkWaiting 516 772 8 2 7, queued := 0, recent := [] } Call.work = none :=
  ⟨by decide, by decide,
    (one_update_in_flight 10 (by decide) (by decide) [Call.start 2 7, Call.work] (idleSys 8)
      { cfg := mkWaiting 516 772 8 2 7, queued := 0, recent := [] }
      (idleSys_idle 10 8 (by decide)) (by decide)).2 (by decide)⟩

theorem step_work_some (N : Nat) (s : Sys) (h : 0 < s.queued) :
    step N s Call.work =
      some { cfg := (nrf2_clock_config_update_begin N s.cfg).1, queued := s.queued - 1,
             recent := [] } := by
  simp only [step]
  rw [if_pos h]

theorem step_finish_some (N : Nat) (s : Sys) (status : Int) :
    step N s (Call.finish status) =
      some { cfg := (nrf2_clock_config_update_end N s.cfg status).1,
             queued := s.queued + submits (nrf2_clock_config_update_end N s.cfg status).2,
             recent := s.recent } := rfl

/-- The completion of a pass in a coherent state: UPDATE_IN_PROGRESS is clear afterwards,
UPDATE_NEEDED is kept, and when UPDATE_NEEDED is set the work unit is queued afterwards,
by the resubmission of the completion when a pass was in progress. -/
theorem finish_rearms (N : Nat) (hN2 : 2 ≤ N) (hN : N ≤ 32) (s s2 : Sys) (status : Int)
    (hc : Coherent N s) (hstep : step N s (Call.finish status) = some s2) :
    s2.cfg.flags.testBit (N - 1) = false ∧
    s2.cfg.flags.testBit (N - 2) = s.cfg.flags.testBit (N - 2) ∧
    (s.cfg.flags.testBit (N - 2) = true → s2.queued = 1) ∧
    (s.cfg.flags.testBit (N - 1) = true → s.cfg.flags.testBit (N - 2) = true →
      submits (nrf2_clock_config_update_end N s.cfg status).2 = 1) := by
  obtain ⟨hsound, hq, hq1, hq2, _⟩ := hc
  have hcnt : s.cfg.onoff_cnt ≤ N - 2 := hsound.1
  obtain ⟨hcfg, hqueue, _⟩ := step_finish_eq N s s2 status hstep
  obtain ⟨_, _, _, _, hsub⟩ := finish_effect N s.cfg status
  have hbits := finish_bits N s.cfg status hN (by omega)
  have e12 : ¬ (N - 1 = N - 2) := by omega
  have hlt : ¬ (N - 2 < s.cfg.onoff_cnt) := by omega
  refine ⟨?_, ?_, ?_, ?_⟩
  · rw [hcfg, hbits _ (by omega)]; simp
  · rw [hcfg, hbits _ (by omega)]; simp [e12, hlt]
  · intro hneeded
    rw [hqueue, hsub]
    by_cases hprog : s.cfg.flags.testBit (N - 1) = true
    · have hzero : s.queued = 0 := by
        by_contra hne
        have h := (hq1 (Nat.pos_of_ne_zero hne)).2
        rw [hprog] at h
        exact Bool.noConfusion h
      have hboth : s.cfg.flags.testBit (N - 1) = true ∧ s.cfg.flags.testBit (N - 2) = true :=
        ⟨hprog, hneeded⟩
      rw [if_pos hboth, hzero]
    · have hnot : ¬ (s.cfg.flags.testBit (N - 1) = true ∧
          s.cfg.flags.testBit (N - 2) = true) := fun h => hprog h.1
      rw [if_neg hnot]
      rcases hq2 hneeded with h | h
      · exact absurd h hprog
      · omega
  · intro hprog hneeded
    have hboth : s.cfg.flags.testBit (N - 1) = true ∧ s.cfg.flags.testBit (N - 2) = true :=
      ⟨hprog, hneeded⟩
    rw [hsub, if_pos hboth]

/-- C14: in every state reached from an idle driver, a set UPDATE_NEEDED is covered by a
pass in progress or by a queued work unit, and at most one submission of the work unit is
outstanding. Every further start or stop leaves UPDATE_NEEDED set and covered in the same
way, and when the work unit runs, the snapshot it captures holds every option bit of the
flags as they stand. The completion of a pass clears UPDATE_IN_PROGRESS, keeps
UPDATE_NEEDED and, when UPDATE_NEEDED is set, leaves the work unit queued: a change that
landed during the pass makes the completion resubmit the work unit. So with UPDATE_NEEDED
set the next pass can always run: the work unit is queued, or the completion of the pass
in progress queues it, and that pass captures the option bits in its snapshot. -/
theorem no_lost_update (N : Nat) (hN2 : 2 ≤ N) (hN : N ≤ 32) (tr : List Call)
    (s0 s : Sys) (h0 : Idle N s0) (he : exec N s0 tr = some s) :
    (s.cfg.flags.testBit (N - 2) = true →
      s.cfg.flags.testBit (N - 1) = true ∨ 0 < s.queued) ∧
    s.queued ≤ 1 ∧
    (∀ i fn s2, (step N s (Call.start i fn) = some s2 ∨ step N s (Call.stop i fn) = some s2) →
      s2.cfg.flags.testBit (N - 2) = true ∧
      (s2.cfg.flags.testBit (N - 1) = true ∨ 0 < s2.queued) ∧ s2.queued ≤ 1) ∧
    (∀ s2, step N s Call.work = some s2 → ∀ j, j < N - 2 →
      s2.cfg.flags_snapshot.testBit j = s.cfg.flags.testBit j) ∧
    (∀ status s2, step N s (Call.finish status) = some s2 →
      s2.cfg.flags.testBit (N - 1) = false ∧
      s2.cfg.flags.testBit (N - 2) = s.cfg.flags.testBit (N - 2) ∧
      (s.cfg.flags.testBit (N - 2) = true → s2.queued = 1) ∧
      (s.cfg.flags.testBit (N - 1) = true → s.cfg.flags.testBit (N - 2) = true →
        (nrf2_clock_config_update_end N s.cfg status).2.filter Event.isSubmit =
          [Event.work_submit])) ∧
    (s.cfg.flags.testBit (N - 2) = true → s.cfg.flags.testBit (N - 1) = false →
      ∃ s3, step N s Call.work = some s3 ∧
        ∀ j, j < N - 2 → s3.cfg.flags_snapshot.testBit j = s.cfg.flags.testBit j) ∧
    (s.cfg.flags.testBit (N - 2) = true → s.cfg.flags.testBit (N - 1) = true →
      ∀ status, ∃ s2 s3, step N s (Call.finish status) = some s2 ∧
        step N s2 Call.work = some s3 ∧
        ∀ j, j < N - 2 → s3.cfg.flags_snapshot.testBit j = s2.cfg.flags.testBit j) := by
  have hc := exec_coherent N hN2 hN tr s0 s h0 he
  have hsound := hc.1
  have hsnap : ∀ (t : Sys) (j : Nat), j < N - 2 →
      (nrf2_clock_config_update_begin N t.cfg).1.flags_snapshot.testBit j =
        t.cfg.flags.testBit j := by
    intro t j hj
    have e : ¬ (N - 1 = j) := by omega
    rw [begin_snapshot_bits N t.cfg j (by omega)]
    simp [e]
  refine ⟨hc.2.2.2.1, hc.2.1, ?_, ?_, ?_, ?_, ?_⟩
  · intro i fn s2 hstep
    have hneeded : s2.cfg.flags.testBit (N - 2) = true := by
      rcases hstep with h | h
      · obtain ⟨hi, hcfg, _, _⟩ := step_start_eq N s s2 i fn h
        rw [hcfg, start_bits N s.cfg i fn hsound hi]
        simp
      · obtain ⟨hi, hcfg, _, _⟩ := step_stop_eq N s s2 i fn h
        rw [hcfg, stop_bits N s.cfg i fn hN hsound hi _ (by omega)]
        simp
    have hc2 : Coherent N s2 := by
      rcases hstep with h | h
      · exact step_coherent N hN2 hN s s2 _ hc h
      · exact step_coherent N hN2 hN s s2 _ hc h
    exact ⟨hneeded, hc2.2.2.2.1 hneeded, hc2.2.1⟩
  · intro s2 hstep j hj
    obtain ⟨_, hcfg, _, _⟩ := step_work_eq N s s2 hstep
    rw [hcfg]
    exact hsnap s j hj
  · intro status s2 hstep
    obtain ⟨k1, k2, k3, _⟩ := finish_rearms N hN2 hN s s2 status hc hstep
    refine ⟨k1, k2, k3, ?_⟩
    intro hprog hneeded
    have hfilter := (update_end_live_spec N s.cfg status hprog).2.2.2.2.2
    rw [hfilter, if_pos hneeded]
  · intro hneeded hidle
    have hpos : 0 < s.queued := by
      rcases hc.2.2.2.1 hneeded with h | h
      · rw [hidle] at h; exact Bool.noConfusion h
      · exact h
    exact ⟨_, step_work_some N s hpos, fun j hj => hsnap s j hj⟩
  · intro hneeded _ status
    have hstep := step_finish_some N s status
    have hq := (finish_rearms N hN2 hN s _ status hc hstep).2.2.1 hneeded
    refine ⟨_, _, hstep, step_work_some N _ (by rw [hq]; exact Nat.one_pos), ?_⟩
    intro j hj
    exact hsnap _ j hj

/-- Witness of C14: `N = 10`, eight options. Three requests in a row (start 1, stop 3,
stop 2) on an idle driver leave UPDATE_NEEDED set and one queued work unit. And when option
1 is stopped while the pass started for option 0 is in flight, the completion of that pass
resubmits the work unit. -/
theorem no_lost_update_witness :
    exec 10 (idleSys 8) [Call.start 1 7, Call.stop 3 9, Call.stop 2 9] =
      some { cfg := mkWaiting 258 0 8 1 7, queued := 1, recent := [1] } ∧
    (mkWaiting 258 0 8 1 7).flags.testBit 8 = true ∧
    (({ cfg := mkWaiting 258 0 8 1 7, queued := 1, recent := [1] } : Sys).queued ≤ 1) ∧
    exec 10 (idleSys 8) [Call.start 0 7, Call.work, Call.stop 1 9] =
      some { cfg := mkWaiting 769 769 8 0 7, queued := 0, recent := [] } ∧
    step 10 { cfg := mkWaiting 769 769 8 0 7, queued := 0, recent := [] } (Call.finish 0) =
      some { cfg := mkWaiting 257 769 8 8 0, queued := 1, recent := [] } ∧
    (({ cfg := mkWaiting 257 769 8 8 0, queued := 1, recent := [] } : Sys).queued = 1) :=
  ⟨by decide, by decide,
    (no_lost_update 10 (by decide) (by decide) [Call.start 1 7, Call.stop 3 9, Call.stop 2 9]
      (idleSys 8) { cfg := mkWaiting 258 0 8 1 7, queued := 1, recent := [1] }
      (idleSys_idle 10 8 (by decide)) (by decide)).2.1,
    by decide, by decide,
    ((no_lost_update 10 (by decide) (by decide) [Call.start 0 7, Call.work, Call.stop 1 9]
      (idleSys 8) { cfg := mkWaiting 769 769 8 0 7, queued := 0, recent := [] }
      (idleSys_idle 10 8 (by decide)) (by decide)).2.2.2.2.1 0
      { cfg := mkWaiting 257 769 8 8 0, queued := 1, recent := [] } (by decide)).2.2.1
      (by decide)⟩

/-- C20: in every state reached from an idle driver with at least one option, no flag bit
in the positions from `onoff_cnt` up to `N - 3` is set, and
`nrf2_clock_config_update_begin` returns an index below `onoff_cnt`, although the snapshot
it scans has UPDATE_IN_PROGRESS set. -/
theorem begin_index_valid (N : Nat) (hN2 : 2 ≤ N) (hN : N ≤ 32) (tr : List Call)
    (s0 s : Sys) (h0 : Idle N s0) (h1 : 1 ≤ s0.cfg.onoff_cnt)
    (he : exec N s0 tr = some s) :
    (∀ j, s.cfg.onoff_cnt ≤ j → j < N - 2 → s.cfg.flags.testBit j = false) ∧
    (nrf2_clock_config_update_begin N s.cfg).2 < s.cfg.onoff_cnt ∧
    s.cfg.onoff_cnt = s0.cfg.onoff_cnt ∧
    (nrf2_clock_config_update_begin N s.cfg).1.flags_snapshot.testBit (N - 1) = true := by
  obtain ⟨_, _, _, _, hgap⟩ := exec_coherent N hN2 hN tr s0 s h0 he
  have hcnt := exec_cnt N tr s0 s he
  refine ⟨hgap, ?_, hcnt, ?_⟩
  · by_cases hsome : ∃ i, i < N - 2 ∧ s.cfg.flags.testBit i = true
    · obtain ⟨hlt, hbit, _⟩ := update_begin_index_some N s.cfg hN hsome
      by_contra hge
      have := hgap _ (Nat.le_of_not_lt hge) hlt
      rw [hbit] at this
      exact Bool.noConfusion this
    · have hnone : ∀ i, i < N - 2 → s.cfg.flags.testBit i = false := by
        intro i hi
        cases hb : s.cfg.flags.testBit i
        · rfl
        · exact absurd ⟨i, hi, hb⟩ hsome
      rw [update_begin_index_none N s.cfg hN hnone]
      omega
  · rw [begin_snapshot_bits N s.cfg (N - 1) (by omega)]
    simp

/-- Witness of C20: `N = 10`, three options; options 0 and 2 are started and the work unit
is queued: `nrf2_clock_config_update_begin` returns 2. -/
theorem begin_index_valid_witness :
    (nrf2_clock_config_update_begin 10
      ({ cfg := { mkWaiting 261 0 3 0 7 with
                  onoff := [{ notify := some 7, idx := 0 }, { notify := none, idx := 1 },
                            { notify := some 5, idx := 2 }] },
         queued := 1, recent := [2, 0] } : Sys).cfg).2 < 3 ∧
    (nrf2_clock_config_update_begin 10
      ({ cfg := { mkWaiting 261 0 3 0 7 with
                  onoff := [{ notify := some 7, idx := 0 }, { notify := none, idx := 1 },
                            { notify := some 5, idx := 2 }] },
         queued := 1, recent := [2, 0] } : Sys).cfg).2 = 2 :=
  ⟨(begin_index_valid 10 (by decide) (by decide) [Call.start 0 7, Call.start 2 5] (idleSys 3)
      { cfg := { mkWaiting 261 0 3 0 7 with
                  onoff := [{ notify := some 7, idx := 0 }, { notify := none, idx := 1 },
                            { notify := some 5, idx := 2 }] },
         queued := 1, recent := [2, 0] }
      (idleSys_idle 10 3 (by decide)) (by decide) (by decide)).2.1,
    by decide⟩

/-! ## Pending notifications along the calls -/

theorem start_pending (N : Nat) (cfg : ClockConfig) (p fn : Nat) (hs : Sound N cfg)
    (hp : p < cfg.onoff_cnt) (j : Nat) :
    pending_notify (onoff_start_option N cfg p fn).1 j =
      if j = p then some fn else pending_notify cfg j := by
  obtain ⟨⟨o, ho, _, hcfg⟩, _⟩ := start_effect N cfg p fn hs hp
  obtain ⟨hlen, _⟩ := List.getElem?_eq_some.mp ho
  rw [hcfg]
  unfold pending_notify
  show (match (cfg.onoff.set p { o with notify := some fn })[j]? with
    | none => none
    | some o => o.notify) = _
  by_cases hj : j = p
  · subst hj
    rw [List.getElem?_set_self hlen, if_pos rfl]
  · rw [List.getElem?_set_ne (fun h => hj h.symm), if_neg hj]

theorem finish_pending (N : Nat) (cfg : ClockConfig) (status : Int) (j : Nat) :
    pending_notify (nrf2_clock_config_update_end N cfg status).1 j =
      if cfg.flags.testBit (N - 1) = true ∧ j < cfg.onoff_cnt ∧ notified cfg j = true then none
      else pending_notify cfg j := by
  obtain ⟨_, _, h3, _, _⟩ := finish_effect N cfg status
  unfold pending_notify
  rw [h3 j]
  by_cases hc : cfg.flags.testBit (N - 1) = true ∧ j < cfg.onoff_cnt ∧ notified cfg j = true
  · rw [if_pos hc, if_pos hc]
    cases cfg.onoff[j]? <;> rfl
  · rw [if_neg hc, if_neg hc]

theorem notified_eq_true (cfg : ClockConfig) (j : Nat) :
    notified cfg j = true ↔
      (cfg.flags_snapshot.testBit j = true ∧ pending_notify cfg j ≠ none) := by
  unfold notified
  cases hp : pending_notify cfg j <;> simp

/-- The callback invocations of a completion for an option in the snapshot of the pass in
progress that has a pending notification. -/
theorem finish_notifies (N : Nat) (cfg : ClockConfig) (status : Int) (j fn : Nat)
    (hprog : cfg.flags.testBit (N - 1) = true) (hj : j < cfg.onoff_cnt)
    (hsnap : cfg.flags_snapshot.testBit j = true) (hp : pending_notify cfg j = some fn) :
    (nrf2_clock_config_update_end N cfg status).2.filter (Event.isNotifyOf j) =
      [Event.notify fn j status] := by
  obtain ⟨_, _, _, h4, _⟩ := finish_effect N cfg status
  have hc : cfg.flags.testBit (N - 1) = true ∧ j < cfg.onoff_cnt := ⟨hprog, hj⟩
  rw [h4 j, if_pos hc]
  simp [end_notice, hsnap, hp]

/-- A completion notifies only options of the snapshot, and only while a pass is in
progress. -/
theorem finish_notifies_only (N : Nat) (cfg : ClockConfig) (status : Int) (j : Nat)
    (h : (nrf2_clock_config_update_end N cfg status).2.filter (Event.isNotifyOf j) ≠ []) :
    cfg.flags.testBit (N - 1) = true ∧ j < cfg.onoff_cnt ∧
    cfg.flags_snapshot.testBit j = true ∧ pending_notify cfg j ≠ none := by
  obtain ⟨_, _, _, h4, _⟩ := finish_effect N cfg status
  rw [h4 j] at h
  by_cases hc : cfg.flags.testBit (N - 1) = true ∧ j < cfg.onoff_cnt
  · rw [if_pos hc] at h
    have hn : notified cfg j = true := by
      cases hnot : notified cfg j
      · exact absurd (end_notice_skip status cfg j hnot) h
      · rfl
    have := (notified_eq_true cfg j).mp hn
    exact ⟨hc.1, hc.2, this.1, this.2⟩
  · rw [if_neg hc] at h
    exact absurd rfl h

/-- A property kept by every enabled call that follows the gate protocol holds after every
sequence of calls that follows the gate protocol. -/
theorem exec_gate_keeps (N : Nat) (P : Sys → Prop)
    (hstep : ∀ s s2 c, P s → (∀ i fn, c = Call.stop i fn → pending_notify s.cfg i = none) →
      step N s c = some s2 → P s2) :
    ∀ (tr : List Call) (s0 s : Sys), P s0 → gate_ok N s0 tr = true →
      exec N s0 tr = some s → P s := by
  intro tr
  induction tr with
  | nil =>
    intro s0 s h0 _ he
    have : s0 = s := Option.some.inj he
    rw [← this]; exact h0
  | cons c cs ih =>
    intro s0 s h0 hg he
    unfold exec at he
    unfold gate_ok at hg
    rw [Bool.and_eq_true] at hg
    cases hs : step N s0 c with
    | none => rw [hs] at he; exact Option.noConfusion he
    | some s1 =>
      rw [hs] at he
      have hg2 : gate_ok N s1 cs = true := by
        have := hg.2
        rw [hs] at this
        exact this
      refine ih s1 s (hstep s0 s1 c h0 ?_ hs) hg2 he
      intro i fn hc
      have := hg.1
      rw [hc] at this
      cases hp : pending_notify s0.cfg i with
      | none => rfl
      | some g =>
        have h2 : (pending_notify s0.cfg i).isNone = true := this
        rw [hp] at h2
        exact Bool.noConfusion h2

/-- Every enabled call that follows the gate protocol keeps `Served`. -/
theorem step_served (N : Nat) (hN2 : 2 ≤ N) (hN : N ≤ 32) (s s2 : Sys) (c : Call)
    (hc : Coherent N s) (hsv : Served N s)
    (hgate : ∀ i fn, c = Call.stop i fn → pending_notify s.cfg i = none)
    (hstep : step N s c = some s2) : Served N s2 := by
  have hsound := hc.1
  have hcnt : s.cfg.onoff_cnt ≤ N - 2 := hsound.1
  have hcnt2 := step_cnt N s s2 c hstep
  intro i hi hp
  rw [hcnt2] at hi
  cases c with
  | start p fn =>
    obtain ⟨hpc, hcfg, _, _⟩ := step_start_eq N s s2 p fn hstep
    have hbits := start_bits N s.cfg p fn hsound hpc
    rw [hcfg, start_pending N s.cfg p fn hsound hpc] at hp
    rw [hcfg]
    refine ⟨?_, Or.inl (by rw [hbits]; simp)⟩
    rw [hbits]
    by_cases hip : i = p
    · simp [hip]
    · rw [if_neg hip] at hp
      rw [(hsv i hi hp).1]
      simp
  | stop p fn =>
    obtain ⟨hpc, hcfg, _, _⟩ := step_stop_eq N s s2 p fn hstep
    have hbits := stop_bits N s.cfg p fn hN hsound hpc
    have honoff : (onoff_stop_option N s.cfg p fn).1.onoff = s.cfg.onoff := by
      rw [(stop_effect N s.cfg p fn hN hsound hpc).1]
    have hpend : pending_notify s2.cfg i = pending_notify s.cfg i := by
      rw [hcfg]
      unfold pending_notify
      rw [honoff]
    rw [hpend] at hp
    have hne : ¬ (p = i) := by
      intro h
      rw [← h] at hp
      exact hp (hgate p fn rfl)
    rw [hcfg]
    refine ⟨?_, Or.inl (by rw [hbits _ (by omega)]; simp)⟩
    rw [hbits i (by omega), (hsv i hi hp).1]
    simp [hne]
  | work =>
    obtain ⟨_, hcfg, _, _⟩ := step_work_eq N s s2 hstep
    have hpend : pending_notify s2.cfg i = pending_notify s.cfg i := by
      rw [hcfg]; rfl
    rw [hpend] at hp
    have hbit := (hsv i hi hp).1
    have e1 : ¬ (N - 1 = i) := by omega
    have e2 : ¬ (N - 2 = i) := by omega
    rw [hcfg]
    refine ⟨?_, Or.inr ⟨?_, ?_⟩⟩
    · rw [begin_bits N s.cfg hN i (by omega), hbit]
      simp [e2]
    · rw [begin_bits N s.cfg hN (N - 1) (by omega)]
      have : ¬ (N - 2 = N - 1) := by omega
      simp [this]
    · rw [begin_snapshot_bits N s.cfg i (by omega), hbit]
      simp
  | finish status =>
    obtain ⟨hcfg, _, _⟩ := step_finish_eq N s s2 status hstep
    have hbits := finish_bits N s.cfg status hN (by omega)
    rw [hcfg, finish_pending] at hp
    by_cases hfire : s.cfg.flags.testBit (N - 1) = true ∧ i < s.cfg.onoff_cnt ∧
        notified s.cfg i = true
    · rw [if_pos hfire] at hp
      exact absurd rfl hp
    · rw [if_neg hfire] at hp
      obtain ⟨hbit, hcover⟩ := hsv i hi hp
      have hquiet : (s.cfg.flags.testBit (N - 1) &&
          (decide (status < 0) && (decide (i < s.cfg.onoff_cnt) && notified s.cfg i))) =
            false := by
        cases hb : (s.cfg.flags.testBit (N - 1) &&
          (decide (status < 0) && (decide (i < s.cfg.onoff_cnt) && notified s.cfg i)))
        · rfl
        · simp only [Bool.and_eq_true, decide_eq_true_eq] at hb
          exact absurd ⟨hb.1, hb.2.2.1, hb.2.2.2⟩ hfire
      have hneeded : s.cfg.flags.testBit (N - 2) = true := by
        rcases hcover with h | ⟨h1, h2⟩
        · exact h
        · exact absurd ⟨h1, hi, (notified_eq_true s.cfg i).mpr ⟨h2, hp⟩⟩ hfire
      have e1 : ¬ (N - 1 = i) := by omega
      have e12 : ¬ (N - 1 = N - 2) := by omega
      have hlt : ¬ (N - 2 < s.cfg.onoff_cnt) := by omega
      rw [hcfg]
      refine ⟨?_, Or.inl ?_⟩
      · rw [hbits i (by omega), hquiet, hbit]
        simp [e1]
      · rw [hbits (N - 2) (by omega), hneeded]
        simp [e12, hlt]

theorem exec_gate_served (N : Nat) (hN2 : 2 ≤ N) (hN : N ≤ 32) (tr : List Call)
    (s0 s : Sys) (h0 : Idle N s0) (hg : gate_ok N s0 tr = true)
    (he : exec N s0 tr = some s) : Coherent N s ∧ Served N s :=
  exec_gate_keeps N (fun t => Coherent N t ∧ Served N t)
    (fun a b c ha hgate hb =>
      ⟨step_coherent N hN2 hN a b c ha.1 hb, step_served N hN2 hN a b c ha.1 ha.2 hgate hb⟩)
    tr s0 s
    ⟨idle_coherent N s0 h0, fun i hi hp => absurd (h0.2.2.2 i hi) hp⟩ hg he

/-! ## No start request is dropped -/

/-- An option with its bit set in the flags and a pending notification is notified by the
completion of the pass that begins now. -/
theorem begin_then_finish_notifies (N : Nat) (hN2 : 2 ≤ N) (hN : N ≤ 32) (cfg : ClockConfig)
    (status : Int) (i fn : Nat) (hcnt : cfg.onoff_cnt ≤ N - 2) (hi : i < cfg.onoff_cnt)
    (hbit : cfg.flags.testBit i = true) (hp : pending_notify cfg i = some fn) :
    (nrf2_clock_config_update_end N (nrf2_clock_config_update_begin N cfg).1 status).2.filter
      (Event.isNotifyOf i) = [Event.notify fn i status] := by
  have e21 : ¬ (N - 2 = N - 1) := by omega
  apply finish_notifies
  · rw [begin_bits N cfg hN (N - 1) (by omega)]
    simp [e21]
  · rw [update_begin_cfg]
    exact hi
  · rw [begin_snapshot_bits N cfg i (by omega), hbit]
    simp
  · rw [update_begin_cfg]
    exact hp

/-- C19: in every state reached from an idle driver by calls that follow the gate protocol
(no stop for an option with a pending notification), every option below `onoff_cnt` with a
pending notification has its bit set in the flags, and UPDATE_NEEDED is set or
UPDATE_IN_PROGRESS is set with the option's bit in the snapshot. The waiter is notified by
the completion of the current or of the requested pass: when the bit is in the snapshot of
the pass in progress, the completion of that pass invokes the pending callback; when no
pass is in progress, the work unit is queued and the completion of the pass it begins
invokes the callback; and when a pass is in progress without the bit in its snapshot, its
completion invokes nothing for the option and resubmits the work unit, and the completion
of the pass that then begins invokes the callback. -/
theorem no_start_dropped (N : Nat) (hN2 : 2 ≤ N) (hN : N ≤ 32) (tr : List Call)
    (s0 s : Sys) (h0 : Idle N s0) (hg : gate_ok N s0 tr = true)
    (he : exec N s0 tr = some s) (i fn : Nat) (hi : i < s.cfg.onoff_cnt)
    (hp : pending_notify s.cfg i = some fn) :
    s.cfg.flags.testBit i = true ∧
    (s.cfg.flags.testBit (N - 2) = true ∨
      (s.cfg.flags.testBit (N - 1) = true ∧ s.cfg.flags_snapshot.testBit i = true)) ∧
    (s.cfg.flags.testBit (N - 1) = true → s.cfg.flags_snapshot.testBit i = true →
      ∀ status, (nrf2_clock_config_update_end N s.cfg status).2.filter (Event.isNotifyOf i) =
        [Event.notify fn i status]) ∧
    (s.cfg.flags.testBit (N - 2) = true →
      s.cfg.flags.testBit (N - 1) = true ∨ 0 < s.queued) ∧
    (s.cfg.flags.testBit (N - 1) = false →
      ∀ status, ∃ s3, step N s Call.work = some s3 ∧
        (nrf2_clock_config_update_end N s3.cfg status).2.filter (Event.isNotifyOf i) =
          [Event.notify fn i status]) ∧
    (s.cfg.flags.testBit (N - 1) = true → s.cfg.flags_snapshot.testBit i = false →
      ∀ status1 status2,
        (nrf2_clock_config_update_end N s.cfg status1).2.filter (Event.isNotifyOf i) = [] ∧
        ∃ s2 s3, step N s (Call.finish status1) = some s2 ∧
          step N s2 Call.work = some s3 ∧
          (nrf2_clock_config_update_end N s3.cfg status2).2.filter (Event.isNotifyOf i) =
            [Event.notify fn i status2]) := by
  obtain ⟨hc, hsv⟩ := exec_gate_served N hN2 hN tr s0 s h0 hg he
  have hcnt : s.cfg.onoff_cnt ≤ N - 2 := hc.1.1
  have hne : pending_notify s.cfg i ≠ none := by rw [hp]; exact Option.some_ne_none fn
  obtain ⟨hbit, hcover⟩ := hsv i hi hne
  refine ⟨hbit, hcover, ?_, hc.2.2.2.1, ?_, ?_⟩
  · intro hprog hsnap status
    exact finish_notifies N s.cfg status i fn hprog hi hsnap hp
  · intro hidle status
    have hneeded : s.cfg.flags.testBit (N - 2) = true := by
      rcases hcover with h | h
      · exact h
      · rw [hidle] at h; exact Bool.noConfusion h.1
    have hpos : 0 < s.queued := by
      rcases hc.2.2.2.1 hneeded with h | h
      · rw [hidle] at h; exact Bool.noConfusion h
      · exact h
    exact ⟨_, step_work_some N s hpos,
      begin_then_finish_notifies N hN2 hN s.cfg status i fn hcnt hi hbit hp⟩
  · intro hprog hsnap status1 status2
    have hneeded : s.cfg.flags.testBit (N - 2) = true := by
      rcases hcover with h | h
      · exact h
      · rw [hsnap] at h; exact Bool.noConfusion h.2
    have hnot : notified s.cfg i = false := by
      unfold notified
      rw [hsnap]
      rfl
    have hquiet : ¬ (s.cfg.flags.testBit (N - 1) = true ∧ i < s.cfg.onoff_cnt ∧
        notified s.cfg i = true) := by
      intro h
      rw [hnot] at h
      exact Bool.noConfusion h.2.2
    have hstep := step_finish_some N s status1
    have hq := (finish_rearms N hN2 hN s _ status1 hc hstep).2.2.1 hneeded
    obtain ⟨_, hcnt2, _, hev, _⟩ := finish_effect N s.cfg status1
    have hp2 : pending_notify (nrf2_clock_config_update_end N s.cfg status1).1 i = some fn := by
      rw [finish_pending, if_neg hquiet]
      exact hp
    have hbit2 : (nrf2_clock_config_update_end N s.cfg status1).1.flags.testBit i = true := by
      have e1 : ¬ (N - 1 = i) := by omega
      rw [finish_bits N s.cfg status1 hN (by omega) i (by omega), hbit, hnot]
      simp [e1]
    refine ⟨?_, _, _, hstep, step_work_some N _ (by rw [hq]; exact Nat.one_pos), ?_⟩
    · rw [hev i]
      have hin : s.cfg.flags.testBit (N - 1) = true ∧ i < s.cfg.onoff_cnt := ⟨hprog, hi⟩
      rw [if_pos hin]
      exact end_notice_skip status1 s.cfg i hnot
    · exact begin_then_finish_notifies N hN2 hN _ status2 i fn (by rw [hcnt2]; exact hcnt)
        (by rw [hcnt2]; exact hi) hbit2 hp2

/-- Witness of C19: `N = 10`, eight options. Option 2 is started and the work unit runs:
option 2 waits for callback 7, its bit is set in the flags and in the snapshot of the pass
in progress. And when option 3 is started with callback 5 while a pass without its bit is
in flight, the completion of that pass makes no call for option 3 and the completion of
the pass after it invokes callback 5. -/
theorem no_start_dropped_witness :
    gate_ok 10 (idleSys 8) [Call.start 2 7, Call.work] = true ∧
    (mkWaiting 516 772 8 2 7).flags.testBit 2 = true ∧
    ((mkWaiting 516 772 8 2 7).flags.testBit 8 = true ∨
      ((mkWaiting 516 772 8 2 7).flags.testBit 9 = true ∧
        (mkWaiting 516 772 8 2 7).flags_snapshot.testBit 2 = true)) ∧
    gate_ok 10 (idleSys 8)
      [Call.start 2 7, Call.work, Call.finish 0, Call.stop 2 9, Call.work, Call.start 3 5] =
        true ∧
    exec 10 (idleSys 8)
      [Call.start 2 7, Call.work, Call.finish 0, Call.stop 2 9, Call.work, Call.start 3 5] =
        some { cfg := mkWaiting 776 768 8 3 5, queued := 0, recent := [3] } ∧
    (nrf2_clock_config_update_end 10 (mkWaiting 776 768 8 3 5) 0).2.filter
      (Event.isNotifyOf 3) = [] ∧
    (exec 10 { cfg := mkWaiting 776 768 8 3 5, queued := 0, recent := [3] }
      [Call.finish 0, Call.work]).map
        (fun s3 => (nrf2_clock_config_update_end 10 s3.cfg (-1)).2.filter
          (Event.isNotifyOf 3)) = some [Event.notify 5 3 (-1)] :=
  ⟨by decide,
    (no_start_dropped 10 (by decide) (by decide) [Call.start 2 7, Call.work] (idleSys 8)
      { cfg := mkWaiting 516 772 8 2 7, queued := 0, recent := [] }
      (idleSys_idle 10 8 (by decide)) (by decide) (by decide) 2 7 (by decide) (by decide)).1,
    (no_start_dropped 10 (by decide) (by decide) [Call.start 2 7, Call.work] (idleSys 8)
      { cfg := mkWaiting 516 772 8 2 7, queued := 0, recent := [] }
      (idleSys_idle 10 8 (by decide)) (by decide) (by decide) 2 7 (by decide) (by decide)).2.1,
    by decide, by decide,
    ((no_start_dropped 10 (by decide) (by decide)
      [Call.start 2 7, Call.work, Call.finish 0, Call.stop 2 9, Call.work, Call.start 3 5]
      (idleSys 8) { cfg := mkWaiting 776 768 8 3 5, queued := 0, recent := [3] }
      (idleSys_idle 10 8 (by decide)) (by decide) (by decide) 3 5 (by decide)
      (by decide)).2.2.2.2.2 (by decide) (by decide) 0 (-1)).1,
    by decide⟩

/-! ## Which pass notifies a start -/

/-- Every enabled call keeps `Fresh`. -/
theorem step_fresh (N : Nat) (hN2 : 2 ≤ N) (hN : N ≤ 32) (s s2 : Sys) (c : Call)
    (hc : Coherent N s) (hf : Fresh N s) (hstep : step N s c = some s2) : Fresh N s2 := by
  have hsound := hc.1
  have hcnt : s.cfg.onoff_cnt ≤ N - 2 := hsound.1
  have hcnt2 := step_cnt N s s2 c hstep
  have e21 : ¬ (N - 2 = N - 1) := by omega
  intro hprog i hi
  rw [hcnt2]
  cases c with
  | start p fn =>
    obtain ⟨hpc, hcfg, _, hrecent⟩ := step_start_eq N s s2 p fn hstep
    have ep1 : ¬ (p = N - 1) := by omega
    have hprog0 : s.cfg.flags.testBit (N - 1) = true := by
      rw [hcfg, start_bits N s.cfg p fn hsound hpc] at hprog
      simpa [ep1, e21] using hprog
    rw [hcfg, start_pending N s.cfg p fn hsound hpc]
    rw [hrecent] at hi
    by_cases hip : i = p
    · rw [if_pos hip, hip]
      exact ⟨hpc, Option.some_ne_none fn⟩
    · rw [if_neg hip]
      rcases List.mem_cons.mp hi with h | h
      · exact absurd h hip
      · exact hf hprog0 i h
  | stop p fn =>
    obtain ⟨hpc, hcfg, _, hrecent⟩ := step_stop_eq N s s2 p fn hstep
    have ep1 : ¬ (p = N - 1) := by omega
    have hprog0 : s.cfg.flags.testBit (N - 1) = true := by
      rw [hcfg, stop_bits N s.cfg p fn hN hsound hpc _ (by omega)] at hprog
      simpa [ep1, e21] using hprog
    have honoff : (onoff_stop_option N s.cfg p fn).1.onoff = s.cfg.onoff := by
      rw [(stop_effect N s.cfg p fn hN hsound hpc).1]
    have hpend : pending_notify s2.cfg i = pending_notify s.cfg i := by
      rw [hcfg]
      unfold pending_notify
      rw [honoff]
    rw [hpend]
    rw [hrecent] at hi
    exact hf hprog0 i hi
  | work =>
    obtain ⟨_, _, _, hrecent⟩ := step_work_eq N s s2 hstep
    rw [hrecent] at hi
    exact absurd hi (List.not_mem_nil i)
  | finish status =>
    obtain ⟨hcfg, _, _⟩ := step_finish_eq N s s2 status hstep
    rw [hcfg, finish_bits N s.cfg status hN (by omega) _ (by omega)] at hprog
    simp at hprog

theorem exec_fresh (N : Nat) (hN2 : 2 ≤ N) (hN : N ≤ 32) (tr : List Call)
    (s0 s : Sys) (h0 : Idle N s0) (hr : s0.recent = []) (he : exec N s0 tr = some s) :
    Coherent N s ∧ Fresh N s :=
  exec_keeps N (fun t => Coherent N t ∧ Fresh N t)
    (fun a b c ha hb =>
      ⟨step_coherent N hN2 hN a b c ha.1 hb, step_fresh N hN2 hN a b c ha.1 ha.2 hb⟩)
    tr s0 s
    ⟨idle_coherent N s0 h0, fun _ i hi => by rw [hr] at hi; exact absurd hi (List.not_mem_nil i)⟩
    he

/-- C18 as stated fails: `N = 10`, eight options, every stop issued for an option without
pending notification. Option 0 is started and its pass completes; option 1 is started and
the work unit runs, capturing a snapshot with the bits of options 0 and 1 while option 0
has no pending notification; then, with that pass in flight, option 0 is stopped and
started again with callback 5. The completion of the pass in flight invokes callback 5,
recorded by a start issued after the snapshot was captured. -/
theorem late_start_notified_in_flight :
    gate_ok 10 (idleSys 8)
      [Call.start 0 7, Call.work, Call.finish 0, Call.start 1 8, Call.work,
        Call.stop 0 9, Call.start 0 5] = true ∧
    (exec 10 (idleSys 8)
      [Call.start 0 7, Call.work, Call.finish 0, Call.start 1 8, Call.work]).map
        (fun s => (s.cfg.flags_snapshot.testBit 0, pending_notify s.cfg 0, s.recent)) =
      some (true, none, []) ∧
    (exec 10 (idleSys 8)
      [Call.start 0 7, Call.work, Call.finish 0, Call.start 1 8, Call.work,
        Call.stop 0 9, Call.start 0 5]).map
        (fun s => (s.cfg.flags.testBit 9, s.recent,
          (nrf2_clock_config_update_end 10 s.cfg 0).2)) =
      some (true, [0], [Event.notify 5 0 0, Event.notify 8 1 0, Event.work_submit]) := by
  decide

/-- C18, amended: a completion invokes the notification of option `i` only while a pass is
in progress and only when bit `i` is in the snapshot captured at the begin of that pass.
The start that recorded the notification may have been issued after that begin: for an
option started while the pass is in flight, the completion of that pass invokes the
recorded callback when the option's bit is in the snapshot in flight, and when the bit is
not in that snapshot the completion invokes nothing for the option and leaves its
notification pending for a later pass. -/
theorem finish_notifies_by_snapshot (N : Nat) (hN2 : 2 ≤ N) (hN : N ≤ 32) (tr : List Call)
    (s0 s : Sys) (h0 : Idle N s0) (hr : s0.recent = []) (he : exec N s0 tr = some s)
    (status : Int) (i : Nat) :
    ((nrf2_clock_config_update_end N s.cfg status).2.filter (Event.isNotifyOf i) ≠ [] →
      s.cfg.flags.testBit (N - 1) = true ∧ i < s.cfg.onoff_cnt ∧
      s.cfg.flags_snapshot.testBit i = true) ∧
    (i ∈ s.recent → s.cfg.flags.testBit (N - 1) = true →
      (s.cfg.flags_snapshot.testBit i = true →
        ∃ fn, pending_notify s.cfg i = some fn ∧
          (nrf2_clock_config_update_end N s.cfg status).2.filter (Event.isNotifyOf i) =
            [Event.notify fn i status]) ∧
      (s.cfg.flags_snapshot.testBit i = false →
        (nrf2_clock_config_update_end N s.cfg status).2.filter (Event.isNotifyOf i) = [] ∧
        pending_notify (nrf2_clock_config_update_end N s.cfg status).1 i =
          pending_notify s.cfg i ∧
        pending_notify s.cfg i ≠ none)) := by
  obtain ⟨_, hfresh⟩ := exec_fresh N hN2 hN tr s0 s h0 hr he
  constructor
  · intro hne
    obtain ⟨h1, h2, h3, _⟩ := finish_notifies_only N s.cfg status i hne
    exact ⟨h1, h2, h3⟩
  · intro hi hprog
    obtain ⟨hlt, hpend⟩ := hfresh hprog i hi
    constructor
    · intro hsnap
      cases hp : pending_notify s.cfg i with
      | none => exact absurd hp hpend
      | some fn => exact ⟨fn, rfl, finish_notifies N s.cfg status i fn hprog hlt hsnap hp⟩
    · intro hsnap
      have hnot : notified s.cfg i = false := by
        unfold notified
        rw [hsnap]
        rfl
      refine ⟨?_, ?_, hpend⟩
      · by_contra hne
        have := (finish_notifies_only N s.cfg status i hne).2.2.1
        rw [hsnap] at this
        exact Bool.noConfusion this
      · rw [finish_pending]
        have hc : ¬ (s.cfg.flags.testBit (N - 1) = true ∧ i < s.cfg.onoff_cnt ∧
            notified s.cfg i = true) := by
          intro h
          rw [hnot] at h
          exact Bool.noConfusion h.2.2
        rw [if_neg hc]

/-- Witness of the amended C18: `N = 10`, eight options; option 3 is started and stopped,
the work unit runs (the snapshot has no bit of option 3), and option 3 is started again
with callback 5 while the pass is in flight: the completion of that pass makes no call for
option 3. -/
theorem finish_notifies_by_snapshot_witness :
    exec 10 (idleSys 8) [Call.start 3 7, Call.stop 3 9, Call.work, Call.start 3 5] =
      some { cfg := mkWaiting 776 768 8 3 5, queued := 0, recent := [3] } ∧
    (nrf2_clock_config_update_end 10 (mkWaiting 776 768 8 3 5) 0).2.filter
      (Event.isNotifyOf 3) = [] :=
  ⟨by decide,
    (((finish_notifies_by_snapshot 10 (by decide) (by decide)
      [Call.start 3 7, Call.stop 3 9, Call.work, Call.start 3 5] (idleSys 8)
      { cfg := mkWaiting 776 768 8 3 5, queued := 0, recent := [3] }
      (idleSys_idle 10 8 (by decide)) rfl (by decide) 0 3).2 (by decide) (by decide)).2
      (by decide)).1⟩

/-! ## Forcing the main power domain: the list and the register -/

/-- Writing a value of the field: `POWERON &= ~Msk; POWERON |= v` leaves `v` in the field. -/
theorem poweron_field_write (m : PoweronMain) (hmsk : m.Msk < 2 ^ 32) (r v : Nat)
    (hv : v &&& m.Msk = v) : ((r &&& NOT m.Msk) ||| v) &&& m.Msk = v := by
  apply Nat.eq_of_testBit_eq
  intro i
  have hvi : v.testBit i = (v.testBit i && m.Msk.testBit i) := by
    conv => lhs; rw [← hv]
    rw [Nat.testBit_and]
  rw [Nat.testBit_and, Nat.testBit_or, Nat.testBit_and]
  unfold NOT
  rw [Nat.testBit_xor, Nat.testBit_two_pow_sub_one]
  cases hm : m.Msk.testBit i with
  | false =>
    rw [hm] at hvi
    have hv0 : v.testBit i = false := by
      rw [hvi]
      exact Bool.and_false _
    rw [hv0]
    simp
  | true =>
    have hi : i < 32 := by
      by_contra h
      rw [testBit_of_lt_word hmsk (Nat.le_of_not_lt h)] at hm
      exact Bool.noConfusion hm
    simp [hi]

theorem request_list (m : PoweronMain) (st : PoweronState) (sink : Nat) :
    (nrf2_clock_request_lrcconf_poweron_main m st sink).poweron_main_list =
      st.poweron_main_list.erase sink ++ [sink] := rfl

theorem request_register (m : PoweronMain) (st : PoweronState) (sink : Nat) :
    (nrf2_clock_request_lrcconf_poweron_main m st sink).POWERON =
      if st.poweron_main_list = [] then (st.POWERON &&& NOT m.Msk) ||| m.AlwaysOn
      else st.POWERON := by
  unfold nrf2_clock_request_lrcconf_poweron_main sys_slist_len
  dsimp only
  by_cases h : st.poweron_main_list = []
  · rw [if_pos h, if_pos (by rw [h]; rfl)]
  · rw [if_neg h, if_neg (fun hl => h (List.eq_nil_of_length_eq_zero hl))]

theorem release_absent (m : PoweronMain) (st : PoweronState) (sink : Nat)
    (h : sink ∉ st.poweron_main_list) :
    nrf2_clock_release_lrcconf_poweron_main m st sink = st := by
  unfold nrf2_clock_release_lrcconf_poweron_main sys_slist_find_and_remove
  dsimp only
  rw [decide_eq_false h, List.erase_of_not_mem h]
  rfl

theorem release_present (m : PoweronMain) (st : PoweronState) (sink : Nat)
    (h : sink ∈ st.poweron_main_list) :
    nrf2_clock_release_lrcconf_poweron_main m st sink =
      if st.poweron_main_list.erase sink = [] then
        { poweron_main_list := st.poweron_main_list.erase sink,
          POWERON := (st.POWERON &&& NOT m.Msk) ||| m.Automatic }
      else { st with poweron_main_list := st.poweron_main_list.erase sink } := by
  unfold nrf2_clock_release_lrcconf_poweron_main sys_slist_find_and_remove sys_slist_len
  dsimp only
  rw [decide_eq_true h]
  by_cases he : st.poweron_main_list.erase sink = []
  · rw [if_pos he, he]
    rfl
  · rw [if_neg he]
    have hpos : (st.poweron_main_list.erase sink).length > 0 :=
      List.length_pos.mpr he
    simp [hpos]

/-- The facts about the list and the register that every call of an owner keeps. -/
theorem sink_step_keeps (m : PoweronMain) (hm : m.valid) (st : PoweronState) (c : SinkCall)
    (hnd : st.poweron_main_list.Nodup)
    (hon : st.poweron_main_list ≠ [] → st.POWERON &&& m.Msk = m.AlwaysOn)
    (hoff : st.poweron_main_list = [] → st.POWERON &&& m.Msk = m.Automatic) :
    (sink_step m st c).poweron_main_list.Nodup ∧
    ((sink_step m st c).poweron_main_list ≠ [] →
      (sink_step m st c).POWERON &&& m.Msk = m.AlwaysOn) ∧
    ((sink_step m st c).poweron_main_list = [] →
      (sink_step m st c).POWERON &&& m.Msk = m.Automatic) := by
  obtain ⟨hmsk, hvon, hvoff, _⟩ := hm
  cases c with
  | acquire sink =>
    simp only [sink_step]
    rw [request_list, request_register]
    refine ⟨?_, ?_, ?_⟩
    · rw [List.nodup_append]
      refine ⟨hnd.erase sink, List.nodup_singleton sink, ?_⟩
      intro a ha hb
      rw [List.mem_singleton] at hb
      rw [hb] at ha
      exact hnd.not_mem_erase ha
    · intro _
      by_cases h : st.poweron_main_list = []
      · rw [if_pos h]
        exact poweron_field_write m hmsk _ _ hvon
      · rw [if_neg h]
        exact hon h
    · intro h
      exact absurd h (by simp)
  | release sink =>
    simp only [sink_step]
    by_cases hin : sink ∈ st.poweron_main_list
    · rw [release_present m st sink hin]
      by_cases he : st.poweron_main_list.erase sink = []
      · rw [if_pos he]
        refine ⟨hnd.erase sink, fun h => absurd he h, fun _ => ?_⟩
        exact poweron_field_write m hmsk _ _ hvoff
      · rw [if_neg he]
        refine ⟨hnd.erase sink, fun _ => ?_, fun h => absurd h he⟩
        exact hon (List.ne_nil_of_mem hin)
    · rw [release_absent m st sink hin]
      exact ⟨hnd, hon, hoff⟩

/-- The list after a call holds exactly the sinks held after it. -/
theorem sink_step_members (m : PoweronMain) (st : PoweronState) (c : SinkCall)
    (h : Nat → Bool) (hnd : st.poweron_main_list.Nodup)
    (hmem : ∀ x, x ∈ st.poweron_main_list ↔ h x = true) :
    ∀ x, x ∈ (sink_step m st c).poweron_main_list ↔ held_step h c x = true := by
  intro x
  cases c with
  | acquire sink =>
    simp only [sink_step, held_step]
    rw [request_list, List.mem_append, List.mem_singleton, hnd.mem_erase_iff, hmem x]
    by_cases hx : x = sink
    · simp [hx]
    · simp [hx]
  | release sink =>
    simp only [sink_step, held_step]
    by_cases hin : sink ∈ st.poweron_main_list
    · have hl : (nrf2_clock_release_lrcconf_poweron_main m st sink).poweron_main_list =
          st.poweron_main_list.erase sink := by
        rw [release_present m st sink hin]
        split <;> rfl
      rw [hl, hnd.mem_erase_iff, hmem x]
      by_cases hx : x = sink
      · simp [hx]
      · simp [hx]
    · rw [release_absent m st sink hin, hmem x]
      by_cases hx : x = sink
      · have : h sink = false := by
          cases hh : h sink
          · rfl
          · exact absurd ((hmem sink).mpr hh) hin
        simp [hx, this]
      · simp [hx]

theorem sink_run_keeps (m : PoweronMain) (hm : m.valid) (calls : List SinkCall) :
    ∀ (st : PoweronState) (h : Nat → Bool), st.poweron_main_list.Nodup →
    (st.poweron_main_list ≠ [] → st.POWERON &&& m.Msk = m.AlwaysOn) →
    (st.poweron_main_list = [] → st.POWERON &&& m.Msk = m.Automatic) →
    (∀ x, x ∈ st.poweron_main_list ↔ h x = true) →
    (sink_run m st calls).poweron_main_list.Nodup ∧
    ((sink_run m st calls).poweron_main_list ≠ [] →
      (sink_run m st calls).POWERON &&& m.Msk = m.AlwaysOn) ∧
    ((sink_run m st calls).poweron_main_list = [] →
      (sink_run m st calls).POWERON &&& m.Msk = m.Automatic) ∧
    (∀ x, x ∈ (sink_run m st calls).poweron_main_list ↔
      calls.foldl held_step h x = true) := by
  induction calls with
  | nil =>
    intro st h hnd hon hoff hmem
    exact ⟨hnd, hon, hoff, hmem⟩
  | cons c cs ih =>
    intro st h hnd hon hoff hmem
    obtain ⟨k1, k2, k3⟩ := sink_step_keeps m hm st c hnd hon hoff
    exact ih (sink_step m st c) (held_step h c) k1 k2 k3
      (sink_step_members m st c h hnd hmem)

theorem samplePoweronMain_valid : samplePoweronMain.valid :=
  ⟨by decide, by decide, by decide, by decide⟩

/-- C15: starting from an empty list with the MAIN field Automatic, after every sequence of
acquire and release calls the MAIN field is AlwaysOn exactly when the list is not empty and
Automatic exactly when it is empty; the list has no duplicates and holds exactly the sinks
acquired and not released since, so the field is AlwaysOn exactly when such a sink exists. -/
theorem poweron_main_forced_iff (m : PoweronMain) (hm : m.valid) (st0 : PoweronState)
    (hl : st0.poweron_main_list = []) (hr : st0.POWERON &&& m.Msk = m.Automatic)
    (calls : List SinkCall) :
    ((sink_run m st0 calls).POWERON &&& m.Msk = m.AlwaysOn ↔
      (sink_run m st0 calls).poweron_main_list ≠ []) ∧
    ((sink_run m st0 calls).POWERON &&& m.Msk = m.Automatic ↔
      (sink_run m st0 calls).poweron_main_list = []) ∧
    (sink_run m st0 calls).poweron_main_list.Nodup ∧
    (∀ x, x ∈ (sink_run m st0 calls).poweron_main_list ↔ held calls x = true) ∧
    ((sink_run m st0 calls).POWERON &&& m.Msk = m.AlwaysOn ↔ ∃ x, held calls x = true) := by
  have hne : m.AlwaysOn ≠ m.Automatic := hm.2.2.2
  obtain ⟨k1, k2, k3, k4⟩ := sink_run_keeps m hm calls st0 (fun _ => false)
    (by rw [hl]; exact List.nodup_nil) (fun h => absurd hl h) (fun _ => hr)
    (by intro x; rw [hl]; simp)
  have hon : (sink_run m st0 calls).POWERON &&& m.Msk = m.AlwaysOn ↔
      (sink_run m st0 calls).poweron_main_list ≠ [] := by
    constructor
    · intro h hnil
      rw [k3 hnil] at h
      exact hne h.symm
    · exact k2
  refine ⟨hon, ?_, k1, k4, ?_⟩
  · constructor
    · intro h
      by_contra hnil
      rw [k2 hnil] at h
      exact hne h
    · exact k3
  · rw [hon]
    constructor
    · intro h
      obtain ⟨x, hx⟩ := List.exists_mem_of_ne_nil _ h
      exact ⟨x, (k4 x).mp hx⟩
    · rintro ⟨x, hx⟩
      exact List.ne_nil_of_mem ((k4 x).mpr hx)

/-- Witness of C15: sinks `A = 100` and `B = 200`, the register starting with another bit
set and the MAIN field Automatic. `acquire A; acquire A; release A` ends Automatic;
`acquire A; acquire B; release A` ends AlwaysOn and a following `release B` ends
Automatic. -/
theorem poweron_main_forced_iff_witness :
    ((sink_run samplePoweronMain { poweron_main_list := [], POWERON := 2 }
        [SinkCall.acquire 100, SinkCall.acquire 100, SinkCall.release 100]).POWERON &&&
      samplePoweronMain.Msk = samplePoweronMain.Automatic) ∧
    ((sink_run samplePoweronMain { poweron_main_list := [], POWERON := 2 }
        [SinkCall.acquire 100, SinkCall.acquire 200, SinkCall.release 100]).POWERON &&&
      samplePoweronMain.Msk = samplePoweronMain.AlwaysOn) ∧
    ((sink_run samplePoweronMain { poweron_main_list := [], POWERON := 2 }
        [SinkCall.acquire 100, SinkCall.acquire 200, SinkCall.release 100,
          SinkCall.release 200]).POWERON &&&
      samplePoweronMain.Msk = samplePoweronMain.Automatic) ∧
    ((sink_run samplePoweronMain { poweron_main_list := [], POWERON := 2 }
        [SinkCall.acquire 100, SinkCall.acquire 200, SinkCall.release 100]).POWERON &&&
      samplePoweronMain.Msk = samplePoweronMain.AlwaysOn ↔
      (sink_run samplePoweronMain { poweron_main_list := [], POWERON := 2 }
        [SinkCall.acquire 100, SinkCall.acquire 200, SinkCall.release 100]).poweron_main_list
        ≠ []) :=
  ⟨by decide, by decide, by decide,
    (poweron_main_forced_iff samplePoweronMain samplePoweronMain_valid
      { poweron_main_list := [], POWERON := 2 } rfl (by decide)
      [SinkCall.acquire 100, SinkCall.acquire 200, SinkCall.release 100]).1⟩

/-- C16: on a list without duplicates, acquire leaves the other members in their order,
followed by the sink: the list has no duplicates, holds the sink exactly once, as its last
element, and is one longer than before when the sink was absent and as long as before when
it was present. -/
theorem acquire_keeps_nodup (m : PoweronMain) (st : PoweronState) (sink : Nat)
    (hnd : st.poweron_main_list.Nodup) :
    (nrf2_clock_request_lrcconf_poweron_main m st sink).poweron_main_list =
      st.poweron_main_list.filter (fun x => x != sink) ++ [sink] ∧
    (nrf2_clock_request_lrcconf_poweron_main m st sink).poweron_main_list.Nodup ∧
    (nrf2_clock_request_lrcconf_poweron_main m st sink).poweron_main_list.getLast? =
      some sink ∧
    (nrf2_clock_request_lrcconf_poweron_main m st sink).poweron_main_list.count sink = 1 ∧
    (nrf2_clock_request_lrcconf_poweron_main m st sink).poweron_main_list.filter
      (fun x => x != sink) = st.poweron_main_list.filter (fun x => x != sink) ∧
    (sink ∈ st.poweron_main_list →
      (nrf2_clock_request_lrcconf_poweron_main m st sink).poweron_main_list.length =
        st.poweron_main_list.length) ∧
    (sink ∉ st.poweron_main_list →
      (nrf2_clock_request_lrcconf_poweron_main m st sink).poweron_main_list.length =
        st.poweron_main_list.length + 1) := by
  have hnot : sink ∉ st.poweron_main_list.erase sink := hnd.not_mem_erase
  rw [request_list]
  refine ⟨?_, ?_, List.getLast?_concat _, ?_, ?_, ?_, ?_⟩
  · rw [hnd.erase_eq_filter sink]
  · rw [List.nodup_append]
    refine ⟨hnd.erase sink, List.nodup_singleton sink, ?_⟩
    intro a ha hb
    rw [List.mem_singleton] at hb
    rw [hb] at ha
    exact hnot ha
  · rw [List.count_append, List.count_eq_zero_of_not_mem hnot, List.count_singleton_self]
  · rw [hnd.erase_eq_filter sink, List.filter_append, List.filter_filter]
    simp
  · intro hin
    have hpos : 0 < st.poweron_main_list.length := List.length_pos_of_mem hin
    rw [List.length_append, List.length_erase_of_mem hin, List.length_singleton]
    omega
  · intro hout
    rw [List.erase_of_not_mem hout, List.length_append, List.length_singleton]

/-- Witness of C16: the list `[100, 200, 300]`; acquiring 200 gives `[100, 300, 200]`. -/
theorem acquire_keeps_nodup_witness :
    (nrf2_clock_request_lrcconf_poweron_main samplePoweronMain
      { poweron_main_list := [100, 200, 300], POWERON := 1 } 200).poweron_main_list =
      [100, 300, 200] ∧
    (nrf2_clock_request_lrcconf_poweron_main samplePoweronMain
      { poweron_main_list := [100, 200, 300], POWERON := 1 } 200).poweron_main_list.Nodup :=
  ⟨by decide,
    (acquire_keeps_nodup samplePoweronMain
      { poweron_main_list := [100, 200, 300], POWERON := 1 } 200 (by decide)).2.1⟩

/-- C17: on a list without duplicates, release of an absent sink changes neither the list
nor the register; release of a present sink removes exactly that sink, keeping the other
members in their order, and writes Automatic into the MAIN field when the list is empty
afterwards, leaving the register as it was when the list is not empty. -/
theorem release_spec (m : PoweronMain) (hm : m.valid) (st : PoweronState) (sink : Nat)
    (hnd : st.poweron_main_list.Nodup) :
    (sink ∉ st.poweron_main_list →
      nrf2_clock_release_lrcconf_poweron_main m st sink = st) ∧
    (sink ∈ st.poweron_main_list →
      (nrf2_clock_release_lrcconf_poweron_main m st sink).poweron_main_list =
        st.poweron_main_list.filter (fun x => x != sink) ∧
      sink ∉ (nrf2_clock_release_lrcconf_poweron_main m st sink).poweron_main_list ∧
      (nrf2_clock_release_lrcconf_poweron_main m st sink).poweron_main_list.length + 1 =
        st.poweron_main_list.length ∧
      ((nrf2_clock_release_lrcconf_poweron_main m st sink).poweron_main_list = [] →
        (nrf2_clock_release_lrcconf_poweron_main m st sink).POWERON =
          (st.POWERON &&& NOT m.Msk) ||| m.Automatic ∧
        (nrf2_clock_release_lrcconf_poweron_main m st sink).POWERON &&& m.Msk =
          m.Automatic) ∧
      ((nrf2_clock_release_lrcconf_poweron_main m st sink).poweron_main_list ≠ [] →
        (nrf2_clock_release_lrcconf_poweron_main m st sink).POWERON = st.POWERON)) := by
  refine ⟨release_absent m st sink, ?_⟩
  intro hin
  have hpos : 0 < st.poweron_main_list.length := List.length_pos_of_mem hin
  rw [release_present m st sink hin]
  by_cases he : st.poweron_main_list.erase sink = []
  · rw [if_pos he]
    refine ⟨?_, ?_, ?_, ?_, ?_⟩
    · show st.poweron_main_list.erase sink = _
      rw [hnd.erase_eq_filter sink]
    · exact hnd.not_mem_erase
    · show (st.poweron_main_list.erase sink).length + 1 = _
      rw [List.length_erase_of_mem hin]
      omega
    · intro _
      exact ⟨rfl, poweron_field_write m hm.1 _ _ hm.2.2.1⟩
    · intro h
      exact absurd he h
  · rw [if_neg he]
    refine ⟨?_, ?_, ?_, ?_, ?_⟩
    · show st.poweron_main_list.erase sink = _
      rw [hnd.erase_eq_filter sink]
    · exact hnd.not_mem_erase
    · show (st.poweron_main_list.erase sink).length + 1 = _
      rw [List.length_erase_of_mem hin]
      omega
    · intro h
      exact absurd h he
    · intro _
      rfl

/-- Witness of C17: releasing the absent sink 300 from `[100, 200]` changes nothing;
releasing 100 leaves `[200]` and the register; releasing the last sink writes Automatic. -/
theorem release_spec_witness :
    nrf2_clock_release_lrcconf_poweron_main samplePoweronMain
      { poweron_main_list := [100, 200], POWERON := 3 } 300 =
      { poweron_main_list := [100, 200], POWERON := 3 } ∧
    nrf2_clock_release_lrcconf_poweron_main samplePoweronMain
      { poweron_main_list := [100, 200], POWERON := 3 } 100 =
      { poweron_main_list := [200], POWERON := 3 } ∧
    nrf2_clock_release_lrcconf_poweron_main samplePoweronMain
      { poweron_main_list := [200], POWERON := 3 } 200 =
      { poweron_main_list := [], POWERON := 2 } :=
  ⟨(release_spec samplePoweronMain samplePoweronMain_valid
      { poweron_main_list := [100, 200], POWERON := 3 } 300 (by decide)).1 (by decide),
    by decide, by decide⟩

end ClockControlNrf2
